import Mathlib

/-!
# fuse-efs: a shallow embedding of the read-only SGI EFS driver

The C sources (`utils.c`, `efs_vol.c`, `efs_fs.c`, `efs_file.c`, `efs_dir.c`,
`main.c`) are embedded as Lean functions that keep the names of the C
functions.  Conventions:

* machine integers are natural numbers holding the bit pattern of the C
  value; every operation that can wrap is written with an explicit
  `% 2 ^ 32` (or `% 2 ^ 16`); signed values are kept as two's complement
  patterns and sign-extended (`sx16`) or shifted arithmetically (`asr32`)
  where C does so;
* the host is little-endian, so `GET_U16` .. `GET_I32` are the `swap_*`
  functions and a struct field is loaded with `le16` / `le32`;
* a memory object is a function from byte index to byte, indexed from the address
  of the object;
* a C execution that aborts (failed `assert`) or has no defined result
  (division by zero, reads outside an object) is a `Fault`.
-/

namespace EFS

/-! ## Faults and errno values -/

/-- Ways in which the C program stops without returning a value. -/
inductive Fault where
  /-- A failed `assert`: the process aborts. -/
  | assertion
  /-- Undefined behaviour: division by zero, access outside an object. -/
  | undefined
  /-- The loop budget of a model was exhausted (never reached, see the theorems). -/
  | fuel
  deriving DecidableEq, Repr

deriving instance DecidableEq for Except

def ENOENT : Nat := 2
def EINTR : Nat := 4
def EIO : Nat := 5
def ENXIO : Nat := 6
def ENOMEM : Nat := 12
def ENOTDIR : Nat := 20
def EINVAL : Nat := 22

/-! ## utils.h / utils.c -/

/-- The macro `MIN(x, y) ((x) > (y) ? (y) : (x))`. -/
def MIN (x y : Nat) : Nat := if x > y then y else x

/-- The test at the head of `logger`: the message is formatted unless
`msg_level > level`.  `LOG_ERR` calls it with `(0, 0)`, `LOG_DBG2` with
`(fs->log_lvl, 3)`. -/
def logger_formats (level msg_level : Int) : Bool := !decide (msg_level > level)

/-- Promotion of an `int16_t` pattern to a 32-bit `int` pattern (sign extension). -/
def sx16 (v : Nat) : Nat := if v % 2 ^ 16 < 2 ^ 15 then v % 2 ^ 16 else v % 2 ^ 16 + (2 ^ 32 - 2 ^ 16)

/-- Arithmetic right shift of a 32-bit `int` pattern, as compilers implement `>>` on `int`. -/
def asr32 (v k : Nat) : Nat :=
  if v < 2 ^ 31 then v >>> k else (v >>> k) + (2 ^ 32 - 2 ^ (32 - k))

/-- The function `swap_uint16`: `(val << 8) | (val >> 8)`, truncated to 16 bits on return. -/
def swap_uint16 (val : Nat) : Nat := ((val <<< 8) ||| (val >>> 8)) % 2 ^ 16

/-- The function `swap_int16`: `(val << 8) | ((val >> 8) & 0xFF)` on the promoted `int`,
truncated to 16 bits on return. -/
def swap_int16 (val : Nat) : Nat :=
  ((((sx16 val) <<< 8) % 2 ^ 32) ||| ((asr32 (sx16 val) 8) &&& 0xFF)) % 2 ^ 16

/-- The function `swap_uint32`. -/
def swap_uint32 (val : Nat) : Nat :=
  let val1 := (((val <<< 8) % 2 ^ 32) &&& 0xFF00FF00) ||| ((val >>> 8) &&& 0xFF00FF)
  ((val1 <<< 16) % 2 ^ 32) ||| (val1 >>> 16)

/-- The function `swap_int32`; the right shifts act on `int32_t` and are arithmetic. -/
def swap_int32 (val : Nat) : Nat :=
  let val1 := (((val <<< 8) % 2 ^ 32) &&& 0xFF00FF00) ||| ((asr32 val 8) &&& 0xFF00FF)
  ((val1 <<< 16) % 2 ^ 32) ||| ((asr32 val1 16) &&& 0xFFFF)

/-- The macro `GET_U16` on a little-endian host. -/
def GET_U16 (x : Nat) : Nat := swap_uint16 x
/-- The macro `GET_I16` on a little-endian host. -/
def GET_I16 (x : Nat) : Nat := swap_int16 x
/-- The macro `GET_U32` on a little-endian host. -/
def GET_U32 (x : Nat) : Nat := swap_uint32 x
/-- The macro `GET_I32` on a little-endian host. -/
def GET_I32 (x : Nat) : Nat := swap_int32 x

/-- Load of a 16-bit struct field at byte offset `o` of a buffer, little-endian host. -/
def le16 (b : Nat → Nat) (o : Nat) : Nat := b o + 2 ^ 8 * b (o + 1)

/-- Load of a 32-bit struct field at byte offset `o` of a buffer, little-endian host. -/
def le32 (b : Nat → Nat) (o : Nat) : Nat :=
  b o + 2 ^ 8 * b (o + 1) + 2 ^ 16 * b (o + 2) + 2 ^ 24 * b (o + 3)

/-! ## efs_fs.h -/

def EFS_MAGIC : Nat := 0x072959
def EFS_NEWMAGIC : Nat := 0x07295A
def BBS : Nat := 512
def INO_SIZE : Nat := 128
def INOS_PER_BB : Nat := BBS / INO_SIZE
def FIRST_INO : Nat := 2

/-- The macro `IS_EFS_MAGIC`. -/
def IS_EFS_MAGIC (x : Nat) : Bool := x == EFS_MAGIC || x == EFS_NEWMAGIC

/-- The type `efs_sb_t` as the 92 raw bytes read from the image. -/
abbrev efs_sb := Nat → Nat

/-- Raw field `s_first_cg` (byte offset 4), as loaded by the host. -/
def efs_sb.s_first_cg (sb : efs_sb) : Nat := le32 sb 4
/-- Raw field `s_cg_size` (byte offset 8). -/
def efs_sb.s_cg_size (sb : efs_sb) : Nat := le32 sb 8
/-- Raw field `s_cg_ino_bbs` (byte offset 12). -/
def efs_sb.s_cg_ino_bbs (sb : efs_sb) : Nat := le16 sb 12
/-- Raw field `s_magic` (byte offset 28). -/
def efs_sb.s_magic (sb : efs_sb) : Nat := le32 sb 28

/-- The value of `sizeof (efs_sb_t)`. -/
def SIZEOF_SB : Nat := 92

/-- The in-core `efs_fs_t`, with the part of the process around it that the functions
read.  The descriptor `fd` is modelled by the contents `img` and the size `img_size` of
the regular file it refers to; `errno` is the value the C variable `errno` holds (no
modelled call changes it); `junk` is what a buffer that was allocated but not yet
written holds (neither `malloc` nor the stack clear memory); `log_lvl` is the field of
that name, set from the option `--debug`. -/
structure efs_fs where
  img : Nat → Nat
  img_size : Nat
  errno : Nat
  junk : Nat → Nat
  start : Int
  sb : efs_sb
  log_lvl : Int := 0

/-! ## efs_vol.c -/

/-- Return value of one `pread` call: `failed e` is `-1` with `errno = e`. -/
inductive pread_ret where
  | failed (e : Nat)
  | got (n : Nat)
  deriving DecidableEq, Repr

/-- The call `pread(fs->fd, buffer, bytes, offset)` on a regular file: a negative offset
is rejected with `EINVAL`, at or past the end of the file nothing is transferred, and
otherwise the bytes up to the end of the file are. -/
def pread (fs : efs_fs) (bytes : Nat) (offset : Int) : pread_ret :=
  if offset < 0 then .failed EINVAL
  else if fs.img_size ≤ offset.toNat then .got 0
  else .got (min bytes (fs.img_size - offset.toNat))

/-- Memory at `buf` after `n` bytes of the image, from file offset `off` on, were stored
from position `pos` on. -/
def store (fs : efs_fs) (buf : Nat → Nat) (pos off n : Nat) : Nat → Nat :=
  fun i => if pos ≤ i ∧ i < pos + n then fs.img (off + (i - pos)) else buf i

/-- The `do .. while (bytes > 0)` loop of `efs_bread_common`; `pos` is the position
`buffer` has reached inside the destination object.  The file offset is not advanced
by the loop, as in the source. -/
def efs_bread_common_loop (fs : efs_fs) (offset : Int) :
    Nat → (Nat → Nat) → Nat → Nat → Except Fault (Nat × (Nat → Nat))
  | 0, _, _, _ => .error Fault.fuel
  | fuel + 1, buf, pos, bytes =>
    match pread fs bytes offset with
    | .failed e =>
      if e = EINTR then
        (if bytes > 0 then efs_bread_common_loop fs offset fuel buf pos bytes else .ok (0, buf))
      else .error Fault.assertion
    | .got 0 => .ok (fs.errno, buf)
    | .got (k + 1) =>
      let buf1 := store fs buf pos offset.toNat (k + 1)
      if bytes - (k + 1) > 0 then
        efs_bread_common_loop fs offset fuel buf1 (pos + (k + 1)) (bytes - (k + 1))
      else .ok (0, buf1)

/-- The function `efs_bread_common`; returns the error code and the destination object. -/
def efs_bread_common (fs : efs_fs) (offset : Int) (buf : Nat → Nat) (pos bytes : Nat) :
    Except Fault (Nat × (Nat → Nat)) :=
  efs_bread_common_loop fs (offset + fs.start) (bytes + 1) buf pos bytes

/-- The function `efs_bread_bbs`: `bbs * BBS` and `nblks * BBS` are `uint32_t` products. -/
def efs_bread_bbs (fs : efs_fs) (bbs : Nat) (buf : Nat → Nat) (pos nblks : Nat) :
    Except Fault (Nat × (Nat → Nat)) :=
  efs_bread_common fs (((bbs * BBS) % 2 ^ 32 : Nat) : Int) buf pos ((nblks * BBS) % 2 ^ 32)

/-- The function `efs_bread`: `bbs * BBS` is a `uint32_t` product, added to the `off_t`. -/
def efs_bread (fs : efs_fs) (bbs : Nat) (ofs : Int) (buf : Nat → Nat) (bytes : Nat) :
    Except Fault (Nat × (Nat → Nat)) :=
  efs_bread_common fs ((((bbs * BBS) % 2 ^ 32 : Nat) : Int) + ofs) buf 0 bytes

/-- A `pread` call that transfers at most `limit` bytes (a short read); otherwise as
`pread`. -/
def pread_short (fs : efs_fs) (limit bytes : Nat) (offset : Int) : pread_ret :=
  pread fs (min bytes limit) offset

/-- The `do .. while (bytes > 0)` loop of `efs_bread_common` when the successive `pread`
calls transfer at most `limits[0]`, `limits[1]`, .. bytes; the body is that of
`efs_bread_common_loop`. -/
def efs_bread_common_loop_short (fs : efs_fs) (offset : Int) :
    List Nat → (Nat → Nat) → Nat → Nat → Except Fault (Nat × (Nat → Nat))
  | [], _, _, _ => .error Fault.fuel
  | limit :: limits, buf, pos, bytes =>
    match pread_short fs limit bytes offset with
    | .failed e =>
      if e = EINTR then
        (if bytes > 0 then efs_bread_common_loop_short fs offset limits buf pos bytes
         else .ok (0, buf))
      else .error Fault.assertion
    | .got 0 => .ok (fs.errno, buf)
    | .got (k + 1) =>
      let buf1 := store fs buf pos offset.toNat (k + 1)
      if bytes - (k + 1) > 0 then
        efs_bread_common_loop_short fs offset limits buf1 (pos + (k + 1)) (bytes - (k + 1))
      else .ok (0, buf1)

/-- The function `efs_bread_common` over short reads. -/
def efs_bread_common_short (fs : efs_fs) (limits : List Nat) (offset : Int)
    (buf : Nat → Nat) (pos bytes : Nat) : Except Fault (Nat × (Nat → Nat)) :=
  efs_bread_common_loop_short fs (offset + fs.start) limits buf pos bytes

def BOOT_BLOCK_MAGIC : Nat := 0xbe5a941
def VH_PART_NUM : Nat := 16
def PART_EFS : Nat := 5
def EFS_MIN_SIZE : Nat := 10

/-- The value of `sizeof (efs_vol_hdr_t)`. -/
def SIZEOF_VOL_HDR : Nat := 512

/-- Raw field `h_magic` of the volume header (byte offset 0). -/
def h_magic (hdr : Nat → Nat) : Nat := le32 hdr 0
/-- Raw field `h_pt[i].p_blocks` (byte offset `312 + 12 * i`). -/
def p_blocks (hdr : Nat → Nat) (i : Nat) : Nat := le32 hdr (312 + 12 * i)
/-- Raw field `h_pt[i].p_first` (byte offset `316 + 12 * i`). -/
def p_first (hdr : Nat → Nat) (i : Nat) : Nat := le32 hdr (316 + 12 * i)
/-- Raw field `h_pt[i].p_type` (byte offset `320 + 12 * i`). -/
def p_type (hdr : Nat → Nat) (i : Nat) : Nat := le32 hdr (320 + 12 * i)

/-- The number an `int32_t` bit pattern stands for. -/
def int32_val (v : Nat) : Int :=
  if v % 2 ^ 32 < 2 ^ 31 then ((v % 2 ^ 32 : Nat) : Int) else ((v % 2 ^ 32 : Nat) : Int) - 2 ^ 32

/-- The function `efs_get_vol_hdr`: one `pread` of the whole header at file offset 0 into
`hdr`, which starts out as `fs.junk`.  Returns the error code and `hdr`. -/
def efs_get_vol_hdr (fs : efs_fs) : Nat × (Nat → Nat) :=
  match pread fs SIZEOF_VOL_HDR 0 with
  | .failed _ => ( EIO, fs.junk)
  | .got n =>
    let hdr := store fs fs.junk 0 0 n
    if n ≠ SIZEOF_VOL_HDR then ( EIO, hdr)
    else if GET_U32 (h_magic hdr) ≠ BOOT_BLOCK_MAGIC then (EINVAL, hdr)
    else (0, hdr)

/-- The `for` loop of `efs_vol_open` that chooses a partition: `n` iterations remain, `i`
is the index, `part_no` the variable of that name. -/
def efs_vol_open_loop (hdr : Nat → Nat) : Nat → Nat → Int → Int
  | 0, _, part_no => part_no
  | n + 1, i, part_no =>
    let cnt := GET_I32 (p_blocks hdr i)
    let ptype := GET_I32 (p_type hdr i)
    if cnt = 0 then efs_vol_open_loop hdr n (i + 1) part_no
    else if ptype = PART_EFS then efs_vol_open_loop hdr n (i + 1) (i : Int)
    else efs_vol_open_loop hdr n (i + 1) part_no

/-- The function `efs_vol_open` on an image that `open` has opened.  Returns the error
code and `fs`.  `h_pt[part_no]` outside the table has no defined result, and neither has
the `int` product `first * BBS` when it overflows. -/
def efs_vol_open (fs : efs_fs) (part_no : Int) : Except Fault (Nat × efs_fs) :=
  match efs_get_vol_hdr fs with
  | (err, hdr) =>
    if err ≠ 0 then .ok (err, fs)
    else
      let part_no1 :=
        if part_no = -1 then efs_vol_open_loop hdr VH_PART_NUM 0 part_no else part_no
      if part_no = -1 ∧ part_no1 = -1 then .ok ( ENXIO, fs)
      else if part_no1 < 0 ∨ (VH_PART_NUM : Int) ≤ part_no1 then .error Fault.undefined
      else
        let part := part_no1.toNat
        if int32_val (GET_I32 (p_blocks hdr part)) < (EFS_MIN_SIZE : Int) then .ok (EINVAL, fs)
        else
          let start := int32_val (GET_I32 (p_first hdr part)) * (BBS : Int)
          if start < -2 ^ 31 ∨ 2 ^ 31 ≤ start then .error Fault.undefined
          else .ok (0, { fs with start := start })

/-! ## efs_fs.c -/

/-- The function `efs_mount`: reads the super block into `fs->sb` and checks the magic.
Returns the error code and the updated `fs`. -/
def efs_mount (fs : efs_fs) : Except Fault (Nat × efs_fs) :=
  match efs_bread fs 1 0 fs.sb SIZEOF_SB with
  | .error f => .error f
  | .ok (err, sb1) =>
    let fs1 := { fs with sb := sb1 }
    if err ≠ 0 then .ok (err, fs1)
    else if !IS_EFS_MAGIC (GET_I32 fs1.sb.s_magic) then .ok (EINVAL, fs1)
    else .ok (0, fs1)

/-- The function `inode2loc`.  All arithmetic of the C function is unsigned 32-bit:
`ino` is `uint32_t`, so the `int32_t` operands are converted.  Returns `(*blk, *ofs)`. -/
def inode2loc (fs : efs_fs) (ino : Nat) : Except Fault (Nat × Nat) :=
  let cgsize := GET_I32 fs.sb.s_cg_size
  let firstcg := GET_I32 fs.sb.s_first_cg
  let ino_bbs_per_cg := sx16 (GET_I16 fs.sb.s_cg_ino_bbs)
  let inos_per_cg := (ino_bbs_per_cg * INOS_PER_BB) % 2 ^ 32
  if inos_per_cg = 0 then .error Fault.undefined
  else
    let cg := ino / inos_per_cg
    let cgofs := (ino % inos_per_cg) / INOS_PER_BB
    let bbofs := (firstcg + cg * cgsize + cgofs) % 2 ^ 32
    let idx := ino &&& (INOS_PER_BB - 1)
    if (cg * ino_bbs_per_cg * INOS_PER_BB + idx + cgofs * INOS_PER_BB) % 2 ^ 32 = ino then
      .ok (bbofs, idx * INO_SIZE)
    else .error Fault.assertion

/-! ## efs_file.h -/

def EFS_DIRECTEXTENTS : Nat := 12

/-- The macro `EXT_MAGIC`. -/
def EXT_MAGIC (x : Nat) : Nat := x >>> 24
/-- The macro `EXT_BN`. -/
def EXT_BN (x : Nat) : Nat := x &&& 0xffffff
/-- The macro `EXT_LEN`. -/
def EXT_LEN (x : Nat) : Nat := x >>> 24
/-- The macro `EXT_OFFSET`. -/
def EXT_OFFSET (x : Nat) : Nat := x &&& 0xffffff

/-- The macro `EFS_EXTENTS_PER_BB`: `BBS / sizeof (efs_od_extent_t)`. -/
def EFS_EXTENTS_PER_BB : Nat := BBS / 8

/-- Raw field `di_mode` of the 128-byte on-disk inode (byte offset 0). -/
def di_mode (od : Nat → Nat) : Nat := le16 od 0
/-- Raw field `di_nextents` (byte offset 28). -/
def di_nextents (od : Nat → Nat) : Nat := le16 od 28
/-- Raw field `di_u.di_extents[i].ext1` (byte offset `32 + 8 * i`). -/
def di_ext1 (od : Nat → Nat) (i : Nat) : Nat := le32 od (32 + 8 * i)
/-- Raw field `di_u.di_extents[i].ext2` (byte offset `36 + 8 * i`). -/
def di_ext2 (od : Nat → Nat) (i : Nat) : Nat := le32 od (36 + 8 * i)

/-- The in-core extent `efs_extent_t`. -/
structure efs_extent where
  e_offset : Nat
  e_blk : Nat
  e_len : Nat
  deriving DecidableEq, Repr

/-- The in-core inode `efs_inode_t`.  `i_addr` is the address `malloc` returned, the
identity of the record; `i_extents` is the array the pointer refers to.  `i_fs` always
points to the one global `fs`, and `i_stat` is a function of `i_od` and `i_num`; both
are left out. -/
structure efs_inode where
  i_addr : Nat
  i_od : Nat → Nat
  i_num : Nat
  i_mode : Nat
  i_nextents : Nat
  i_extents : List efs_extent
  i_nblks : Nat
  i_nalloc_blks : Nat
  i_flags : Nat

def S_IFMT : Nat := 0xF000
def S_IFDIR : Nat := 0x4000

/-- The macro `IS_DIR`. -/
def IS_DIR (inode : efs_inode) : Bool := (inode.i_mode &&& S_IFMT) == S_IFDIR

def EFS_FLG_BAD_FILE : Nat := 1

/-- The macro `EFS_BAD_FILE`. -/
def EFS_BAD_FILE (i : efs_inode) : Bool := (i.i_flags &&& EFS_FLG_BAD_FILE) != 0

/-- The enumeration `callback_state_t`. -/
inductive callback_state where
  | CONTINUE
  | STOP
  | ERROR
  deriving DecidableEq, Repr

/-! ## efs_file.c -/

/-- The expression `ext[i]` on the array `inode->i_extents`; outside the array the
access has no defined result. -/
def ext_at (inode : efs_inode) (i : Nat) : Except Fault efs_extent :=
  match inode.i_extents.get? i with
  | some e => .ok e
  | none => .error Fault.undefined

/-- The decoding of one on-disk extent: `EXT_BN(ext1)`, `EXT_LEN(ext2)`, `EXT_OFFSET(ext2)`. -/
def decode_extent (ext1 ext2 : Nat) : efs_extent :=
  { e_blk := EXT_BN ext1, e_len := EXT_LEN ext2, e_offset := EXT_OFFSET ext2 }

/-- The `for` loop of `efs_inode_load_indirect` over the 64 descriptors of the block
`indext`: `n` iterations remain, `i` is the loop index, `ext` is the whole in-core array
and `base` the index of the element the parameter `ext` points to.  Returns the array
and `*extn`. -/
def efs_inode_load_indirect_loop (indext : Nat → Nat) (base : Nat) :
    Nat → Nat → List efs_extent → Nat → List efs_extent × Nat
  | 0, _, ext, extn => (ext, extn)
  | n + 1, i, ext, extn =>
    let ext1 := GET_U32 (le32 indext (8 * i))
    let ext2 := GET_U32 (le32 indext (8 * i + 4))
    if EXT_MAGIC ext1 ≠ 0 then (ext, extn)
    else
      efs_inode_load_indirect_loop indext base n (i + 1)
        (ext.set (base + i) (decode_extent ext1 ext2)) (extn + 1)

/-- The function `efs_inode_load_indirect`.  Returns the error code, the in-core array
and `*extn`.  The local array `indext` starts out as `fs.junk`. -/
def efs_inode_load_indirect (fs : efs_fs) (indblkno : Nat) (ext : List efs_extent)
    (base extn : Nat) : Except Fault (Nat × List efs_extent × Nat) :=
  match efs_bread_bbs fs indblkno fs.junk 0 1 with
  | .error f => .error f
  | .ok (ret, indext) =>
    if ret ≠ 0 then .ok (ret, ext, extn)
    else .ok (0, efs_inode_load_indirect_loop indext base EFS_EXTENTS_PER_BB 0 ext extn)

/-- The `for` loop of `efs_inode_verify_extents`: `n` iterations remain, `i` is the index. -/
def efs_inode_verify_extents_loop (inode : efs_inode) :
    Nat → Nat → Nat → Nat → Except Fault (Nat × Nat)
  | 0, _, blocks, allocated_blocks => .ok (blocks, allocated_blocks)
  | n + 1, i, _, allocated_blocks =>
    match ext_at inode i with
    | .error f => .error f
    | .ok e =>
      efs_inode_verify_extents_loop inode n (i + 1)
        ((e.e_offset + e.e_len) % 2 ^ 32) ((allocated_blocks + e.e_len) % 2 ^ 32)

/-- The function `efs_inode_verify_extents` (it always returns 0); the result is the
updated inode. -/
def efs_inode_verify_extents (inode : efs_inode) : Except Fault efs_inode :=
  match efs_inode_verify_extents_loop inode inode.i_nextents 0 0 0 with
  | .error f => .error f
  | .ok (blocks, allocated_blocks) =>
    if allocated_blocks ≤ blocks then
      .ok { inode with i_nblks := blocks, i_nalloc_blks := allocated_blocks }
    else .error Fault.assertion

/-- The direct `for` loop of `efs_inode_load_extents`: `n` iterations remain, `i` is the
index.  Returns `none` when a magic is wrong (the function returns `EINVAL`). -/
def efs_inode_load_direct_loop (od : Nat → Nat) :
    Nat → Nat → List efs_extent → Option (List efs_extent)
  | 0, _, ext => some ext
  | n + 1, i, ext =>
    let ext1 := GET_U32 (di_ext1 od i)
    let ext2 := GET_U32 (di_ext2 od i)
    if EXT_MAGIC ext1 ≠ 0 then none
    else efs_inode_load_direct_loop od n (i + 1) (ext.set i (decode_extent ext1 ext2))

/-- The indirect `for` loop of `efs_inode_load_extents`: `k` iterations remain, `i` is the
index, `err` the current value of the variable `err`.  Returns `(true, EINVAL, ..)` for
the `return (EINVAL)` inside the loop and `(false, err, ..)` when the loop is left.
An index `i` of 12 or more is outside `di_extents`. -/
def efs_inode_load_extents_loop (fs : efs_fs) (od : Nat → Nat) :
    Nat → Nat → Nat → List efs_extent → Nat → Except Fault (Bool × Nat × List efs_extent × Nat)
  | 0, _, err, ext, extn => .ok (false, err, ext, extn)
  | k + 1, i, _, ext, extn =>
    if EFS_DIRECTEXTENTS ≤ i then .error Fault.undefined
    else
      let ext1 := GET_U32 (di_ext1 od i)
      if EXT_MAGIC ext1 ≠ 0 then .ok (true, EINVAL, ext, extn)
      else
        match efs_inode_load_indirect fs (EXT_BN ext1) ext (i * EFS_EXTENTS_PER_BB) extn with
        | .error f => .error f
        | .ok (err1, ext1s, extn1) =>
          if err1 ≠ 0 then .ok (false, err1, ext1s, extn1)
          else efs_inode_load_extents_loop fs od k (i + 1) err1 ext1s extn1

/-- The function `efs_inode_load_extents`.  Returns the error code and the inode; on
failure `i_nextents` and `i_extents` keep the values they had.  `calloc` does not fail.
The `LOG_DBG2` message of the direct path has the conversion `%n` for the integer
argument `n`: when `logger` formats it, `vfprintf` stores through that integer as a
pointer, which has no defined result. -/
def efs_inode_load_extents (fs : efs_fs) (inode : efs_inode) : Except Fault (Nat × efs_inode) :=
  let n := GET_I16 (di_nextents inode.i_od)
  if n ≤ EFS_DIRECTEXTENTS then
    if logger_formats fs.log_lvl 3 then .error Fault.undefined
    else
      match efs_inode_load_direct_loop inode.i_od n 0 (List.replicate n ⟨0, 0, 0⟩) with
      | none => .ok (EINVAL, inode)
      | some ext => .ok (0, { inode with i_nextents := n, i_extents := ext })
  else
    let n := (EXT_OFFSET (GET_U32 (di_ext2 inode.i_od 0))) % 2 ^ 16
    let max_extn := n * EFS_EXTENTS_PER_BB
    match efs_inode_load_extents_loop fs inode.i_od n 0 EINVAL
        (List.replicate max_extn ⟨0, 0, 0⟩) 0 with
    | .error f => .error f
    | .ok (_, err, ext, extn) =>
      if err = 0 then .ok (0, { inode with i_nextents := extn % 2 ^ 16, i_extents := ext })
      else .ok (err, inode)

/-- Subtraction of `uint32_t` values. -/
def sub32 (a b : Nat) : Nat := (a % 2 ^ 32 + 2 ^ 32 - b % 2 ^ 32) % 2 ^ 32

/-- One call of `efs_bread_bbs` made by `efs_iread`: the device block, the byte offset of
the destination `cur_buf` from `buf`, and the number of blocks. -/
structure iread_req where
  blk : Nat
  dst : Nat
  nblks : Nat
  deriving DecidableEq, Repr

/-- The `for` loop of `efs_iread`: `n` iterations remain, `i` is the index, `err` the
variable `err`, `reads` the calls of `efs_bread_bbs` made so far.  `cur_buf` is
`buf + buf_off * BBS`, a `uint32_t` product added to the pointer. -/
def efs_iread_loop (fs : efs_fs) (inode : efs_inode) (blkno blkend nblks : Nat) :
    Nat → Nat → Nat → (Nat → Nat) → List iread_req →
      Except Fault (Nat × (Nat → Nat) × List iread_req)
  | 0, _, err, buf, reads => .ok (err, buf, reads)
  | n + 1, i, err, buf, reads =>
    match ext_at inode i with
    | .error f => .error f
    | .ok e =>
      let e_last := (e.e_blk + e.e_len) % 2 ^ 32
      if (e.e_offset + e.e_len) % 2 ^ 32 < blkno then
        efs_iread_loop fs inode blkno blkend nblks n (i + 1) err buf reads
      else if e.e_offset > blkend then .ok (err, buf, reads)
      else
        let start := sub32 blkno e.e_offset
        let buf_off := sub32 start blkno
        let to_read := MIN (sub32 nblks buf_off) (sub32 e_last start)
        if to_read = 0 then .ok (err, buf, reads)
        else
          let dst := (buf_off * BBS) % 2 ^ 32
          match efs_bread_bbs fs ((start + e.e_blk) % 2 ^ 32) buf dst to_read with
          | .error f => .error f
          | .ok (err1, buf1) =>
            let reads1 := reads ++ [⟨(start + e.e_blk) % 2 ^ 32, dst, to_read⟩]
            if err1 ≠ 0 then .ok (err1, buf1, reads1)
            else efs_iread_loop fs inode blkno blkend nblks n (i + 1) err1 buf1 reads1

/-- The function `efs_iread`.  Returns the error code, the memory at `buf` and the list
of device reads that were issued.  The memory at `buf` is not bounded by the caller's
`nblks * BBS` bytes: a read whose destination lies outside them shows in the list. -/
def efs_iread (fs : efs_fs) (inode : efs_inode) (blkno nblks : Nat) (buf : Nat → Nat) :
    Except Fault (Nat × (Nat → Nat) × List iread_req) :=
  let blkend := sub32 ((blkno + nblks) % 2 ^ 32) 1
  let buf0 : Nat → Nat := fun i => if i < (nblks * BBS) % 2 ^ 32 then 0 else buf i
  if nblks = 0 then .ok (0, buf0, [])
  else if blkno ≥ inode.i_nblks then .ok ( ENXIO, buf0, [])
  else
    let nblks1 := MIN nblks (sub32 inode.i_nblks blkno)
    efs_iread_loop fs inode blkno blkend nblks1 inode.i_nextents 0 0 buf0 []

/-- The type `file_walker_t`: the visitor receives the inode, the device block, the
logical block and `arg`, and returns its verdict and the updated `arg`. -/
abbrev file_walker_t (α : Type) :=
  efs_inode → Nat → Nat → α → Except Fault (callback_state × α)

/-- The inner `for` loop of `efs_walk` over one extent `cext`: `n` is the number of
iterations the condition `ext_ofs < cext->e_len` still admits.  Returns `true` when the
function returns 1 (visitor said `ERROR`), `false` when the loop is left. -/
def efs_walk_inner {α : Type} (w : file_walker_t α) (inode : efs_inode) (cext : efs_extent)
    (blkno nblks : Nat) : Nat → Nat → Nat → α → Except Fault (Bool × α)
  | 0, _, _, arg => .ok (false, arg)
  | n + 1, ext_ofs, cur_blkno, arg =>
    if nblks ≠ 0 ∧ cur_blkno > (blkno + nblks) % 2 ^ 32 then .ok (false, arg)
    else
      match w inode ((cext.e_blk + ext_ofs) % 2 ^ 32) cur_blkno arg with
      | .error f => .error f
      | .ok (st, arg1) =>
        if st = callback_state.ERROR then .ok (true, arg1)
        else if st ≠ callback_state.CONTINUE then .ok (false, arg1)
        else efs_walk_inner w inode cext blkno nblks n (ext_ofs + 1)
          ((cur_blkno + 1) % 2 ^ 32) arg1

/-- The outer `for` loop of `efs_walk`: `k` iterations remain, `e` is the extent index. -/
def efs_walk_loop {α : Type} (w : file_walker_t α) (inode : efs_inode) (blkno nblks : Nat) :
    Nat → Nat → α → Except Fault (Nat × α)
  | 0, _, arg => .ok (ENOENT, arg)
  | k + 1, e, arg =>
    match ext_at inode e with
    | .error f => .error f
    | .ok cext =>
      let cur_blkno := cext.e_offset
      if (cur_blkno + cext.e_len) % 2 ^ 32 < blkno then
        efs_walk_loop w inode blkno nblks k (e + 1) arg
      else
        let ext_ofs := sub32 cur_blkno blkno
        match efs_walk_inner w inode cext blkno nblks (cext.e_len - ext_ofs) ext_ofs
            cur_blkno arg with
        | .error f => .error f
        | .ok (true, arg1) => .ok (1, arg1)
        | .ok (false, arg1) => efs_walk_loop w inode blkno nblks k (e + 1) arg1

/-- The function `efs_walk`.  Returns its return value and the final `arg`. -/
def efs_walk {α : Type} (w : file_walker_t α) (inode : efs_inode) (blkno nblks : Nat)
    (arg : α) : Except Fault (Nat × α) :=
  efs_walk_loop w inode blkno nblks inode.i_nextents 0 arg

/-- The state of the two file-scope caches.  `icache` is the list headed by the C variable
`icache`, `ncache` the list of `(path, ino)` items headed by `ncache`; `nalloc` counts the
inodes allocated so far and gives the next one its address; `uninit k` is what the fields
`i_nextents` and `i_extents` of the `k`-th allocated inode hold before they are
assigned (`malloc` does not clear memory). -/
structure efs_state where
  icache : List efs_inode
  ncache : List (List Nat × efs_inode)
  nalloc : Nat
  uninit : Nat → Nat × List efs_extent

/-- The part of `efs_iget` from `pthread_mutex_lock(&icache_mtx)` on.  `head` is the
value of the local `i`, which its initialiser `efs_inode_t *i = icache` has read before
the mutex is taken: the search runs over the list as it was then, while a new inode is
linked in front of the list `st.icache` as it is now.  Returns the error code, `*inode`
(`none` is `NULL`) and the new state.  `malloc` does not fail; the new inode starts out
with `fs.junk` in `i_od` and `st.uninit` in `i_nextents` and `i_extents`, its other
fields are assigned before they are read. -/
def efs_iget_locked (fs : efs_fs) (st : efs_state) (head : List efs_inode) (ino : Nat) :
    Except Fault (Nat × Option efs_inode × efs_state) :=
  match head.find? (fun i => i.i_num == ino) with
  | some i => .ok (0, some i, st)
  | none =>
    let i0 : efs_inode :=
      { i_addr := st.nalloc, i_od := fs.junk, i_num := 0, i_mode := 0,
        i_nextents := (st.uninit st.nalloc).1, i_extents := (st.uninit st.nalloc).2,
        i_nblks := 0, i_nalloc_blks := 0, i_flags := 0 }
    let st1 := { st with nalloc := st.nalloc + 1 }
    match inode2loc fs ino with
    | .error f => .error f
    | .ok (blkno, ofs) =>
      match efs_bread fs blkno (ofs : Int) i0.i_od INO_SIZE with
      | .error f => .error f
      | .ok (err, od) =>
        if err ≠ 0 then .ok (err, none, st1)
        else
          let i1 := { i0 with i_od := od, i_num := ino, i_mode := GET_U16 (di_mode od),
                              i_flags := 0 }
          match efs_inode_load_extents fs i1 with
          | .error f => .error f
          | .ok (err1, i2) =>
            let i3 := if err1 ≠ 0 then { i2 with i_flags := i2.i_flags ||| EFS_FLG_BAD_FILE }
                      else i2
            match efs_inode_verify_extents i3 with
            | .error f => .error f
            | .ok i4 => .ok (err1, some i4, { st1 with icache := i4 :: st.icache })

/-- The function `efs_iget` when no other call of it runs between the initialiser of `i`
and the end of the call: the list read by the initialiser is the list under the mutex.
A call that another thread overlaps is `efs_iget_locked` with the older list. -/
def efs_iget (fs : efs_fs) (st : efs_state) (ino : Nat) :
    Except Fault (Nat × Option efs_inode × efs_state) :=
  efs_iget_locked fs st st.icache ino

/-! ## efs_dir.h / efs_dir.c -/

def EFS_DIRBLK_MAGIC : Nat := 0xbeef
def EFS_DIRBLK_HDR_SIZE : Nat := 4
def EFS_DIRBLK_SPACE_SIZE : Nat := BBS - EFS_DIRBLK_HDR_SIZE
def EFS_DIRBLK_SLOTS_MAX : Nat := EFS_DIRBLK_SPACE_SIZE / 7
def EFS_DIR_ENTRY_MOD : Nat := EFS_DIRBLK_SLOTS_MAX + 1

/-- Raw field `db_magic` of a directory block `efs_dirblk_t` (byte offset 0). -/
def db_magic (db : Nat → Nat) : Nat := le16 db 0
/-- Field `db_slots` (byte offset 3). -/
def db_slots (db : Nat → Nat) : Nat := db 3
/-- Field `db_space[i]` (byte offset `4 + i`). -/
def db_space (db : Nat → Nat) (i : Nat) : Nat := db (4 + i)
/-- Raw field `de_ino` of the entry `efs_dirent_t` at byte offset `ofs` of the block. -/
def de_ino (db : Nat → Nat) (ofs : Nat) : Nat := le32 db ofs
/-- Field `de_namelen` of the entry at byte offset `ofs`. -/
def de_namelen (db : Nat → Nat) (ofs : Nat) : Nat := db (ofs + 4)
/-- Byte `de_name[k]` of the entry at byte offset `ofs`. -/
def de_name (db : Nat → Nat) (ofs k : Nat) : Nat := db (ofs + 5 + k)

/-- A C string given by its bytes before the terminating NUL: `cstr s k` is `s[k]`. -/
def cstr (s : List Nat) : Nat → Nat := fun k => s.getD k 0

/-- The test `strncmp(s1 + k, s2 + k, n) == 0` of the C library: at most `n` characters are
compared and the comparison stops after a NUL. -/
def strncmp_is_zero (s1 s2 : Nat → Nat) : Nat → Nat → Bool
  | 0, _ => true
  | n + 1, k =>
    if s1 k ≠ s2 k then false
    else if s1 k = 0 then true
    else strncmp_is_zero s1 s2 n (k + 1)

/-- The `for` loop of `efs_db_lookup`: `n` iterations remain, `i` is the slot index.
Returns the inode number stored through `ino` when a slot matches. -/
def efs_db_lookup_loop (db : Nat → Nat) (name : List Nat) : Nat → Nat → Option Nat
  | 0, _ => none
  | n + 1, i =>
    let ofs := (db_space db i) <<< 1
    if ofs = 0 then efs_db_lookup_loop db name n (i + 1)
    else if name.length ≠ de_namelen db ofs then efs_db_lookup_loop db name n (i + 1)
    else if strncmp_is_zero (cstr name) (de_name db ofs) (de_namelen db ofs) 0 then
      some (GET_U32 (de_ino db ofs))
    else efs_db_lookup_loop db name n (i + 1)

/-- The function `efs_db_lookup`; `ino` is the value `*ino` has before the call.
Returns the error code and `*ino`. -/
def efs_db_lookup (db : Nat → Nat) (name : List Nat) (ino : Nat) : Nat × Nat :=
  if GET_U16 (db_magic db) ≠ EFS_DIRBLK_MAGIC then ( ENXIO, ino)
  else
    match efs_db_lookup_loop db name (db_slots db) 0 with
    | some found => (0, found)
    | none => (ENOENT, ino)

/-- The function `efs_dir_get_dirent`, for a slot number `n` that is not negative (the
callers pass an unsigned one).  Returns the error code and, on success, `*ino` and the
C string `*name`, which `strncpy` cuts at the first NUL. -/
def efs_dir_get_dirent (db : Nat → Nat) (n : Nat) : Nat × Option (Nat × List Nat) :=
  if GET_U16 (db_magic db) ≠ EFS_DIRBLK_MAGIC then ( ENXIO, none)
  else if n ≥ db_slots db then (ENOENT, none)
  else
    let offset := (db_space db n) <<< 1
    let nm := ((List.range (de_namelen db offset)).map (de_name db offset)).takeWhile (· ≠ 0)
    (0, some (GET_U32 (de_ino db offset), nm))

/-- The function `ncache_search`: `strcmp` on two C strings is equality of their bytes. -/
def ncache_search (ncache : List (List Nat × efs_inode)) (nm : List Nat) : Option efs_inode :=
  (ncache.find? (fun ci => ci.1 == nm)).map (fun ci => ci.2)

/-- The function `ncache_add` (`malloc` and `strdup` do not fail). -/
def ncache_add (ncache : List (List Nat × efs_inode)) (nm : List Nat) (inode : efs_inode) :
    List (List Nat × efs_inode) :=
  (nm, inode) :: ncache

/-- The type `dir_lookup_arg_t`. -/
structure dir_lookup_arg where
  dl_name : List Nat
  dl_ino : Nat
  dl_error : Nat
  deriving DecidableEq, Repr

/-- The function `dir_lookup_cb`.  The block `db` from `malloc` starts out as `fs.junk`. -/
def dir_lookup_cb (fs : efs_fs) : file_walker_t dir_lookup_arg :=
  fun _ blkno _ dl =>
    match efs_bread_bbs fs blkno fs.junk 0 1 with
    | .error f => .error f
    | .ok (ret, db) =>
      if ret ≠ 0 then .ok (callback_state.ERROR, dl)
      else
        let r := efs_db_lookup db dl.dl_name dl.dl_ino
        let dl1 := { dl with dl_ino := r.2 }
        if r.1 = ENOENT then .ok (callback_state.CONTINUE, dl1)
        else if r.1 ≠ 0 then .ok (callback_state.ERROR, { dl1 with dl_error := r.1 })
        else if dl1.dl_ino > 0 then .ok (callback_state.STOP, dl1)
        else .error Fault.assertion

/-- The function `efs_dir_lookup`; `ino` is the value `*ino` has before the call.
Returns the error code and `*ino`. -/
def efs_dir_lookup (fs : efs_fs) (inode : efs_inode) (nm : List Nat) (ino : Nat) :
    Except Fault (Nat × Nat) :=
  let arg : dir_lookup_arg := { dl_name := nm, dl_ino := 0, dl_error := 0 }
  if !IS_DIR inode then .ok (ENOTDIR, ino)
  else
    match efs_walk (dir_lookup_cb fs) inode 0 0 arg with
    | .error f => .error f
    | .ok (_, arg1) =>
      if arg1.dl_ino ≠ 0 then
        (if arg1.dl_error = 0 then .ok (0, arg1.dl_ino) else .error Fault.assertion)
      else .ok (ENOENT, ino)

/-- The character `'/'`. -/
def SLASH : Nat := 47

/-- The test that a character is not `'/'`. -/
def not_slash (c : Nat) : Bool := c != SLASH

/-- The `while (1)` loop of `efs_dir_namei`.  `cur` is the rest of the path the pointer
`cur` refers to (`none` is `NULL`), `cur_ino` the variable of that name.  Returns `err`,
the variable `inode` and the state. -/
def efs_dir_namei_loop (fs : efs_fs) :
    Nat → efs_state → Nat → Option (List Nat) → Except Fault (Nat × Option efs_inode × efs_state)
  | 0, _, _, _ => .error Fault.fuel
  | fuel + 1, st, cur_ino, cur =>
    match efs_iget fs st cur_ino with
    | .error f => .error f
    | .ok (err, inode, st1) =>
      if err ≠ 0 then .ok (err, inode, st1)
      else
        match cur with
        | none => .ok (0, inode, st1)
        | some [] => .ok (0, inode, st1)
        | some (c :: cs) =>
          match inode with
          | none => .error Fault.assertion
          | some dir =>
            match efs_dir_lookup fs dir ((c :: cs).takeWhile not_slash) cur_ino with
            | .error f => .error f
            | .ok (err2, cur_ino2) =>
              if err2 ≠ 0 then .ok (err2, inode, st1)
              else if (c :: cs).contains SLASH then
                efs_dir_namei_loop fs fuel st1 cur_ino2
                  (some (((c :: cs).dropWhile not_slash).drop 1))
              else efs_dir_namei_loop fs fuel st1 cur_ino2 none

/-- The function `efs_dir_namei`.  Returns the error code, `*ino` when it was assigned,
and the state. -/
def efs_dir_namei (fs : efs_fs) (st : efs_state) (nm : List Nat) :
    Except Fault (Nat × Option efs_inode × efs_state) :=
  match ncache_search st.ncache nm with
  | some inode => .ok (0, some inode, st)
  | none =>
    if nm.head? ≠ some SLASH then .error Fault.assertion
    else
      match efs_dir_namei_loop fs (nm.length + 2) st FIRST_INO (some (nm.drop 1)) with
      | .error f => .error f
      | .ok (err, inode, st1) =>
        if err = 0 then
          match inode with
          | none => .error Fault.undefined
          | some i => .ok (0, some i, { st1 with ncache := ncache_add st1.ncache nm i })
        else .ok (err, none, st1)

/-! ## main.c -/

/-- The type `fuse_fill_dir_t`: from the buffer, the name, `item_inode` (whose `i_stat`
is passed; `none` is `NULL`) and the offset to the new buffer and the `int` result. -/
abbrev fuse_fill_dir_t (β : Type) := β → List Nat → Option efs_inode → Nat → β × Nat

/-- The variables of `efs_readdir` that its loops change, with `entries`, the list of
`(name, ino, new_off)` of the calls of `filler` so far. -/
structure readdir_vars (β : Type) where
  slotno : Nat
  err : Nat
  done : Nat
  st : efs_state
  buf : β
  entries : List (List Nat × Nat × Nat)

/-- The inner `while` loop of `efs_readdir` on the block `db`; `n` bounds the number of
iterations (the loop condition is tested in each). -/
def efs_readdir_slots {β : Type} (fs : efs_fs) (filler : fuse_fill_dir_t β) (db : Nat → Nat)
    (blkno : Nat) : Nat → readdir_vars β → Except Fault (readdir_vars β)
  | 0, v => .ok v
  | n + 1, v =>
    if ¬ (v.slotno < db_slots db ∧ v.done = 0) then .ok v
    else
      let slotno1 := (v.slotno + 1) % 2 ^ 8
      match efs_dir_get_dirent db v.slotno with
      | (err, none) => .ok { v with slotno := slotno1, err := err }
      | (_, some (ino, name)) =>
        match efs_iget fs v.st ino with
        | .error f => .error f
        | .ok (err1, item_inode, st1) =>
          let new_off := ((blkno * EFS_DIR_ENTRY_MOD) % 2 ^ 32 + slotno1) % 2 ^ 32
          let r := filler v.buf name item_inode new_off
          let v1 : readdir_vars β :=
            { slotno := slotno1, err := err1, done := r.2, st := st1, buf := r.1,
              entries := v.entries ++ [(name, ino, new_off)] }
          if r.2 ≠ 0 then .ok v1
          else efs_readdir_slots fs filler db blkno n v1

/-- The outer `while (!done)` loop of `efs_readdir`: `blkno` is the variable of that
name; the block `db` on the stack starts out as `fs.junk`.  The loop ends at the latest
when `blkno` has passed `i_nblks`. -/
def efs_readdir_loop {β : Type} (fs : efs_fs) (filler : fuse_fill_dir_t β)
    (inode : efs_inode) : Nat → Nat → readdir_vars β → Except Fault (readdir_vars β)
  | 0, _, _ => .error Fault.fuel
  | fuel + 1, blkno, v =>
    if v.done ≠ 0 then .ok v
    else
      match efs_iread fs inode blkno 1 fs.junk with
      | .error f => .error f
      | .ok (err, db, _) =>
        if err ≠ 0 then .ok { v with done := 1, err := if err = ENXIO then 0 else err }
        else if GET_U16 (db_magic db) ≠ 0xbeef then .ok { v with err := ENXIO, done := 1 }
        else
          match efs_readdir_slots fs filler db blkno (db_slots db) { v with err := err } with
          | .error f => .error f
          | .ok v1 => efs_readdir_loop fs filler inode fuel ((blkno + 1) % 2 ^ 32) v1

/-- The function `efs_readdir` for an `offset` that is not negative.  Returns its
variables at the end: `err` is the return value, `entries` the calls of `filler`. -/
def efs_readdir {β : Type} (fs : efs_fs) (st : efs_state) (path : List Nat) (buf : β)
    (filler : fuse_fill_dir_t β) (offset : Nat) : Except Fault (readdir_vars β) :=
  let blkno := (offset / EFS_DIR_ENTRY_MOD) % 2 ^ 32
  let slotno := (offset % EFS_DIR_ENTRY_MOD) % 2 ^ 8
  match efs_dir_namei fs st path with
  | .error f => .error f
  | .ok (err, inode, st1) =>
    let v0 : readdir_vars β :=
      { slotno := slotno, err := err, done := 0, st := st1, buf := buf, entries := [] }
    if err ≠ 0 then .ok v0
    else
      match inode with
      | none => .error Fault.undefined
      | some dir =>
        if (dir.i_mode &&& S_IFMT) ≠ S_IFDIR then .ok { v0 with err := ENOENT }
        else efs_readdir_loop fs filler dir (dir.i_nblks + 2) blkno v0

/-- The function `efs_open`.  Returns its `int` result and the state.  When `err != 0`
it calls `LOG_ERR` with a message that has the conversion `%n` for the `int` argument
`err`; `LOG_ERR` always formats its message (`logger_formats 0 0`), and `vfprintf`
then stores through `err` as a pointer, which has no defined result. -/
def efs_open (fs : efs_fs) (st : efs_state) (path : List Nat) :
    Except Fault (Int × efs_state) :=
  match efs_dir_namei fs st path with
  | .error f => .error f
  | .ok (err, inode, st1) =>
    if err = 0 then
      match inode with
      | none => .error Fault.undefined
      | some i =>
        if EFS_BAD_FILE i then
          (if logger_formats 0 0 then .error Fault.undefined else .ok (-( EIO : Int), st1))
        else .ok (0, st1)
    else if logger_formats 0 0 then .error Fault.undefined
    else .ok (-(err : Int), st1)

/-! ## Reference notions used in the statements -/

/-- Every element of the buffer is a byte. -/
def is_bytes (b : Nat → Nat) : Prop := ∀ i, b i < 256

/-- The big-endian 16-bit number stored at byte offset `o`. -/
def be16 (b : Nat → Nat) (o : Nat) : Nat := 256 * b o + b (o + 1)

/-- The big-endian 32-bit number stored at byte offset `o`. -/
def be32 (b : Nat → Nat) (o : Nat) : Nat :=
  16777216 * b o + 65536 * b (o + 1) + 256 * b (o + 2) + b (o + 3)

/-- The components `efs_dir_namei` looks up for the path `nm`: the pieces obtained by
splitting what follows the leading `'/'` on `'/'`, without a final empty piece. -/
def namei_components (nm : List Nat) : List (List Nat) :=
  if ((nm.drop 1).splitOn SLASH).getLast? = some [] then ((nm.drop 1).splitOn SLASH).dropLast
  else (nm.drop 1).splitOn SLASH

/-- The left fold of `efs_dir_lookup` over a list of components, starting at inode number
`ino`: every inode number is turned into an in-core inode with `efs_iget`, the first
error ends the fold, and the inode of the last number is fetched at the end. -/
def namei_fold (fs : efs_fs) :
    efs_state → Nat → List (List Nat) → Except Fault (Nat × Option efs_inode × efs_state)
  | st, ino, [] => efs_iget fs st ino
  | st, ino, c :: cs =>
    match efs_iget fs st ino with
    | .error f => .error f
    | .ok (err, inode, st1) =>
      if err ≠ 0 then .ok (err, inode, st1)
      else
        match inode with
        | none => .error Fault.assertion
        | some dir =>
          match efs_dir_lookup fs dir c ino with
          | .error f => .error f
          | .ok (err2, ino2) =>
            if err2 ≠ 0 then .ok (err2, inode, st1)
            else namei_fold fs st1 ino2 cs

/-- What `efs_dir_namei` makes of the outcome of its loop: on success the inode is
entered into the path cache under `nm` and returned. -/
def namei_finish (nm : List Nat) (r : Except Fault (Nat × Option efs_inode × efs_state)) :
    Except Fault (Nat × Option efs_inode × efs_state) :=
  match r with
  | .error f => .error f
  | .ok (err, inode, st1) =>
    if err = 0 then
      match inode with
      | none => .error Fault.undefined
      | some i => .ok (0, some i, { st1 with ncache := ncache_add st1.ncache nm i })
    else .ok (err, none, st1)

/-- A call that touches the caches: `efs_dir_namei` on a path or `efs_iget` on an inode
number (the other entry points reach the caches only through these two). -/
inductive cache_op where
  | namei (nm : List Nat)
  | iget (ino : Nat)
  deriving DecidableEq, Repr

/-- The state after one call; a fault ends the process. -/
def run_op (fs : efs_fs) (st : efs_state) : cache_op → Except Fault efs_state
  | .namei nm => (efs_dir_namei fs st nm).map (fun r => r.2.2)
  | .iget ino => (efs_iget fs st ino).map (fun r => r.2.2)

/-- The state after a sequence of calls, in order. -/
def run_ops (fs : efs_fs) : efs_state → List cache_op → Except Fault efs_state
  | st, [] => .ok st
  | st, op :: ops =>
    match run_op fs st op with
    | .error f => .error f
    | .ok st1 => run_ops fs st1 ops

/-- Slot `i` of the directory block is in use and its entry carries exactly `name`:
`space[i] != 0`, `namelen` is the length of `name` and the name bytes agree. -/
def slot_matches (db : Nat → Nat) (name : List Nat) (i : Nat) : Prop :=
  db_space db i ≠ 0 ∧ de_namelen db (2 * db_space db i) = name.length ∧
    ∀ k, k < name.length → de_name db (2 * db_space db i) k = name.getD k 0

instance (db : Nat → Nat) (name : List Nat) (i : Nat) : Decidable (slot_matches db name i) := by
  unfold slot_matches
  infer_instance

/-- The extents of an in-core inode: the first `i_nextents` entries of its array. -/
def extents_of (inode : efs_inode) : List efs_extent :=
  inode.i_extents.take inode.i_nextents

/-- The end `e_offset + e_len` (as `uint32_t`) of the last extent of a list, 0 for the
empty list. -/
def last_end (l : List efs_extent) : Nat :=
  match l.getLast? with
  | none => 0
  | some e => (e.e_offset + e.e_len) % 2 ^ 32

/-- The sum of `e_len` over a list of extents. -/
def sum_len (l : List efs_extent) : Nat := (l.map (fun e => e.e_len)).sum

/-- The maximum of `e_offset + e_len` over a list of extents, 0 for the empty list. -/
def max_end (l : List efs_extent) : Nat := (l.map (fun e => e.e_offset + e.e_len)).foldl max 0

/-- The partition that the loop of `efs_vol_open` settles on: the highest index of the
table whose entry has `p_blocks != 0` and `p_type == PART_EFS`. -/
def last_efs_part (hdr : Nat → Nat) : Option Nat :=
  (List.range' 0 VH_PART_NUM).reverse.find?
    (fun i => GET_I32 (p_blocks hdr i) != 0 && GET_I32 (p_type hdr i) == PART_EFS)

/-- Following the specification: the lowest index of the table whose entry has type 5 and
at least 10 blocks. -/
def first_fit_part (hdr : Nat → Nat) : Option Nat :=
  (List.range' 0 VH_PART_NUM).find?
    (fun i => GET_I32 (p_type hdr i) == 5 && decide (10 ≤ int32_val (GET_I32 (p_blocks hdr i))))

/-- The name bytes of the entry of slot `j`: `de_namelen` bytes from `de_name` on. -/
def dirent_name (db : Nat → Nat) (j : Nat) : List Nat :=
  (List.range (de_namelen db (2 * db_space db j))).map (de_name db (2 * db_space db j))

/-! ## Concrete inputs -/

/-- A super block image with a valid magic and `s_cg_ino_bbs = 0`: bytes 28..31 hold
`0x00072959` big-endian, every other byte is zero. -/
def sb0_img : Nat → Nat := fun i =>
  if i = 512 + 29 then 0x07 else if i = 512 + 30 then 0x29 else if i = 512 + 31 then 0x59 else 0

/-- File system handle over `sb0_img` (1024 bytes), before `efs_mount`. -/
def sb0_fs : efs_fs :=
  { img := sb0_img, img_size := 1024, errno := 0, junk := fun _ => 0, start := 0,
    sb := fun _ => 0 }

/-- File system handle whose super block has `first_cg = 2`, `cg_size = 100` and
`cg_ino_bbs = 2` (big-endian on disk). -/
def sb1_fs : efs_fs :=
  { img := fun _ => 0, img_size := 0, errno := 0, junk := fun _ => 0, start := 0,
    sb := fun i => [0, 0, 0, 0, 0, 0, 0, 2, 0, 0, 0, 100, 0, 2, 0, 0].getD i 0 }

/-- An in-core inode that holds the on-disk bytes `od` and nothing else yet. -/
def inode_of_od (od : Nat → Nat) : efs_inode :=
  { i_addr := 0, i_od := od, i_num := 0, i_mode := 0, i_nextents := 0, i_extents := [],
    i_nblks := 0, i_nalloc_blks := 0, i_flags := 0 }

/-- On-disk inode with `nextents = 2`: extent 0 is `bn 100, len 1, offset 0`, extent 1 is
`bn 200, len 255, offset 1`. -/
def od_two : Nat → Nat := fun i =>
  (List.replicate 28 0 ++ [0, 2, 0, 0] ++ [0, 0, 0, 100, 1, 0, 0, 0]
    ++ [0, 0, 0, 200, 255, 0, 0, 1]).getD i 0

/-- Image whose block 5 is an indirect block: descriptors 0..12 are
`bn 100 + j, len 1, offset j`, the other 51 descriptors are zero. -/
def ind_img : Nat → Nat := fun i =>
  if 2560 ≤ i ∧ i < 2560 + 104 then
    (if (i - 2560) % 8 = 3 then 100 + (i - 2560) / 8
     else if (i - 2560) % 8 = 4 then 1
     else if (i - 2560) % 8 = 7 then (i - 2560) / 8
     else 0)
  else 0

/-- File system handle over `ind_img` (six blocks). -/
def ind_fs : efs_fs :=
  { img := ind_img, img_size := 3072, errno := 0, junk := fun _ => 0, start := 0,
    sb := fun _ => 0 }

/-- On-disk inode with `nextents = 13` (indirect layout): slot 0 has `bn 5`, `len 1` and
the offset field 1, that is one indirect block, block 5. -/
def od_ind : Nat → Nat := fun i =>
  (List.replicate 28 0 ++ [0, 13, 0, 0] ++ [0, 0, 0, 5, 1, 0, 0, 1]).getD i 0

/-- The image that has the bytes of each segment `(start, bytes)` at `start` and zero
elsewhere. -/
def img_of (segs : List (Nat × List Nat)) : Nat → Nat := fun i =>
  match segs.find? (fun s => s.1 ≤ i && i < s.1 + s.2.length) with
  | some s => s.2.getD (i - s.1) 0
  | none => 0

/-- The first 40 bytes of an on-disk inode with the given mode bytes and one extent
`bn`, `len 1`, `offset 0`. -/
def od_one (mode_hi mode_lo bn : Nat) : List Nat :=
  [mode_hi, mode_lo] ++ List.replicate 26 0 ++ [0, 1, 0, 0] ++ [0, 0, 0, bn, 1, 0, 0, 0]

/-- A small file system, 13 blocks.  Super block (block 1): `first_cg = 2`,
`cg_size = 100`, `cg_ino_bbs = 2`, magic `0x072959`.  Inode 2 (root, directory, data
block 10), inode 3 (directory, block 11), inode 4 (regular file, block 12), inode 5
(regular file, block 12).  Block 10 has the slots `a -> 3`, a deleted slot and `f -> 5`;
block 11 has the slot `b -> 4`. -/
def tree_img : Nat → Nat :=
  img_of
    [ (512, [0, 0, 0, 13, 0, 0, 0, 2, 0, 0, 0, 100, 0, 2]),
      (512 + 28, [0x00, 0x07, 0x29, 0x59]),
      (2 * 512 + 256, od_one 0x41 0xED 10),
      (2 * 512 + 384, od_one 0x41 0xED 11),
      (3 * 512, od_one 0x81 0xA4 12),
      (3 * 512 + 128, od_one 0x81 0xA4 12),
      (10 * 512, [0xBE, 0xEF, 0, 3, 4, 0, 7, 0, 0, 0, 0, 3, 1, 97, 0, 0, 0, 5, 1, 102]),
      (11 * 512, [0xBE, 0xEF, 0, 1, 4, 0, 0, 0, 0, 0, 0, 4, 1, 98]),
      (12 * 512, [72, 101, 108, 108, 111]) ]

/-- File system handle over `tree_img` after `efs_mount`. -/
def tree_fs : efs_fs :=
  { img := tree_img, img_size := 13 * 512, errno := 0, junk := fun _ => 0, start := 0,
    sb := fun i => tree_img (512 + i) }

/-- The state at mount time: both caches empty, uninitialised inode fields zero. -/
def state0 : efs_state :=
  { icache := [], ncache := [], nalloc := 0, uninit := fun _ => (0, []) }

/-- The paths `/a/b`, `/a//b`, `/a/b/` and `/` as C strings. -/
def path_a_b : List Nat := [47, 97, 47, 98]
def path_a__b : List Nat := [47, 97, 47, 47, 98]
def path_a_b_ : List Nat := [47, 97, 47, 98, 47]
/-- The outcome of `efs_dir_namei` reduced to the error code and the number of the
inode returned. -/
def namei_result (r : Except Fault (Nat × Option efs_inode × efs_state)) :
    Except Fault (Nat × Option Nat) :=
  r.map (fun x => (x.1, x.2.1.map (fun i => i.i_num)))

/-- The inode a completed call returned (a blank inode when there is none). -/
def inode_of_result (r : Except Fault (Nat × Option efs_inode × efs_state)) : efs_inode :=
  match r with
  | .ok (_, some i, _) => i
  | _ => inode_of_od (fun _ => 0)

/-- The state a completed call left (`state0` when the call faulted). -/
def state_of_result {α : Type} (r : Except Fault (α × efs_state)) : efs_state :=
  match r with
  | .ok (_, s) => s
  | .error _ => state0

/-- Block 10 of `tree_img`, the directory block of the root: slots `a -> 3`, deleted,
`f -> 5`. -/
def tree_db10 : Nat → Nat := fun i => tree_img (10 * 512 + i)

/-- A directory block with two slots, both deleted. -/
def db_deleted : Nat → Nat := fun i => [0xBE, 0xEF, 0, 2, 0, 0].getD i 0

/-- The variables of `efs_readdir` when it enters its first block on a fresh mount. -/
def readdir_vars0 : readdir_vars Unit :=
  { slotno := 0, err := 0, done := 0, st := state0, buf := (), entries := [] }

/-- A `filler` that never refuses. -/
def filler_accept : fuse_fill_dir_t Unit := fun b _ _ _ => (b, 0)

/-- An image in which every byte of block `b` is `b % 251 + 1`, so no byte is zero and
nearby blocks differ. -/
def blk_fs : efs_fs :=
  { img := fun i => (i / 512) % 251 + 1, img_size := 4096 * 512, errno := 0,
    junk := fun _ => 0, start := 0,
    sb := fun _ => 0 }

/-- The sparse file of the specification: extents `{offset 0, bn 1000, len 2}` and
`{offset 10, bn 2000, len 1}`, hence 11 blocks of which 3 are allocated. -/
def sparse_inode : efs_inode :=
  { inode_of_od (fun _ => 0) with
    i_nextents := 2, i_extents := [⟨0, 1000, 2⟩, ⟨10, 2000, 1⟩], i_nblks := 11,
    i_nalloc_blks := 3 }

/-- A file with a hole and an empty last extent: `{offset 0, bn 1000, len 1}` and
`{offset 5, bn 2000, len 0}`, hence 5 blocks of which 1 is allocated. -/
def hole_inode : efs_inode :=
  { inode_of_od (fun _ => 0) with
    i_nextents := 2, i_extents := [⟨0, 1000, 1⟩, ⟨5, 2000, 0⟩], i_nblks := 5,
    i_nalloc_blks := 1 }

/-- A file of two one-block extents without a hole: `{offset 0, bn 100, len 1}` and
`{offset 1, bn 200, len 1}`. -/
def two_extent_inode : efs_inode :=
  { inode_of_od (fun _ => 0) with
    i_nextents := 2, i_extents := [⟨0, 100, 1⟩, ⟨1, 200, 1⟩], i_nblks := 2,
    i_nalloc_blks := 2 }

/-- A file of one extent `{offset 0, bn 100, len 10}`. -/
def one_extent_inode : efs_inode :=
  { inode_of_od (fun _ => 0) with
    i_nextents := 1, i_extents := [⟨0, 100, 10⟩], i_nblks := 10, i_nalloc_blks := 10 }

/-- A visitor that records `(device block, logical block)` and returns `CONTINUE`. -/
def walker_record : file_walker_t (List (Nat × Nat)) :=
  fun _ blkno offset calls => .ok (callback_state.CONTINUE, calls ++ [(blkno, offset)])

/-- An in-core inode whose extents are not ascending: `{offset 100, bn 7, len 1}` and
`{offset 3, bn 9, len 5}`. -/
def unsorted_inode : efs_inode :=
  { inode_of_od (fun _ => 0) with
    i_nextents := 2, i_extents := [⟨100, 7, 1⟩, ⟨3, 9, 5⟩] }

/-- Geometry as in `tree_img`.  Inode 2 is a direct inode with `nextents = 2` and the
extents `{bn 10, len 3, offset 5}`, `{bn 20, len 1, offset 0}`.  Inode 3 is an indirect
inode with `nextents = 13` and one indirect block, block 5, which holds 13 descriptors
`{bn 100 + j, len 1, offset j}` followed by zeros.  Inode 4 is an indirect inode with
`nextents = 66` and two indirect blocks: block 6 holds 2 descriptors
`{bn 100 + j, len 1, offset j}` followed by 62 descriptors with magic byte 1
(`{bn 9, len 1, offset 9}`), block 7 holds 64 descriptors `{bn 200 + j, len 1,
offset 2 + j}`. -/
def ext_img : Nat → Nat :=
  img_of
    [ (512, [0, 0, 0, 13, 0, 0, 0, 2, 0, 0, 0, 100, 0, 2]),
      (512 + 28, [0x00, 0x07, 0x29, 0x59]),
      (2 * 512 + 256, [0x81, 0xA4] ++ List.replicate 26 0 ++ [0, 2, 0, 0]
        ++ [0, 0, 0, 10, 3, 0, 0, 5] ++ [0, 0, 0, 20, 1, 0, 0, 0]),
      (2 * 512 + 384, [0x81, 0xA4] ++ List.replicate 26 0 ++ [0, 13, 0, 0]
        ++ [0, 0, 0, 5, 1, 0, 0, 1]),
      (3 * 512, [0x81, 0xA4] ++ List.replicate 26 0 ++ [0, 66, 0, 0]
        ++ [0, 0, 0, 6, 1, 0, 0, 2] ++ [0, 0, 0, 7, 1, 0, 0, 0]),
      (5 * 512, (List.range 13).flatMap (fun j => [0, 0, 0, 100 + j, 1, 0, 0, j])),
      (6 * 512, (List.range 2).flatMap (fun j => [0, 0, 0, 100 + j, 1, 0, 0, j])
        ++ (List.range 62).flatMap (fun _ => [1, 0, 0, 9, 1, 0, 0, 9])),
      (7 * 512, (List.range 64).flatMap (fun j => [0, 0, 0, 200 + j, 1, 0, 0, 2 + j])) ]

/-- File system handle over `ext_img` (13 blocks) after `efs_mount`. -/
def ext_fs : efs_fs :=
  { img := ext_img, img_size := 13 * 512, errno := 0, junk := fun _ => 0, start := 0,
    sb := fun i => ext_img (512 + i) }

/-- The on-disk bytes of inode `ino` of `ext_img` (inodes 2 and 3 are in block 2, inode 4
is in block 3). -/
def ext_od (ino : Nat) : Nat → Nat := fun i => ext_img (2 * 512 + (ino - 0) * 128 + i)

/-- A file of 3 blocks in two extents: `{offset 0, bn 100, len 1}` and
`{offset 1, bn 200, len 2}`. -/
def stop_inode : efs_inode :=
  { inode_of_od (fun _ => 0) with
    i_nextents := 2, i_extents := [⟨0, 100, 1⟩, ⟨1, 200, 2⟩], i_nblks := 3,
    i_nalloc_blks := 3 }

/-- A visitor that records `(device block, logical block)` and returns `STOP`. -/
def walker_stop : file_walker_t (List (Nat × Nat)) :=
  fun _ blkno offset calls => .ok (callback_state.STOP, calls ++ [(blkno, offset)])

/-- A directory inode (mode `040755`) whose only block is block 12 of `tree_img`, which
holds file data and not the magic of a directory block. -/
def bad_dir_inode : efs_inode :=
  { inode_of_od (fun _ => 0) with
    i_num := 9, i_mode := 0x41ED, i_nextents := 1, i_extents := [⟨0, 12, 1⟩], i_nblks := 1,
    i_nalloc_blks := 1 }

/-- A directory inode (mode `040755`) whose only block, 50, lies behind the end of the
13 blocks of `tree_img`. -/
def far_dir_inode : efs_inode :=
  { inode_of_od (fun _ => 0) with
    i_num := 9, i_mode := 0x41ED, i_nextents := 1, i_extents := [⟨0, 50, 1⟩], i_nblks := 1,
    i_nalloc_blks := 1 }

/-- The handle `tree_fs` at a moment when `errno` holds `EIO`. -/
def tree_fs_eio : efs_fs := { tree_fs with errno := EIO }

/-- Calls of `efs_iget` on `tree_fs_eio`: inode 2, inode 3, an inode number behind the
end of the image (the read fails), and inode 2 again. -/
def iget_ops : List cache_op := [.iget 2, .iget 3, .iget 100000, .iget 2]

/-- The state after `iget_ops` on the fresh `tree_fs_eio`. -/
def tree_state3 : efs_state :=
  state_of_result ((run_ops tree_fs_eio state0 iget_ops).map (fun s => ((), s)))

/-- The file of the read scenario: one extent `{offset 0, bn 500, len 1}`. -/
def hello_inode : efs_inode :=
  { inode_of_od (fun _ => 0) with
    i_nextents := 1, i_extents := [⟨0, 500, 1⟩], i_nblks := 1, i_nalloc_blks := 1 }

/-- The image of `blk_fs` extended to `2^23 + 8` blocks (4 GiB and 8 blocks). -/
def big_fs : efs_fs := { blk_fs with img_size := 8388616 * 512 }

/-- A file with the one extent `{offset 0, bn 2^23, len 1}`. -/
def big_inode : efs_inode :=
  { inode_of_od (fun _ => 0) with
    i_nextents := 1, i_extents := [⟨0, 8388608, 1⟩], i_nblks := 1, i_nalloc_blks := 1 }

/-- The handle `blk_fs` (4096 blocks) at a moment when `errno` holds `EIO`. -/
def blk_fs_eio : efs_fs := { blk_fs with errno := EIO }

/-- A file with the one extent `{offset 0, bn 5000, len 1}`, behind the end of `blk_fs`. -/
def far_inode : efs_inode :=
  { inode_of_od (fun _ => 0) with
    i_nextents := 1, i_extents := [⟨0, 5000, 1⟩], i_nblks := 1, i_nalloc_blks := 1 }

/-- The path `/f/x` as a C string. -/
def path_f_x : List Nat := [47, 102, 47, 120]

/-- The inode and the state after resolving the component `f` from the root of the fresh
`tree_fs`. -/
def tree_inode_f : efs_inode := inode_of_result (namei_fold tree_fs state0 FIRST_INO [[102]])
def tree_state_f : efs_state :=
  state_of_result ((namei_fold tree_fs state0 FIRST_INO [[102]]).map (fun r => (r.1, r.2.2)))

/-- Geometry as in `tree_img`.  Inode 2 (root, directory, data block 10) has the one
entry `f -> 5`; inode 5 (regular file) has `nextents = 1` and a direct extent whose
`ext1` is `0x0100000C`, so `ext1 >> 24` is 1. -/
def badf_img : Nat → Nat :=
  img_of
    [ (512, [0, 0, 0, 13, 0, 0, 0, 2, 0, 0, 0, 100, 0, 2]),
      (512 + 28, [0x00, 0x07, 0x29, 0x59]),
      (2 * 512 + 256, od_one 0x41 0xED 10),
      (3 * 512 + 128, [0x81, 0xA4] ++ List.replicate 26 0 ++ [0, 1, 0, 0]
        ++ [1, 0, 0, 12, 1, 0, 0, 0]),
      (10 * 512, [0xBE, 0xEF, 0, 1, 4, 0, 0, 0, 0, 0, 0, 5, 1, 102]) ]

/-- File system handle over `badf_img` (13 blocks) after `efs_mount`. -/
def badf_fs : efs_fs :=
  { img := badf_img, img_size := 13 * 512, errno := 0, junk := fun _ => 0, start := 0,
    sb := fun i => badf_img (512 + i) }

/-- The path `/f` as a C string. -/
def path_f : List Nat := [47, 102]

/-- The state after the call of `efs_dir_namei` that the first `efs_open` of `/f` makes
on the fresh `badf_fs`. -/
def badf_state1 : efs_state :=
  state_of_result ((efs_dir_namei badf_fs state0 path_f).map (fun r => (r.1, r.2.2)))

/-- The handle `tree_fs` with the option `--debug=3`. -/
def tree_fs_debug : efs_fs := { tree_fs with log_lvl := 3 }

/-- The state after one call of `efs_iget` for inode 2 on the fresh `tree_fs`. -/
def tree_state_root : efs_state :=
  state_of_result ((efs_iget tree_fs state0 2).map (fun r => (r.1, r.2.2)))

/-- The path `/a` as a C string, and the state after `efs_dir_namei` of it on
`tree_state_root`. -/
def path_a : List Nat := [47, 97]
def tree_state_a : efs_state :=
  state_of_result ((efs_dir_namei tree_fs tree_state_root path_a).map (fun r => (r.1, r.2.2)))

/-- Geometry as in `tree_img`.  Inode 2 (root, directory) has the one extent
`{offset 0, bn 10, len 2}`.  Block 10 is a directory block with the 2 slots `a -> 3`,
`b -> 4`, block 11 one with the 3 slots `c -> 5`, `d -> 6`, `e -> 7`; no slot is
deleted.  The inodes 3..7 are all zero on disk. -/
def dir2_img : Nat → Nat :=
  img_of
    [ (512, [0, 0, 0, 13, 0, 0, 0, 2, 0, 0, 0, 100, 0, 2]),
      (512 + 28, [0x00, 0x07, 0x29, 0x59]),
      (2 * 512 + 256, [0x41, 0xED] ++ List.replicate 26 0 ++ [0, 1, 0, 0]
        ++ [0, 0, 0, 10, 2, 0, 0, 0]),
      (10 * 512, [0xBE, 0xEF, 0, 2, 4, 7, 0, 0, 0, 0, 0, 3, 1, 97, 0, 0, 0, 4, 1, 98]),
      (11 * 512, [0xBE, 0xEF, 0, 3, 4, 7, 10, 0, 0, 0, 0, 5, 1, 99, 0, 0, 0, 6, 1, 100,
        0, 0, 0, 7, 1, 101]) ]

/-- File system handle over `dir2_img` (13 blocks) after `efs_mount`. -/
def dir2_fs : efs_fs :=
  { img := dir2_img, img_size := 13 * 512, errno := 0, junk := fun _ => 0, start := 0,
    sb := fun i => dir2_img (512 + i) }

/-- An image of 13 blocks that are all zero, so that every block holds 64 extent
descriptors with a zero magic byte. -/
def zero_fs : efs_fs :=
  { img := fun _ => 0, img_size := 13 * 512, errno := 0, junk := fun _ => 0, start := 0,
    sb := fun _ => 0 }

/-- On-disk inode with `nextents = 13` (indirect layout) whose 12 direct slots all have a
zero magic byte and point to block 7; the offset field of slot 0 is 13. -/
def od_wide : Nat → Nat := fun i =>
  ([0x81, 0xA4] ++ List.replicate 26 0 ++ [0, 13, 0, 0] ++ [0, 0, 0, 7, 1, 0, 0, 13]
    ++ (List.range 11).flatMap (fun _ => [0, 0, 0, 7, 1, 0, 0, 0])).getD i 0

/-- A volume header with the magic `0x0BE5A941` and three partitions with entries:
index 0 (`blocks 100, first 10, type 5`), index 7 (`blocks 2048, first 200, type 5`) and
index 10 (`blocks 4096, first 0, type 6`). -/
def vol_img : Nat → Nat :=
  img_of
    [ (0, [0x0B, 0xE5, 0xA9, 0x41]),
      (312, [0, 0, 0, 100, 0, 0, 0, 10, 0, 0, 0, 5]),
      (312 + 12 * 7, [0, 0, 8, 0, 0, 0, 0, 200, 0, 0, 0, 5]),
      (312 + 12 * 10, [0, 0, 16, 0, 0, 0, 0, 0, 0, 0, 0, 6]) ]

/-- An opened image of 4096 blocks that starts with `vol_img`, before `efs_vol_open`. -/
def vol_fs : efs_fs :=
  { img := vol_img, img_size := 4096 * 512, errno := 0, junk := fun _ => 0, start := 0,
    sb := fun _ => 0 }

/-- As `vol_img`, with a further partition at index 12: `blocks 5, first 300, type 5`. -/
def vol_small_img : Nat → Nat :=
  img_of
    [ (0, [0x0B, 0xE5, 0xA9, 0x41]),
      (312, [0, 0, 0, 100, 0, 0, 0, 10, 0, 0, 0, 5]),
      (312 + 12 * 7, [0, 0, 8, 0, 0, 0, 0, 200, 0, 0, 0, 5]),
      (312 + 12 * 10, [0, 0, 16, 0, 0, 0, 0, 0, 0, 0, 0, 6]),
      (312 + 12 * 12, [0, 0, 0, 5, 0, 0, 1, 44, 0, 0, 0, 5]) ]

/-- An opened image of 4096 blocks that starts with `vol_small_img`. -/
def vol_small_fs : efs_fs := { vol_fs with img := vol_small_img }

/-- A volume header whose only partition, at index 0, is `blocks 100, first 2^22,
type 5`. -/
def vol_far_img : Nat → Nat :=
  img_of
    [ (0, [0x0B, 0xE5, 0xA9, 0x41]),
      (312, [0, 0, 0, 100, 0, 0x40, 0, 0, 0, 0, 0, 5]) ]

/-- An opened image that starts with `vol_far_img`. -/
def vol_far_fs : efs_fs := { vol_fs with img := vol_far_img }

/-- The volume header that `efs_get_vol_hdr` reads from `vol_fs`. -/
def vol_hdr : Nat → Nat := store vol_fs vol_fs.junk 0 0 512

/-- A directory inode (mode `040755`) of 3 blocks on `tree_img`: the extent
`{offset 0, bn 10, len 1}` (block 10 is the root directory block with the entry `a`) and
the extent `{offset 1, bn 11, len 2}`, whose second block, 12, holds file data and not
the magic of a directory block. -/
def stop_dir_inode : efs_inode :=
  { inode_of_od (fun _ => 0) with
    i_num := 9, i_mode := 0x41ED, i_nextents := 2, i_extents := [⟨0, 10, 1⟩, ⟨1, 11, 2⟩],
    i_nblks := 3, i_nalloc_blks := 3 }

/-- A visitor that records `(device block, logical block)` and returns `STOP` at logical
block 0 and `CONTINUE` elsewhere. -/
def walker_stop_first : file_walker_t (List (Nat × Nat)) :=
  fun _ blkno offset calls =>
    .ok (if offset = 0 then callback_state.STOP else callback_state.CONTINUE,
      calls ++ [(blkno, offset)])

/-! ## Theorems -/

set_option maxRecDepth 10000

/-! ### Bit operations as arithmetic -/

theorem and_split (k a b c d : Nat) (hb : b < 2 ^ k) (hd : d < 2 ^ k) :
    (2 ^ k * a + b) &&& (2 ^ k * c + d) = 2 ^ k * (a &&& c) + (b &&& d) := by
  have hbd : b &&& d < 2 ^ k := Nat.and_lt_two_pow _ hd
  apply Nat.eq_of_testBit_eq
  intro j
  rw [Nat.testBit_and, Nat.testBit_mul_pow_two_add _ hb, Nat.testBit_mul_pow_two_add _ hd,
    Nat.testBit_mul_pow_two_add _ hbd]
  split_ifs <;> simp [Nat.testBit_and]

theorem or_split (k a b c d : Nat) (hb : b < 2 ^ k) (hd : d < 2 ^ k) :
    (2 ^ k * a + b) ||| (2 ^ k * c + d) = 2 ^ k * (a ||| c) + (b ||| d) := by
  have hbd : b ||| d < 2 ^ k := Nat.or_lt_two_pow hb hd
  apply Nat.eq_of_testBit_eq
  intro j
  rw [Nat.testBit_or, Nat.testBit_mul_pow_two_add _ hb, Nat.testBit_mul_pow_two_add _ hd,
    Nat.testBit_mul_pow_two_add _ hbd]
  split_ifs <;> simp [Nat.testBit_or]

/-- Bitwise or of a multiple of `2 ^ k` with a number below `2 ^ k` is their sum. -/
theorem or_low (k a b : Nat) (hb : b < 2 ^ k) : (2 ^ k * a) ||| b = 2 ^ k * a + b :=
  (Nat.mul_add_lt_is_or hb a).symm

theorem and_255 (x : Nat) : x &&& 255 = x % 256 := Nat.and_pow_two_sub_one_eq_mod x 8

theorem and_65535 (x : Nat) : x &&& 65535 = x % 65536 := Nat.and_pow_two_sub_one_eq_mod x 16

theorem mask_lo (x : Nat) : x &&& 0xFF00FF = x % 256 + 65536 * ((x / 65536) % 256) := by
  have h := and_split 16 (x / 65536) (x % 65536) 255 255 (Nat.mod_lt _ (by norm_num)) (by norm_num)
  have e1 : 2 ^ 16 * (x / 65536) + x % 65536 = x := Nat.div_add_mod x 65536
  have e2 : (2 ^ 16 * 255 + 255 : Nat) = 0xFF00FF := by norm_num
  rw [e1, e2, and_255, and_255] at h
  rw [h]
  omega

theorem mask_hi (x : Nat) :
    x &&& 0xFF00FF00 = 256 * ((x / 256) % 256) + 16777216 * ((x / 16777216) % 256) := by
  have h := and_split 8 (x / 256) (x % 256) 0xFF00FF 0 (Nat.mod_lt _ (by norm_num)) (by norm_num)
  have e1 : 2 ^ 8 * (x / 256) + x % 256 = x := Nat.div_add_mod x 256
  have e2 : (2 ^ 8 * 0xFF00FF + 0 : Nat) = 0xFF00FF00 := by norm_num
  rw [e1, e2, mask_lo, Nat.and_zero] at h
  rw [h]
  omega

/-- Interleaving: the or of bytes 1 and 3 with bytes 0 and 2 is their sum. -/
theorem or_interleave (p0 p2 q0 q2 : Nat) (hp0 : p0 < 256) (hq0 : q0 < 256) (hq2 : q2 < 256) :
    (256 * p0 + 16777216 * p2) ||| (q0 + 65536 * q2)
      = q0 + 256 * p0 + 65536 * q2 + 16777216 * p2 := by
  have h := or_split 16 (256 * p2) (256 * p0) q2 q0 (by omega) (by omega)
  have a1 := or_low 8 p2 q2 hq2
  have a2 := or_low 8 p0 q0 hq0
  norm_num at h a1 a2
  have e1 : 65536 * (256 * p2) + 256 * p0 = 256 * p0 + 16777216 * p2 := by omega
  have e2 : 65536 * q2 + q0 = q0 + 65536 * q2 := by omega
  rw [e1, e2, a1, a2] at h
  rw [h]; omega

theorem swap_uint32_bytes (b0 b1 b2 b3 : Nat) (h0 : b0 < 256) (h1 : b1 < 256) (h2 : b2 < 256)
    (h3 : b3 < 256) :
    swap_uint32 (b0 + 256 * b1 + 65536 * b2 + 16777216 * b3)
      = 16777216 * b0 + 65536 * b1 + 256 * b2 + b3 := by
  unfold swap_uint32
  simp only [Nat.shiftLeft_eq, Nat.shiftRight_eq_div_pow]
  norm_num
  have eA : (b0 + 256 * b1 + 65536 * b2 + 16777216 * b3) * 256 % 4294967296
      = 256 * b0 + 65536 * b1 + 16777216 * b2 := by omega
  have eB : (b0 + 256 * b1 + 65536 * b2 + 16777216 * b3) / 256
      = b1 + 256 * b2 + 65536 * b3 := by omega
  rw [eA, eB, mask_hi, mask_lo]
  have c1 : (256 * b0 + 65536 * b1 + 16777216 * b2) / 256 % 256 = b0 := by omega
  have c2 : (256 * b0 + 65536 * b1 + 16777216 * b2) / 16777216 % 256 = b2 := by omega
  have c3 : (b1 + 256 * b2 + 65536 * b3) % 256 = b1 := by omega
  have c4 : (b1 + 256 * b2 + 65536 * b3) / 65536 % 256 = b3 := by omega
  rw [c1, c2, c3, c4, or_interleave _ _ _ _ h0 h1 h3]
  have d1 : (b1 + 256 * b0 + 65536 * b3 + 16777216 * b2) * 65536 % 4294967296
      = 2 ^ 16 * (b1 + 256 * b0) := by omega
  have d2 : (b1 + 256 * b0 + 65536 * b3 + 16777216 * b2) / 65536 = b3 + 256 * b2 := by omega
  rw [d1, d2, or_low 16 _ _ (by omega)]
  omega

theorem asr32_8_mask (x : Nat) :
    asr32 x 8 &&& 0xFF00FF = (x / 256) &&& 0xFF00FF := by
  unfold asr32
  split
  · rw [Nat.shiftRight_eq_div_pow]
  · rw [Nat.shiftRight_eq_div_pow, mask_lo, mask_lo]
    norm_num
    omega

theorem asr32_16_mask (x : Nat) (hx : x < 2 ^ 32) :
    asr32 x 16 &&& 0xFFFF = x / 65536 := by
  unfold asr32
  split
  · rw [Nat.shiftRight_eq_div_pow, and_65535]
    norm_num
    omega
  · rw [Nat.shiftRight_eq_div_pow, and_65535]
    norm_num
    omega

theorem swap_int32_bytes (b0 b1 b2 b3 : Nat) (h0 : b0 < 256) (h1 : b1 < 256) (h2 : b2 < 256)
    (h3 : b3 < 256) :
    swap_int32 (b0 + 256 * b1 + 65536 * b2 + 16777216 * b3)
      = 16777216 * b0 + 65536 * b1 + 256 * b2 + b3 := by
  unfold swap_int32
  simp only [Nat.shiftLeft_eq]
  rw [asr32_8_mask]
  norm_num
  have eA : (b0 + 256 * b1 + 65536 * b2 + 16777216 * b3) * 256 % 4294967296
      = 256 * b0 + 65536 * b1 + 16777216 * b2 := by omega
  have eB : (b0 + 256 * b1 + 65536 * b2 + 16777216 * b3) / 256
      = b1 + 256 * b2 + 65536 * b3 := by omega
  rw [eA, eB, mask_hi, mask_lo]
  have c1 : (256 * b0 + 65536 * b1 + 16777216 * b2) / 256 % 256 = b0 := by omega
  have c2 : (256 * b0 + 65536 * b1 + 16777216 * b2) / 16777216 % 256 = b2 := by omega
  have c3 : (b1 + 256 * b2 + 65536 * b3) % 256 = b1 := by omega
  have c4 : (b1 + 256 * b2 + 65536 * b3) / 65536 % 256 = b3 := by omega
  rw [c1, c2, c3, c4, or_interleave _ _ _ _ h0 h1 h3]
  have hm := asr32_16_mask (b1 + 256 * b0 + 65536 * b3 + 16777216 * b2) (by omega)
  norm_num at hm
  rw [hm]
  have d1 : (b1 + 256 * b0 + 65536 * b3 + 16777216 * b2) * 65536 % 4294967296
      = 2 ^ 16 * (b1 + 256 * b0) := by omega
  have d2 : (b1 + 256 * b0 + 65536 * b3 + 16777216 * b2) / 65536 = b3 + 256 * b2 := by omega
  rw [d1, d2, or_low 16 _ _ (by omega)]
  omega

theorem swap_uint16_bytes (b0 b1 : Nat) (h0 : b0 < 256) (h1 : b1 < 256) :
    swap_uint16 (b0 + 256 * b1) = 256 * b0 + b1 := by
  unfold swap_uint16
  simp only [Nat.shiftLeft_eq, Nat.shiftRight_eq_div_pow]
  norm_num
  have e1 : (b0 + 256 * b1) * 256 = 2 ^ 8 * (b0 + 256 * b1) := by omega
  have e2 : (b0 + 256 * b1) / 256 = b1 := by omega
  rw [e1, e2, or_low 8 _ _ h1]
  omega

theorem swap_int16_bytes (b0 b1 : Nat) (h0 : b0 < 256) (h1 : b1 < 256) :
    swap_int16 (b0 + 256 * b1) = 256 * b0 + b1 := by
  unfold swap_int16 sx16 asr32
  simp only [Nat.shiftLeft_eq, Nat.shiftRight_eq_div_pow, and_255]
  norm_num
  have hm : (b0 + 256 * b1) % 65536 = b0 + 256 * b1 := by omega
  rw [hm]
  split
  · have hlt : b0 + 256 * b1 < 2147483648 := by omega
    rw [if_pos hlt]
    have e1 : (b0 + 256 * b1) * 256 % 4294967296 = 2 ^ 8 * (b0 + 256 * b1) := by omega
    have e2 : (b0 + 256 * b1) / 256 % 256 = b1 := by omega
    rw [e1, e2, or_low 8 _ _ h1]
    omega
  · have hge : ¬ (b0 + 256 * b1 + 4294901760 < 2147483648) := by omega
    rw [if_neg hge]
    have e1 : (b0 + 256 * b1 + 4294901760) * 256 % 4294967296
        = 2 ^ 8 * (b0 + 256 * b1 + 16711680) := by omega
    have e2 : ((b0 + 256 * b1 + 4294901760) / 256 + 4278190080) % 256 = b1 := by omega
    rw [e1, e2, or_low 8 _ _ h1]
    omega

/-! ### Big-endian decoding of struct fields -/

theorem is_bytes_getD {b : Nat → Nat} (hb : is_bytes b) (i : Nat) : b i < 256 := hb i

theorem GET_U16_le16 {b : Nat → Nat} (hb : is_bytes b) (o : Nat) :
    GET_U16 (le16 b o) = be16 b o := by
  have h := swap_uint16_bytes _ _ (is_bytes_getD hb o) (is_bytes_getD hb (o + 1))
  simpa [GET_U16, le16, be16] using h

theorem GET_I16_le16 {b : Nat → Nat} (hb : is_bytes b) (o : Nat) :
    GET_I16 (le16 b o) = be16 b o := by
  have h := swap_int16_bytes _ _ (is_bytes_getD hb o) (is_bytes_getD hb (o + 1))
  simpa [GET_I16, le16, be16] using h

theorem GET_U32_le32 {b : Nat → Nat} (hb : is_bytes b) (o : Nat) :
    GET_U32 (le32 b o) = be32 b o := by
  have h := swap_uint32_bytes _ _ _ _ (is_bytes_getD hb o) (is_bytes_getD hb (o + 1))
    (is_bytes_getD hb (o + 2)) (is_bytes_getD hb (o + 3))
  simpa [GET_U32, le32, be32] using h

theorem GET_I32_le32 {b : Nat → Nat} (hb : is_bytes b) (o : Nat) :
    GET_I32 (le32 b o) = be32 b o := by
  have h := swap_int32_bytes _ _ _ _ (is_bytes_getD hb o) (is_bytes_getD hb (o + 1))
    (is_bytes_getD hb (o + 2)) (is_bytes_getD hb (o + 3))
  simpa [GET_I32, le32, be32] using h

/-! ### Inode location -/

theorem and_three_eq_mod (ino : Nat) : ino &&& (INOS_PER_BB - 1) = ino % 4 := by
  have h := Nat.and_pow_two_sub_one_eq_mod ino 2
  simpa [INOS_PER_BB, BBS, INO_SIZE] using h

theorem sx16_of_pos {b : Nat} (hb : b < 2 ^ 15) : sx16 b = b := by
  have h : b % 2 ^ 16 = b := Nat.mod_eq_of_lt (by omega)
  unfold sx16
  rw [h, if_pos hb]

/-- The value asserted inside `inode2loc` is `ino` itself whenever the number of inodes
per cylinder group is a positive multiple of four. -/
theorem inode2loc_assert_value (b ino : Nat) :
    (ino / (b * 4)) * b * 4 + ino % 4 + (ino % (b * 4)) / 4 * 4 = ino := by
  have h1 := Nat.div_add_mod ino (b * 4)
  have h2 : (ino % (b * 4)) % 4 = ino % 4 := Nat.mod_mod_of_dvd ino (Dvd.intro_left b rfl)
  have h3 := Nat.div_add_mod (ino % (b * 4)) 4
  have h4 : (ino / (b * 4)) * b * 4 = b * 4 * (ino / (b * 4)) := by ring
  omega

/-- Value of `inode2loc` for a positive `cg_ino_bbs` (shared by the location theorems). -/
theorem inode2loc_value (fs : efs_fs) (ino : Nat) (hino : ino < 2 ^ 32)
    (hpos : 0 < GET_I16 fs.sb.s_cg_ino_bbs) (hsgn : GET_I16 fs.sb.s_cg_ino_bbs < 2 ^ 15) :
    inode2loc fs ino = .ok
      ((GET_I32 fs.sb.s_first_cg
          + (ino / (GET_I16 fs.sb.s_cg_ino_bbs * 4)) * GET_I32 fs.sb.s_cg_size
          + (ino % (GET_I16 fs.sb.s_cg_ino_bbs * 4)) / 4) % 2 ^ 32,
       (ino % 4) * 128) := by
  have hI : INOS_PER_BB = 4 := by decide
  have hS : INO_SIZE = 128 := by decide
  have hsx := sx16_of_pos hsgn
  have hlt : GET_I16 fs.sb.s_cg_ino_bbs * 4 < 2 ^ 32 := by omega
  have hmod : (GET_I16 fs.sb.s_cg_ino_bbs * 4) % 2 ^ 32 = GET_I16 fs.sb.s_cg_ino_bbs * 4 :=
    Nat.mod_eq_of_lt hlt
  have hne : GET_I16 fs.sb.s_cg_ino_bbs * 4 ≠ 0 := by omega
  have hval := inode2loc_assert_value (GET_I16 fs.sb.s_cg_ino_bbs) ino
  have hand := and_three_eq_mod ino
  rw [hI] at hand
  have hassert : ((ino / (GET_I16 fs.sb.s_cg_ino_bbs * 4)) * GET_I16 fs.sb.s_cg_ino_bbs * 4
      + ino % 4 + (ino % (GET_I16 fs.sb.s_cg_ino_bbs * 4)) / 4 * 4) % 2 ^ 32 = ino := by
    rw [hval]; exact Nat.mod_eq_of_lt hino
  simp only [inode2loc, hsx, hI, hS, hmod, hand, hassert, if_neg hne, if_true]

/-- C7 (amended): for every super block whose `cg_ino_bbs` is positive and every 32-bit
inode number, `inode2loc` is defined and returns the block
`(first_cg + (ino / inos_per_cg) * cg_size + (ino mod inos_per_cg) / 4) mod 2^32` and the
byte offset `(ino mod 4) * 128`, where `inos_per_cg = cg_ino_bbs * 4`. -/
theorem inode2loc_location (fs : efs_fs) (ino : Nat) (hino : ino < 2 ^ 32)
    (hpos : 0 < GET_I16 fs.sb.s_cg_ino_bbs) (hsgn : GET_I16 fs.sb.s_cg_ino_bbs < 2 ^ 15) :
    inode2loc fs ino = .ok
      ((GET_I32 fs.sb.s_first_cg
          + (ino / (GET_I16 fs.sb.s_cg_ino_bbs * 4)) * GET_I32 fs.sb.s_cg_size
          + (ino % (GET_I16 fs.sb.s_cg_ino_bbs * 4)) / 4) % 2 ^ 32,
       (ino % 4) * 128) :=
  inode2loc_value fs ino hino hpos hsgn

/-- C7 (witness): the location of inode 2 on a 16-byte super block prefix. -/
theorem inode2loc_location_witness :
    inode2loc sb1_fs 2 = .ok
      ((GET_I32 sb1_fs.sb.s_first_cg
          + (2 / (GET_I16 sb1_fs.sb.s_cg_ino_bbs * 4)) * GET_I32 sb1_fs.sb.s_cg_size
          + (2 % (GET_I16 sb1_fs.sb.s_cg_ino_bbs * 4)) / 4) % 2 ^ 32,
       (2 % 4) * 128) :=
  inode2loc_location sb1_fs 2 (by decide) (by decide) (by decide)

/-- C7 (counterexample): `efs_mount` accepts the super block of `sb0_fs`, whose magic is
valid and whose `cg_ino_bbs` is zero, and `inode2loc` then divides by zero. -/
theorem inode2loc_undefined_after_mount :
    ∃ fs1, efs_mount sb0_fs = .ok (0, fs1) ∧ inode2loc fs1 2 = .error Fault.undefined := by
  refine ⟨{ sb0_fs with sb := store sb0_fs sb0_fs.sb 0 512 92 }, ?_, ?_⟩
  · rfl
  · rfl

/-- Quotient and remainder of `c * S + o` by `S` are `c` and `o` when `o < S`. -/
theorem mul_add_unique {S c o c1 o1 : Nat} (ho : o < S) (ho1 : o1 < S)
    (h : c * S + o = c1 * S + o1) : c = c1 ∧ o = o1 := by
  have hS : 0 < S := by omega
  have e1 : (o + S * c) / S = c := by
    rw [Nat.add_mul_div_left _ _ hS, Nat.div_eq_of_lt ho, Nat.zero_add]
  have e2 : (o1 + S * c1) / S = c1 := by
    rw [Nat.add_mul_div_left _ _ hS, Nat.div_eq_of_lt ho1, Nat.zero_add]
  have h1 : o + S * c = o1 + S * c1 := by
    rw [Nat.mul_comm S c, Nat.mul_comm S c1]; omega
  have hc : c = c1 := by rw [← e1, ← e2, h1]
  subst hc
  exact ⟨rfl, by omega⟩

/-- C8: with `0 < cg_ino_bbs <= cg_size` and block numbers that do not wrap around
32 bits, two inode numbers that `inode2loc` sends to the same block and byte offset
are equal, so the inode number is determined by its location. -/
theorem inode2loc_injective (fs : efs_fs) (i j : Nat) (hi : i < 2 ^ 32) (hj : j < 2 ^ 32)
    (hpos : 0 < GET_I16 fs.sb.s_cg_ino_bbs) (hsgn : GET_I16 fs.sb.s_cg_ino_bbs < 2 ^ 15)
    (hle : GET_I16 fs.sb.s_cg_ino_bbs ≤ GET_I32 fs.sb.s_cg_size)
    (hwi : GET_I32 fs.sb.s_first_cg
          + (i / (GET_I16 fs.sb.s_cg_ino_bbs * 4)) * GET_I32 fs.sb.s_cg_size
          + (i % (GET_I16 fs.sb.s_cg_ino_bbs * 4)) / 4 < 2 ^ 32)
    (hwj : GET_I32 fs.sb.s_first_cg
          + (j / (GET_I16 fs.sb.s_cg_ino_bbs * 4)) * GET_I32 fs.sb.s_cg_size
          + (j % (GET_I16 fs.sb.s_cg_ino_bbs * 4)) / 4 < 2 ^ 32)
    (h : inode2loc fs i = inode2loc fs j) : i = j := by
  rw [inode2loc_value fs i hi hpos hsgn, inode2loc_value fs j hj hpos hsgn,
    Nat.mod_eq_of_lt hwi, Nat.mod_eq_of_lt hwj] at h
  injection h with h
  injection h with hblk hofs
  generalize GET_I16 fs.sb.s_cg_ino_bbs = b at *
  generalize GET_I32 fs.sb.s_cg_size = S at *
  generalize GET_I32 fs.sb.s_first_cg = F at *
  have hoi : (i % (b * 4)) / 4 < S := by
    have := Nat.mod_lt i (show 0 < b * 4 by omega)
    omega
  have hoj : (j % (b * 4)) / 4 < S := by
    have := Nat.mod_lt j (show 0 < b * 4 by omega)
    omega
  obtain ⟨hc, ho⟩ := mul_add_unique hoi hoj (by omega :
    (i / (b * 4)) * S + (i % (b * 4)) / 4 = (j / (b * 4)) * S + (j % (b * 4)) / 4)
  have h1 := Nat.div_add_mod i (b * 4)
  have h2 := Nat.div_add_mod j (b * 4)
  have h3 : (i % (b * 4)) % 4 = i % 4 := Nat.mod_mod_of_dvd i (Dvd.intro_left b rfl)
  have h4 : (j % (b * 4)) % 4 = j % 4 := Nat.mod_mod_of_dvd j (Dvd.intro_left b rfl)
  rw [hc] at h1
  omega

/-- C8 (witness): under the geometry of `sb1_fs` (`cg_ino_bbs = 2`, `cg_size = 100`)
inode 6 lies in block 3 at byte offset 256, and an inode number with that location is 6. -/
theorem inode2loc_injective_witness :
    (0 < GET_I16 sb1_fs.sb.s_cg_ino_bbs
      ∧ GET_I16 sb1_fs.sb.s_cg_ino_bbs ≤ GET_I32 sb1_fs.sb.s_cg_size
      ∧ inode2loc sb1_fs 6 = .ok (3, 256))
    ∧ (2 + 4 : Nat) = 6 :=
  ⟨⟨by decide, by decide, by decide⟩,
    inode2loc_injective sb1_fs (2 + 4) 6 (by decide) (by decide) (by decide) (by decide)
      (by decide) (by decide) (by decide) (by decide)⟩

/-! ### The read loop never exhausts its budget -/

theorem pread_failed (fs : efs_fs) (bytes : Nat) (offset : Int) (e : Nat)
    (h : pread fs bytes offset = .failed e) : e = EINVAL := by
  unfold pread at h
  split at h
  · injection h with h; exact h.symm
  · split at h <;> exact pread_ret.noConfusion h

theorem pread_got_le (fs : efs_fs) (bytes : Nat) (offset : Int) (n : Nat)
    (h : pread fs bytes offset = .got n) : n ≤ bytes := by
  unfold pread at h
  split at h
  · exact pread_ret.noConfusion h
  · split at h
    · injection h with h; omega
    · injection h with h; omega

/-- With more fuel than bytes to read, the loop of `efs_bread_common` ends by itself: on
a regular file every `pread` either fails, hits the end of the file or transfers at
least one byte. -/
theorem efs_bread_common_loop_fuel (fs : efs_fs) (offset : Int) :
    ∀ (fuel : Nat) (buf : Nat → Nat) (pos bytes : Nat), bytes < fuel →
      efs_bread_common_loop fs offset fuel buf pos bytes ≠ .error Fault.fuel := by
  intro fuel
  induction fuel with
  | zero => intro buf pos bytes h; omega
  | succ fuel ih =>
    intro buf pos bytes h
    rw [efs_bread_common_loop]
    split
    · rename_i e he
      have := pread_failed fs bytes offset e he
      subst this
      simp [EINVAL, EINTR]
    · simp
    · rename_i k hk
      have := pread_got_le fs bytes offset (k + 1) hk
      dsimp only
      split
      · exact ih _ _ _ (by omega)
      · simp

theorem efs_bread_common_fuel (fs : efs_fs) (offset : Int) (buf : Nat → Nat)
    (pos bytes : Nat) : efs_bread_common fs offset buf pos bytes ≠ .error Fault.fuel :=
  efs_bread_common_loop_fuel fs _ _ _ _ _ (Nat.lt_succ_self bytes)

/-! ### Direct extents (C9) -/

theorem take_succ_set {α : Type} (l : List α) (i : Nat) (d : α) (h : i < l.length) :
    (l.set i d).take (i + 1) = l.take i ++ [d] := by
  induction l generalizing i with
  | nil => simp at h
  | cons a l ih =>
    cases i with
    | zero => simp
    | succ i =>
      simp only [List.length_cons, Nat.add_lt_add_iff_right] at h
      simp [ih i h]

theorem load_direct_loop_ok (od : Nat → Nat) :
    ∀ (k i : Nat) (ext : List efs_extent), ext.length = i + k →
      (∀ j, i ≤ j → j < i + k → EXT_MAGIC (GET_U32 (di_ext1 od j)) = 0) →
      efs_inode_load_direct_loop od k i ext
        = some (ext.take i ++ (List.range' i k).map
            (fun j => decode_extent (GET_U32 (di_ext1 od j)) (GET_U32 (di_ext2 od j)))) := by
  intro k
  induction k with
  | zero =>
    intro i ext hlen _
    simp [efs_inode_load_direct_loop]
    omega
  | succ k ih =>
    intro i ext hlen hm
    have h0 := hm i (Nat.le_refl i) (by omega)
    rw [efs_inode_load_direct_loop]
    simp only [h0, ne_eq, not_true_eq_false, if_false]
    rw [ih (i + 1) _ (by simp; omega) (fun j h1 h2 => hm j (by omega) (by omega)),
      take_succ_set _ _ _ (by omega), List.range'_succ]
    simp

theorem load_direct_loop_bad (od : Nat → Nat) :
    ∀ (k i : Nat) (ext : List efs_extent),
      (∃ j, i ≤ j ∧ j < i + k ∧ EXT_MAGIC (GET_U32 (di_ext1 od j)) ≠ 0) →
      efs_inode_load_direct_loop od k i ext = none := by
  intro k
  induction k with
  | zero =>
    intro i ext ⟨j, h1, h2, _⟩
    omega
  | succ k ih =>
    intro i ext ⟨j, h1, h2, h3⟩
    rw [efs_inode_load_direct_loop]
    by_cases h0 : EXT_MAGIC (GET_U32 (di_ext1 od i)) = 0
    · simp only [h0, ne_eq, not_true_eq_false, if_false]
      apply ih
      refine ⟨j, ?_, by omega, h3⟩
      by_contra hc
      have : j = i := by omega
      subst this
      exact h3 h0
    · simp [h0]

/-- Direct extents when the debug message is not formatted (`log_lvl < 3`): for an
on-disk inode whose big-endian `nextents` is at most 12, loading the extents succeeds
exactly when every direct slot `i < nextents` has `ext1 >> 24 == 0`; the in-core array
then has `nextents` entries, entry `i` holding `e_blk = ext1 & 0xFFFFFF`,
`e_len = ext2 >> 24` (the first byte of `ext2`, whatever its value) and
`e_offset = ext2 & 0xFFFFFF` of slot `i`, with `ext1`, `ext2` read big-endian; otherwise
the function returns `EINVAL` and leaves the inode as it was. -/
theorem load_extents_direct (fs : efs_fs) (inode : efs_inode) (hb : is_bytes inode.i_od)
    (hn : be16 inode.i_od 28 ≤ 12) (hlog : fs.log_lvl < 3) :
    ((∀ i, i < be16 inode.i_od 28 → be32 inode.i_od (32 + 8 * i) >>> 24 = 0) →
      efs_inode_load_extents fs inode = .ok (0, { inode with
        i_nextents := be16 inode.i_od 28,
        i_extents := (List.range (be16 inode.i_od 28)).map (fun i =>
          { e_blk := be32 inode.i_od (32 + 8 * i) &&& 0xFFFFFF,
            e_len := be32 inode.i_od (36 + 8 * i) >>> 24,
            e_offset := be32 inode.i_od (36 + 8 * i) &&& 0xFFFFFF }) }))
    ∧ (¬ (∀ i, i < be16 inode.i_od 28 → be32 inode.i_od (32 + 8 * i) >>> 24 = 0) →
      efs_inode_load_extents fs inode = .ok (EINVAL, inode))
    ∧ (∀ i, be32 inode.i_od (36 + 8 * i) >>> 24 = inode.i_od (36 + 8 * i)) := by
  have hnx : GET_I16 (di_nextents inode.i_od) = be16 inode.i_od 28 := GET_I16_le16 hb 28
  have h1 : ∀ i, GET_U32 (di_ext1 inode.i_od i) = be32 inode.i_od (32 + 8 * i) :=
    fun i => GET_U32_le32 hb _
  have h2 : ∀ i, GET_U32 (di_ext2 inode.i_od i) = be32 inode.i_od (36 + 8 * i) :=
    fun i => GET_U32_le32 hb _
  have hlf : logger_formats fs.log_lvl 3 = false := by
    unfold logger_formats
    simp only [Bool.not_eq_false', decide_eq_true_eq]
    omega
  refine ⟨?_, ?_, ?_⟩
  · intro hm
    have hl := load_direct_loop_ok inode.i_od (be16 inode.i_od 28) 0
      (List.replicate (be16 inode.i_od 28) ⟨0, 0, 0⟩) (by simp)
      (fun j _ hj => by rw [h1, EXT_MAGIC]; exact hm j (by omega))
    simp only [efs_inode_load_extents, hnx, EFS_DIRECTEXTENTS, if_pos hn, hlf, hl]
    simp only [Bool.false_eq_true, if_false]
    simp [List.range_eq_range', decode_extent, h1, h2, EXT_BN, EXT_LEN, EXT_OFFSET]
  · intro hm
    push_neg at hm
    obtain ⟨j, hj, hj2⟩ := hm
    have hl := load_direct_loop_bad inode.i_od (be16 inode.i_od 28) 0
      (List.replicate (be16 inode.i_od 28) ⟨0, 0, 0⟩)
      ⟨j, Nat.zero_le j, by omega, by rw [h1, EXT_MAGIC]; exact hj2⟩
    simp only [efs_inode_load_extents, hnx, EFS_DIRECTEXTENTS, if_pos hn, hlf, hl]
    simp only [Bool.false_eq_true, if_false]
  · intro i
    have a0 := is_bytes_getD hb (36 + 8 * i)
    have a1 := is_bytes_getD hb (36 + 8 * i + 1)
    have a2 := is_bytes_getD hb (36 + 8 * i + 2)
    have a3 := is_bytes_getD hb (36 + 8 * i + 3)
    rw [Nat.shiftRight_eq_div_pow, be32]
    omega

theorem list_getD_lt (l : List Nat) (h : ∀ x ∈ l, x < 256) (i : Nat) : l.getD i 0 < 256 := by
  rw [List.getD_eq_getElem?_getD]
  cases h1 : l[i]? with
  | none => simp
  | some x => simpa using h x (List.getElem?_mem h1)

theorem od_two_is_bytes : is_bytes od_two := fun i => list_getD_lt _ (by decide) i

/-- With `log_lvl = 0` the inode `od_two` has two direct extents, of length 1 and 255. -/
theorem load_extents_direct_witness :
    efs_inode_load_extents sb1_fs (inode_of_od od_two) = .ok (0, { inode_of_od od_two with
      i_nextents := 2, i_extents := [⟨0, 100, 1⟩, ⟨1, 200, 255⟩] }) :=
  (load_extents_direct sb1_fs (inode_of_od od_two) od_two_is_bytes
    (by decide!) (by decide)).1 (by decide!)

/-- C9 (code at the failing input): with `log_lvl = 3` (the option `--debug=3`) the
direct path of `efs_inode_load_extents` formats its `LOG_DBG2` message, whose `%n`
stores through the integer `n`, before any extent is decoded: for the inode `od_two`
(`nextents = 2`, both magic bytes zero) the call has no defined result, and neither has
`efs_iget` of the root inode of `tree_img`; with `log_lvl = 0` the two extents of
`od_two` are decoded. -/
theorem load_extents_direct_log_crash :
    GET_I16 (di_nextents od_two) = 2
    ∧ logger_formats 3 3 = true
    ∧ (efs_inode_load_extents tree_fs_debug (inode_of_od od_two)).map (fun r => r.1)
        = .error Fault.undefined
    ∧ (efs_iget tree_fs_debug state0 2).map (fun r => r.1) = .error Fault.undefined
    ∧ (efs_inode_load_extents tree_fs (inode_of_od od_two)).map
        (fun r => (r.1, r.2.i_nextents, r.2.i_extents))
        = .ok (0, 2, [⟨0, 100, 1⟩, ⟨1, 200, 255⟩]) := by
  decide!

/-! ### Indirect extents (C10) -/

/-- C10 (code at the failing input): the on-disk inode `od_ind` has `nextents = 13`, its
one indirect block holds 13 descriptors followed by zeros; loading succeeds with
`i_nextents = 64`, and `efs_inode_verify_extents` then fails its assertion. -/
theorem load_extents_indirect_count :
    GET_I16 (di_nextents od_ind) = 13
    ∧ (efs_inode_load_extents ind_fs (inode_of_od od_ind)).map
        (fun r => (r.1, r.2.i_nextents)) = .ok (0, 64)
    ∧ ((efs_inode_load_extents ind_fs (inode_of_od od_ind)).bind
        (fun r => efs_inode_verify_extents r.2)).map (fun i => i.i_nblks)
        = .error Fault.assertion := by
  refine ⟨by decide!, by decide!, by decide!⟩

/-! ### Directory blocks (C3, C4) -/

theorem strncmp_is_zero_iff (s1 s2 : Nat → Nat) :
    ∀ (n k : Nat), (∀ j, k ≤ j → j < k + n → s1 j ≠ 0) →
      (strncmp_is_zero s1 s2 n k = true ↔ ∀ j, k ≤ j → j < k + n → s1 j = s2 j) := by
  intro n
  induction n with
  | zero =>
    intro k _
    simp only [strncmp_is_zero, true_iff]
    intro j h1 h2
    omega
  | succ n ih =>
    intro k hnz
    rw [strncmp_is_zero]
    by_cases h : s1 k = s2 k
    · have hk := hnz k (Nat.le_refl k) (by omega)
      simp only [h, ne_eq, not_true_eq_false, if_false]
      rw [if_neg (by rw [← h]; exact hk),
        ih (k + 1) (fun j h1 h2 => hnz j (by omega) (by omega))]
      constructor
      · intro hall j h1 h2
        by_cases hj : j = k
        · subst hj; exact h
        · exact hall j (by omega) (by omega)
      · intro hall j h1 h2
        exact hall j (by omega) (by omega)
    · simp only [ne_eq, h, not_false_eq_true, if_true, Bool.false_eq_true, false_iff]
      intro hall
      exact h (hall k (Nat.le_refl k) (by omega))

theorem cstr_ne_zero (name : List Nat) (hname : ∀ c ∈ name, c ≠ 0) (j : Nat)
    (hj : j < name.length) : cstr name j ≠ 0 := by
  unfold cstr
  rw [List.getD_eq_getElem _ _ hj]
  exact hname _ (List.getElem_mem hj)

theorem db_lookup_loop_none (db : Nat → Nat) (name : List Nat) :
    ∀ (n i : Nat),
      (∀ j, i ≤ j → j < i + n →
        ¬ (db_space db j ≠ 0 ∧ de_namelen db (2 * db_space db j) = name.length ∧
          strncmp_is_zero (cstr name) (de_name db (2 * db_space db j))
            (de_namelen db (2 * db_space db j)) 0 = true)) →
      efs_db_lookup_loop db name n i = none := by
  intro n
  induction n with
  | zero => intro i _; rfl
  | succ n ih =>
    intro i hno
    have h0 := hno i (Nat.le_refl i) (by omega)
    have hrec := ih (i + 1) (fun j h1 h2 => hno j (by omega) (by omega))
    rw [efs_db_lookup_loop]
    have hsh : db_space db i <<< 1 = 2 * db_space db i := by
      rw [Nat.shiftLeft_eq]; omega
    simp only [hsh]
    by_cases hz : 2 * db_space db i = 0
    · rw [if_pos hz]; exact hrec
    · rw [if_neg hz]
      by_cases hl : name.length ≠ de_namelen db (2 * db_space db i)
      · rw [if_pos hl]; exact hrec
      · rw [if_neg hl]
        have hl1 : de_namelen db (2 * db_space db i) = name.length := by
          by_contra hc; exact hl (fun e => hc e.symm)
        have hs : ¬ strncmp_is_zero (cstr name) (de_name db (2 * db_space db i))
            (de_namelen db (2 * db_space db i)) 0 = true := by
          intro hc
          exact h0 ⟨by omega, hl1, hc⟩
        rw [if_neg hs]; exact hrec

theorem db_lookup_loop_some (db : Nat → Nat) (name : List Nat) :
    ∀ (n i j : Nat), i ≤ j → j < i + n →
      (db_space db j ≠ 0 ∧ de_namelen db (2 * db_space db j) = name.length ∧
          strncmp_is_zero (cstr name) (de_name db (2 * db_space db j))
            (de_namelen db (2 * db_space db j)) 0 = true) →
      (∀ j', i ≤ j' → j' < j →
        ¬ (db_space db j' ≠ 0 ∧ de_namelen db (2 * db_space db j') = name.length ∧
          strncmp_is_zero (cstr name) (de_name db (2 * db_space db j'))
            (de_namelen db (2 * db_space db j')) 0 = true)) →
      efs_db_lookup_loop db name n i = some (GET_U32 (de_ino db (2 * db_space db j))) := by
  intro n
  induction n with
  | zero => intro i j h1 h2; omega
  | succ n ih =>
    intro i j h1 h2 hj hbefore
    rw [efs_db_lookup_loop]
    have hsh : db_space db i <<< 1 = 2 * db_space db i := by
      rw [Nat.shiftLeft_eq]; omega
    simp only [hsh]
    by_cases hij : j = i
    · subst hij
      obtain ⟨a, b, c⟩ := hj
      rw [if_neg (by omega), if_neg (by rw [b]; exact fun h => h rfl), if_pos c]
    · have h0 := hbefore i (Nat.le_refl i) (by omega)
      have hrec := ih (i + 1) j (by omega) (by omega) hj
        (fun j' h3 h4 => hbefore j' (by omega) h4)
      by_cases hz : 2 * db_space db i = 0
      · rw [if_pos hz]; exact hrec
      · rw [if_neg hz]
        by_cases hl : name.length ≠ de_namelen db (2 * db_space db i)
        · rw [if_pos hl]; exact hrec
        · rw [if_neg hl]
          have hl1 : de_namelen db (2 * db_space db i) = name.length := by
            by_contra hc; exact hl (fun e => hc e.symm)
          have hs : ¬ strncmp_is_zero (cstr name) (de_name db (2 * db_space db i))
              (de_namelen db (2 * db_space db i)) 0 = true := by
            intro hc
            exact h0 ⟨by omega, hl1, hc⟩
          rw [if_neg hs]; exact hrec

theorem slot_matches_iff (db : Nat → Nat) (name : List Nat) (hname : ∀ c ∈ name, c ≠ 0)
    (j : Nat) :
    (db_space db j ≠ 0 ∧ de_namelen db (2 * db_space db j) = name.length ∧
      strncmp_is_zero (cstr name) (de_name db (2 * db_space db j))
        (de_namelen db (2 * db_space db j)) 0 = true) ↔ slot_matches db name j := by
  unfold slot_matches
  constructor
  · rintro ⟨a, b, c⟩
    refine ⟨a, b, ?_⟩
    rw [b, strncmp_is_zero_iff _ _ _ _
      (fun k _ h2 => cstr_ne_zero name hname k (by omega))] at c
    intro k hk
    exact (c k (Nat.zero_le k) (by omega)).symm
  · rintro ⟨a, b, c⟩
    refine ⟨a, b, ?_⟩
    rw [b, strncmp_is_zero_iff _ _ _ _
      (fun k _ h2 => cstr_ne_zero name hname k (by omega))]
    intro k _ hk
    exact (c k (by omega)).symm

/-- C3: on a 512-byte directory block with magic `0xBEEF` whose entries lie inside the
block, and for a name without NUL, `efs_db_lookup` returns 0 and the big-endian inode
number of the lowest slot `i < db_slots` that is in use (`space[i] != 0`) and whose
entry has the length and the bytes of the name; it returns `ENOENT` exactly when no slot
matches; with another magic it returns `ENXIO`, which is neither 0 nor `ENOENT`. -/
theorem efs_db_lookup_spec (db : Nat → Nat) (name : List Nat) (ino0 : Nat)
    (hb : is_bytes db) (hname : ∀ c ∈ name, c ≠ 0)
    (_hin : ∀ i, i < db_slots db → db_space db i ≠ 0 →
      2 * db_space db i + 5 + de_namelen db (2 * db_space db i) ≤ 512) :
    (be16 db 0 ≠ 0xBEEF →
      efs_db_lookup db name ino0 = ( ENXIO, ino0) ∧ ENXIO ≠ 0 ∧ ENXIO ≠ ENOENT)
    ∧ (be16 db 0 = 0xBEEF →
      (∀ i, i < db_slots db → slot_matches db name i →
          (∀ j, j < i → ¬ slot_matches db name j) →
          efs_db_lookup db name ino0 = (0, be32 db (2 * db_space db i)))
      ∧ ((efs_db_lookup db name ino0).1 = ENOENT ↔
          ∀ i, i < db_slots db → ¬ slot_matches db name i)) := by
  have hm : GET_U16 (db_magic db) = be16 db 0 := GET_U16_le16 hb 0
  refine ⟨?_, ?_⟩
  · intro hbad
    refine ⟨?_, by decide, by decide⟩
    simp only [efs_db_lookup, hm, EFS_DIRBLK_MAGIC]
    rw [if_pos hbad]
  · intro hgood
    have hfirst : ∀ i, i < db_slots db → slot_matches db name i →
        (∀ j, j < i → ¬ slot_matches db name j) →
        efs_db_lookup db name ino0 = (0, be32 db (2 * db_space db i)) := by
      intro i hi hmatch hbefore
      have hl := db_lookup_loop_some db name (db_slots db) 0 i (Nat.zero_le i) (by omega)
        ((slot_matches_iff db name hname i).2 hmatch)
        (fun j _ h2 hc => hbefore j h2 ((slot_matches_iff db name hname j).1 hc))
      simp only [efs_db_lookup, hm, EFS_DIRBLK_MAGIC, hl]
      rw [if_neg (fun h => h hgood)]
      simp only [de_ino, GET_U32_le32 hb]
    refine ⟨hfirst, ?_⟩
    constructor
    · intro hret i hi hmatch
      -- take the lowest matching slot
      have hex : ∃ j, j < db_slots db ∧ slot_matches db name j := ⟨i, hi, hmatch⟩
      classical
      have hj := Nat.find_spec hex
      have hmin : ∀ j', j' < Nat.find hex → ¬ slot_matches db name j' := by
        intro j' hlt hc
        exact Nat.find_min hex hlt ⟨by omega, hc⟩
      rw [hfirst (Nat.find hex) hj.1 hj.2 hmin] at hret
      exact absurd hret (show ¬ (0 : Nat) = ENOENT by decide)
    · intro hnone
      have hl := db_lookup_loop_none db name (db_slots db) 0
        (fun j _ h2 hc => hnone j (by omega) ((slot_matches_iff db name hname j).1 hc))
      simp only [efs_db_lookup, hm, EFS_DIRBLK_MAGIC, hl]
      rw [if_neg (fun h => h hgood)]

/-! ### Path resolution (C5, C6) -/

theorem namei_loop_none (fs : efs_fs) (fuel : Nat) (st : efs_state) (ino : Nat) :
    efs_dir_namei_loop fs (fuel + 1) st ino none = namei_fold fs st ino [] := by
  rw [efs_dir_namei_loop, namei_fold]
  cases h : efs_iget fs st ino with
  | error f => rfl
  | ok r =>
    obtain ⟨err, inode, st1⟩ := r
    by_cases he : err = 0
    · subst he; simp
    · simp [he]

theorem namei_loop_nil (fs : efs_fs) (fuel : Nat) (st : efs_state) (ino : Nat) :
    efs_dir_namei_loop fs (fuel + 1) st ino (some []) = namei_fold fs st ino [] := by
  rw [efs_dir_namei_loop, namei_fold]
  cases h : efs_iget fs st ino with
  | error f => rfl
  | ok r =>
    obtain ⟨err, inode, st1⟩ := r
    by_cases he : err = 0
    · subst he; simp
    · simp [he]

/-- Dropping a final empty piece commutes with putting a piece in front of a non-empty
list of pieces. -/
theorem strip_cons (c : List Nat) (l : List (List Nat)) (hl : l ≠ []) :
    (if (c :: l).getLast? = some [] then (c :: l).dropLast else c :: l)
      = c :: (if l.getLast? = some [] then l.dropLast else l) := by
  cases l with
  | nil => exact absurd rfl hl
  | cons x xs =>
    have h1 : (c :: x :: xs).getLast? = (x :: xs).getLast? := by
      simp [List.getLast?_cons_cons]
    rw [h1]
    split <;> simp

theorem no_slash_of_not_contains (s : List Nat) (h : s.contains SLASH = false) :
    ∀ x ∈ s, ¬ ((x == SLASH) = true) := by
  intro x hx hc
  have : x = SLASH := by simpa using hc
  subst this
  have : s.contains SLASH = true := by simpa using hx
  rw [h] at this
  exact Bool.noConfusion this

theorem takeWhile_of_not_contains (s : List Nat) (h : s.contains SLASH = false) :
    s.takeWhile not_slash = s := by
  rw [List.takeWhile_eq_self_iff]
  intro x hx
  have := no_slash_of_not_contains s h x hx
  simpa [not_slash] using this

theorem split_at_slash (s : List Nat) (h : s.contains SLASH = true) :
    s = s.takeWhile not_slash ++ SLASH :: (s.dropWhile not_slash).drop 1 := by
  induction s with
  | nil => simp at h
  | cons c cs ih =>
    by_cases hc : c = SLASH
    · subst hc; simp [not_slash]
    · have h1 : cs.contains SLASH = true := by
        simp only [List.contains_cons, Bool.or_eq_true, beq_iff_eq] at h
        rcases h with h | h
        · exact absurd h.symm hc
        · exact h
      have := ih h1
      have hns : not_slash c = true := by simp [not_slash, hc]
      simp only [List.takeWhile_cons, List.dropWhile_cons, hns, if_true, List.cons_append]
      rw [← this]

theorem takeWhile_no_slash (s : List Nat) :
    ∀ x ∈ s.takeWhile not_slash, ¬ ((x == SLASH) = true) := by
  intro x hx
  have := List.mem_takeWhile_imp hx
  simpa [not_slash] using this

theorem namei_loop_eq_fold (fs : efs_fs) :
    ∀ (n : Nat) (s : List Nat) (fuel : Nat) (st : efs_state) (ino : Nat),
      s.length ≤ n → s.length + 2 ≤ fuel →
      efs_dir_namei_loop fs fuel st ino (some s)
        = namei_fold fs st ino
            (if (s.splitOn SLASH).getLast? = some [] then (s.splitOn SLASH).dropLast
             else s.splitOn SLASH) := by
  intro n
  induction n with
  | zero =>
    intro s fuel st ino hn hf
    have hs : s = [] := List.length_eq_zero.mp (by omega)
    subst hs
    obtain ⟨f, rfl⟩ : ∃ f, fuel = f + 1 := ⟨fuel - 1, by simp at hf; omega⟩
    rw [namei_loop_nil]
    rfl
  | succ n ih =>
    intro s fuel st ino hn hf
    obtain ⟨f, rfl⟩ : ∃ f, fuel = f + 1 := ⟨fuel - 1, by omega⟩
    cases s with
    | nil => rw [namei_loop_nil]; rfl
    | cons c cs =>
      by_cases hc : (c :: cs).contains SLASH = true
      · -- a further component follows
        have hsplit := split_at_slash (c :: cs) hc
        have hlen2 : (((c :: cs).dropWhile not_slash).drop 1).length + 1
            ≤ (c :: cs).length := by
          have := congrArg List.length hsplit
          simp only [List.length_append, List.length_cons] at this ⊢
          omega
        have hlen : (((c :: cs).dropWhile not_slash).drop 1).length ≤ n := by omega
        have hso : (c :: cs).splitOn SLASH
            = (c :: cs).takeWhile not_slash
              :: (((c :: cs).dropWhile not_slash).drop 1).splitOn SLASH := by
          conv_lhs => rw [hsplit]
          exact List.splitOnP_first _ _ (takeWhile_no_slash _) SLASH (by simp) _
        rw [hso, strip_cons ((c :: cs).takeWhile not_slash)
          ((((c :: cs).dropWhile not_slash).drop 1).splitOn SLASH)
          (List.splitOnP_ne_nil _ _), namei_fold, efs_dir_namei_loop]
        cases h : efs_iget fs st ino with
        | error e => rfl
        | ok r =>
          obtain ⟨err, inode, st1⟩ := r
          by_cases he : err = 0
          · subst he
            cases inode with
            | none => simp
            | some dir =>
              simp only [ne_eq, not_true_eq_false, if_false]
              cases h2 : efs_dir_lookup fs dir ((c :: cs).takeWhile not_slash) ino with
              | error e => rfl
              | ok r2 =>
                obtain ⟨err2, ino2⟩ := r2
                by_cases he2 : err2 = 0
                · subst he2
                  simp only [ne_eq, not_true_eq_false, if_false, hc, if_true]
                  exact ih _ f st1 ino2 hlen (by omega)
                · simp [he2]
          · simp [he]
      · -- the last component
        have hc1 : (c :: cs).contains SLASH = false := by simpa using hc
        have hso : (c :: cs).splitOn SLASH = [c :: cs] :=
          List.splitOnP_eq_single _ _ (no_slash_of_not_contains _ hc1)
        have htw := takeWhile_of_not_contains _ hc1
        rw [hso]
        simp only [List.getLast?_singleton, Option.some.injEq, reduceCtorEq, if_false]
        rw [namei_fold, efs_dir_namei_loop]
        cases h : efs_iget fs st ino with
        | error e => rfl
        | ok r =>
          obtain ⟨err, inode, st1⟩ := r
          by_cases he : err = 0
          · subst he
            cases inode with
            | none => simp
            | some dir =>
              simp only [ne_eq, not_true_eq_false, if_false, htw]
              cases h2 : efs_dir_lookup fs dir (c :: cs) ino with
              | error e => rfl
              | ok r2 =>
                obtain ⟨err2, ino2⟩ := r2
                by_cases he2 : err2 = 0
                · subst he2
                  obtain ⟨f2, rfl⟩ : ∃ f2, f = f2 + 1 := ⟨f - 1, by
                    simp only [List.length_cons] at hf; omega⟩
                  simp only [ne_eq, not_true_eq_false, if_false, hc1, Bool.false_eq_true]
                  exact namei_loop_none fs f2 st1 ino2
                · simp [he2]
          · simp [he]

theorem splitOn_append_slash (p : List Nat) :
    (p ++ [SLASH]).splitOn SLASH = p.splitOn SLASH ++ [[]] := by
  unfold List.splitOn
  induction p with
  | nil => simp [List.splitOnP_cons]
  | cons c cs ih =>
    rw [List.cons_append, List.splitOnP_cons, List.splitOnP_cons, ih]
    split
    · rfl
    · cases h : List.splitOnP (fun x => x == SLASH) cs with
      | nil => exact absurd h (List.splitOnP_ne_nil _ _)
      | cons w ws => rfl

theorem splitOn_last_ne_nil (p : List Nat) (hp : p ≠ []) (hl : p.getLast? ≠ some SLASH) :
    (p.splitOn SLASH).getLast? ≠ some [] := by
  unfold List.splitOn
  induction p with
  | nil => exact absurd rfl hp
  | cons c cs ih =>
    rw [List.splitOnP_cons]
    cases hcs : cs with
    | nil =>
      subst hcs
      have hc : ¬ (c == SLASH) = true := by
        intro h
        have : c = SLASH := by simpa using h
        subst this
        exact hl rfl
      simp [hc]
    | cons d ds =>
      have hl2 : cs.getLast? ≠ some SLASH := by
        intro h
        apply hl
        rw [hcs, List.getLast?_cons_cons, ← hcs]
        exact h
      have := ih (by rw [hcs]; exact List.cons_ne_nil _ _) hl2
      rw [← hcs]
      cases h : List.splitOnP (fun x => x == SLASH) cs with
      | nil => exact absurd h (List.splitOnP_ne_nil _ _)
      | cons w ws =>
        rw [h] at this
        split
        · rw [List.getLast?_cons_cons]; exact this
        · cases ws with
          | nil => simp
          | cons v vs =>
            simp only [List.modifyHead_cons, List.getLast?_cons_cons] at this ⊢
            exact this

theorem namei_components_trailing (p : List Nat) (hp : p ≠ [])
    (hl : p.getLast? ≠ some SLASH) :
    namei_components (SLASH :: (p ++ [SLASH])) = namei_components (SLASH :: p) := by
  unfold namei_components
  simp only [List.drop_succ_cons, List.drop_zero]
  rw [splitOn_append_slash, if_neg (splitOn_last_ne_nil p hp hl)]
  simp

theorem namei_components_root : namei_components [SLASH] = [] := by decide

theorem load_extents_keeps (fs : efs_fs) (i j : efs_inode) (err : Nat)
    (h : efs_inode_load_extents fs i = .ok (err, j)) :
    j.i_num = i.i_num ∧ j.i_addr = i.i_addr ∧ j.i_flags = i.i_flags := by
  unfold efs_inode_load_extents at h
  dsimp only at h
  split at h
  · split at h
    · exact Except.noConfusion h
    · split at h
      · simp only [Except.ok.injEq, Prod.mk.injEq] at h
        rw [← h.2]; exact ⟨rfl, rfl, rfl⟩
      · simp only [Except.ok.injEq, Prod.mk.injEq] at h
        rw [← h.2]; exact ⟨rfl, rfl, rfl⟩
  · split at h
    · exact Except.noConfusion h
    · split at h
      · simp only [Except.ok.injEq, Prod.mk.injEq] at h
        rw [← h.2]; exact ⟨rfl, rfl, rfl⟩
      · simp only [Except.ok.injEq, Prod.mk.injEq] at h
        rw [← h.2]; exact ⟨rfl, rfl, rfl⟩

theorem verify_extents_keeps (i j : efs_inode) (h : efs_inode_verify_extents i = .ok j) :
    j.i_num = i.i_num ∧ j.i_addr = i.i_addr ∧ j.i_flags = i.i_flags := by
  unfold efs_inode_verify_extents at h
  split at h
  · exact Except.noConfusion h
  · split at h
    · simp only [Except.ok.injEq] at h
      rw [← h]; exact ⟨rfl, rfl, rfl⟩
    · exact Except.noConfusion h

/-- What a successful or failing `efs_iget` leaves behind: the path cache is untouched, and
an inode that is returned has the requested number. -/
theorem efs_iget_facts (fs : efs_fs) (st st1 : efs_state) (ino err : Nat)
    (oi : Option efs_inode) (h : efs_iget fs st ino = .ok (err, oi, st1)) :
    st1.ncache = st.ncache ∧ ∀ i, oi = some i → i.i_num = ino := by
  unfold efs_iget efs_iget_locked at h
  split at h
  · rename_i j hj
    have hfound := List.find?_some hj
    simp only [Except.ok.injEq, Prod.mk.injEq] at h
    obtain ⟨_, h2, h3⟩ := h
    subst h3
    refine ⟨rfl, ?_⟩
    intro i hi
    rw [← h2] at hi
    injection hi with hi
    subst hi
    simpa using hfound
  · split at h
    · exact Except.noConfusion h
    · dsimp only at h
      split at h
      · exact Except.noConfusion h
      · split at h
        · simp only [Except.ok.injEq, Prod.mk.injEq] at h
          obtain ⟨_, h2, h3⟩ := h
          subst h3
          refine ⟨rfl, ?_⟩
          intro i hi
          rw [← h2] at hi
          exact Option.noConfusion hi
        · split at h
          · exact Except.noConfusion h
          · rename_i err1 i2 hload
            split at h
            · exact Except.noConfusion h
            · rename_i i4 hver
              simp only [Except.ok.injEq, Prod.mk.injEq] at h
              obtain ⟨_, h2, h3⟩ := h
              subst h3
              refine ⟨rfl, ?_⟩
              intro i hi
              rw [← h2] at hi
              injection hi with hi
              subst hi
              have k1 := (load_extents_keeps fs _ _ _ hload).1
              have k2 := (verify_extents_keeps _ _ hver).1
              rw [k2]
              split
              · exact k1
              · exact k1

theorem namei_fold_ncache (fs : efs_fs) :
    ∀ (cs : List (List Nat)) (st : efs_state) (ino err : Nat) (oi : Option efs_inode)
      (st1 : efs_state),
      namei_fold fs st ino cs = .ok (err, oi, st1) → st1.ncache = st.ncache := by
  intro cs
  induction cs with
  | nil =>
    intro st ino err oi st1 h
    rw [namei_fold] at h
    exact (efs_iget_facts fs st st1 ino err oi h).1
  | cons c cs ih =>
    intro st ino err oi st1 h
    rw [namei_fold] at h
    split at h
    · exact Except.noConfusion h
    · rename_i e0 inode s0 hget
      have hs0 := (efs_iget_facts fs st s0 ino e0 inode hget).1
      split at h
      · simp only [Except.ok.injEq, Prod.mk.injEq] at h
        rw [← h.2.2]; exact hs0
      · split at h
        · exact Except.noConfusion h
        · split at h
          · exact Except.noConfusion h
          · split at h
            · simp only [Except.ok.injEq, Prod.mk.injEq] at h
              rw [← h.2.2]; exact hs0
            · rw [ih _ _ _ _ _ h]; exact hs0

/-- A path that is not in the path cache is resolved by the fold over its components. -/
theorem efs_dir_namei_eq_fold (fs : efs_fs) (st : efs_state) (nm : List Nat)
    (habs : nm.head? = some SLASH) (hmiss : ncache_search st.ncache nm = none) :
    efs_dir_namei fs st nm
      = namei_finish nm (namei_fold fs st FIRST_INO (namei_components nm)) := by
  unfold efs_dir_namei
  rw [hmiss]
  simp only [habs, ne_eq, not_true_eq_false, if_false]
  rw [namei_loop_eq_fold fs (nm.drop 1).length (nm.drop 1) (nm.length + 2) st FIRST_INO
    (Nat.le_refl _) (by simp only [List.length_drop]; omega)]
  unfold namei_finish namei_components
  rfl

/-- C5 (amended): a path that starts with `'/'` and is not in the path cache is resolved
as the left fold of `efs_dir_lookup` (each inode number fetched with `efs_iget`), starting
at inode 2, over the pieces obtained by splitting the rest of the path on `'/'`, where
only a final empty piece is dropped; `/` has no pieces and resolves to inode number 2,
and a path with one trailing `'/'` has the pieces of the path without it. -/
theorem efs_dir_namei_resolves (fs : efs_fs) (st : efs_state) (nm : List Nat)
    (habs : nm.head? = some SLASH) (hmiss : ncache_search st.ncache nm = none) :
    efs_dir_namei fs st nm
        = namei_finish nm (namei_fold fs st FIRST_INO (namei_components nm))
    ∧ namei_components [SLASH] = []
    ∧ (ncache_search st.ncache [SLASH] = none → ∀ i st1,
        efs_dir_namei fs st [SLASH] = .ok (0, some i, st1) → i.i_num = FIRST_INO)
    ∧ (∀ p : List Nat, p ≠ [] → p.getLast? ≠ some SLASH →
        namei_components (SLASH :: (p ++ [SLASH])) = namei_components (SLASH :: p)) := by
  refine ⟨efs_dir_namei_eq_fold fs st nm habs hmiss, namei_components_root, ?_,
    namei_components_trailing⟩
  intro hroot i st1 h
  rw [efs_dir_namei_eq_fold fs st [SLASH] rfl hroot, namei_components_root, namei_fold] at h
  unfold namei_finish at h
  split at h
  · exact Except.noConfusion h
  · rename_i e0 inode s0 hget
    split at h
    · split at h
      · exact Except.noConfusion h
      · rename_i j
        simp only [Except.ok.injEq, Prod.mk.injEq, Option.some.injEq, true_and] at h
        rw [← h.1]
        exact (efs_iget_facts fs st s0 FIRST_INO e0 (some j) hget).2 j rfl
    · simp only [Except.ok.injEq, Prod.mk.injEq] at h
      exact Option.noConfusion h.2.1

/-- C5 (witness): `/a/b` on the fresh `tree_fs`. -/
theorem efs_dir_namei_resolves_witness :
    efs_dir_namei tree_fs state0 path_a_b
      = namei_finish path_a_b
          (namei_fold tree_fs state0 FIRST_INO (namei_components path_a_b)) :=
  (efs_dir_namei_resolves tree_fs state0 path_a_b rfl rfl).1

/-- C5 (counterexample): on `tree_fs`, `/a/b` resolves to inode 4 and so does the fold
over the non-empty pieces of `/a//b`, but `efs_dir_namei` on `/a//b` looks up the empty
name in `a` and fails with `ENOENT`. -/
theorem efs_dir_namei_double_slash :
    namei_result (efs_dir_namei tree_fs state0 path_a_b) = .ok (0, some 4)
    ∧ namei_result (namei_finish path_a__b (namei_fold tree_fs state0 FIRST_INO
        (((path_a__b.drop 1).splitOn SLASH).filter (fun c => c != [])))) = .ok (0, some 4)
    ∧ namei_result (efs_dir_namei tree_fs state0 path_a__b) = .ok (ENOENT, none) := by
  decide!

theorem img_of_lt (segs : List (Nat × List Nat)) (h : ∀ s ∈ segs, ∀ x ∈ s.2, x < 256)
    (i : Nat) : img_of segs i < 256 := by
  unfold img_of
  split
  · rename_i s hs
    have hmem := List.mem_of_find?_eq_some hs
    have := h s hmem
    rw [List.getD_eq_getElem?_getD]
    cases h1 : s.2[i - s.1]? with
    | none => simp
    | some x => simpa using this x (List.getElem?_mem h1)
  · simp

theorem tree_db10_is_bytes : is_bytes tree_db10 :=
  fun i => img_of_lt _ (by decide) (10 * 512 + i)

/-- C3 (witness): in the root directory block of `tree_img`, whose slot 1 is deleted, the
name `f` is found in slot 2 with inode number 5. -/
theorem efs_db_lookup_spec_witness : efs_db_lookup tree_db10 [102] 0 = (0, 5) :=
  ((efs_db_lookup_spec tree_db10 [102] 0 tree_db10_is_bytes (by decide) (by decide)).2
    (by decide)).1 2 (by decide) (by decide) (by decide)

/-- C4 (code at the failing input): on the root directory block of `tree_img`, whose
slots are `a -> 3`, deleted, `f -> 5`, the slot loop of `efs_readdir` passes three
entries to `filler`, the deleted slot as the empty name with inode number `0xBEEF0003`
(the block header read as an entry); on a block with two deleted slots it passes two
entries. -/
theorem efs_readdir_deleted_slots :
    (efs_readdir_slots tree_fs filler_accept tree_db10 0 (db_slots tree_db10)
        readdir_vars0).map (fun v => v.entries.map (fun e => (e.1, e.2.1)))
      = .ok [([97], 3), ([], 0xBEEF0003), ([102], 5)]
    ∧ (efs_readdir_slots tree_fs filler_accept db_deleted 0 (db_slots db_deleted)
        readdir_vars0).map (fun v => v.entries.map (fun e => (e.1, e.2.1)))
      = .ok [([], 0xBEEF0002), ([], 0xBEEF0002)]
    ∧ efs_dir_get_dirent tree_db10 1 = (0, some (0xBEEF0003, [])) := by
  decide!

/-- C1 (code at the failing input): reading all 11 blocks of `sparse_inode` issues two
device reads: 11 blocks from device block 1000 to the start of the buffer, and 21 blocks
from device block 1990 to byte offset `2^32 - 5120`, outside the buffer.  Block 2 of the
buffer, a hole, holds the bytes of device block 1002 (250) and block 10 holds the bytes
of device block 1010 (7), not those of device block 2000 (244).  Reading all 5 blocks
of `hole_inode` stays inside the buffer and returns 0 after one read of 5 blocks from
device block 1000, so block 1, a hole, holds the bytes of device block 1001 (249). -/
theorem efs_iread_sparse :
    (efs_iread blk_fs sparse_inode 0 11 (fun _ => 0)).map
        (fun r => (r.1, r.2.2, r.2.1 (2 * 512), r.2.1 (10 * 512)))
      = .ok (0, [⟨1000, 0, 11⟩, ⟨1990, 4294962176, 21⟩], 250, 7)
    ∧ blk_fs.img (2000 * 512) = 244
    ∧ (efs_inode_verify_extents sparse_inode).map (fun i => (i.i_nblks, i.i_nalloc_blks))
      = .ok (11, 3)
    ∧ (efs_iread blk_fs hole_inode 0 5 (fun _ => 0)).map
        (fun r => (r.1, r.2.2, r.2.1 (1 * 512)))
      = .ok (0, [⟨1000, 0, 5⟩], 249)
    ∧ (efs_inode_verify_extents hole_inode).map (fun i => (i.i_nblks, i.i_nalloc_blks))
      = .ok (5, 1) := by
  decide!

/-- C2 (code at the failing input): with a visitor that always continues, `efs_walk`
from block 0 without limit visits only `(device 100, logical 0)` of `two_extent_inode`
and never its second extent; started at block 3 of the ten-block `one_extent_inode` it
visits nothing. -/
theorem efs_walk_misses_blocks :
    efs_walk walker_record two_extent_inode 0 0 [] = .ok (ENOENT, [(100, 0)])
    ∧ efs_walk walker_record one_extent_inode 3 0 [] = .ok (ENOENT, []) := by
  decide!

/-! ### Block counts of an inode (C12, C13) and bad indirect blocks (C11) -/

theorem ext_at_of_lt (inode : efs_inode) (i : Nat) (h : i < inode.i_extents.length) :
    ext_at inode i = .ok (inode.i_extents[i]) := by
  unfold ext_at
  rw [List.get?_eq_getElem?, List.getElem?_eq_getElem h]

theorem take_succ_drop (l : List efs_extent) (i n : Nat) (h : i < l.length) :
    (l.drop i).take (n + 1) = l[i] :: (l.drop (i + 1)).take n := by
  rw [List.drop_eq_getElem_cons h, List.take_succ_cons]

theorem verify_extents_loop_eq (inode : efs_inode) :
    ∀ (n i blocks alloc : Nat), i + n ≤ inode.i_extents.length →
      efs_inode_verify_extents_loop inode n i blocks alloc
        = .ok ((match ((inode.i_extents.drop i).take n).getLast? with
                | none => blocks
                | some e => (e.e_offset + e.e_len) % 2 ^ 32),
               if n = 0 then alloc
               else (alloc + sum_len ((inode.i_extents.drop i).take n)) % 2 ^ 32) := by
  intro n
  induction n with
  | zero => intro i blocks alloc _; simp [efs_inode_verify_extents_loop]
  | succ n ih =>
    intro i blocks alloc h
    have hi : i < inode.i_extents.length := by omega
    rw [efs_inode_verify_extents_loop, ext_at_of_lt inode i hi]
    simp only []
    rw [ih (i + 1) _ _ (by omega), take_succ_drop _ _ _ hi]
    congr 2
    · cases hl : ((inode.i_extents.drop (i + 1)).take n) with
      | nil => simp
      | cons x xs =>
        rw [List.getLast?_cons_cons,
          List.getLast?_eq_getLast (x :: xs) (List.cons_ne_nil _ _)]
    · simp only [Nat.add_one_ne_zero, if_false, sum_len, List.map_cons, List.sum_cons]
      split
      · rename_i h0; subst h0; simp
      · omega

/-- What `efs_inode_verify_extents` computes: the end of the last extent and the sum of
the lengths, both as `uint32_t`, and the assertion on them. -/
theorem verify_extents_eq (inode : efs_inode)
    (h : inode.i_nextents ≤ inode.i_extents.length) :
    efs_inode_verify_extents inode
      = if sum_len (extents_of inode) % 2 ^ 32 ≤ last_end (extents_of inode) then
          .ok { inode with i_nblks := last_end (extents_of inode),
                           i_nalloc_blks := sum_len (extents_of inode) % 2 ^ 32 }
        else .error Fault.assertion := by
  unfold efs_inode_verify_extents
  rw [verify_extents_loop_eq inode inode.i_nextents 0 0 0 (by omega)]
  simp only [List.drop_zero, Nat.zero_add]
  have ha : (if inode.i_nextents = 0 then 0
      else sum_len (inode.i_extents.take inode.i_nextents) % 2 ^ 32)
      = sum_len (extents_of inode) % 2 ^ 32 := by
    unfold extents_of
    split
    · rename_i h0; rw [h0]; simp [sum_len]
    · rfl
  rw [ha]
  rfl

/-- C12 (code at the failing input): for the extents `{offset 100, len 1}`,
`{offset 3, len 5}` the function sets `i_nblks = 8`, the end of the last extent in array
order, while the maximum of `e_offset + e_len` is 101; `i_nalloc_blks` is the sum 6. -/
theorem verify_extents_not_max :
    (efs_inode_verify_extents unsorted_inode).map (fun i => (i.i_nblks, i.i_nalloc_blks))
      = .ok (8, 6)
    ∧ max_end (extents_of unsorted_inode) = 101 := by
  decide!

/-- C13 (code at the failing input): on `ext_img` the extents of inode 2 (direct, not
ascending) and of inode 3 (indirect, 13 ascending extents in a zero-padded block) load
with return value 0, and `efs_iget` of either number stops at the failed assertion of
`efs_inode_verify_extents`. -/
theorem efs_iget_assertion_fails :
    (efs_inode_load_extents ext_fs (inode_of_od (ext_od 2))).map (fun r => r.1) = .ok 0
    ∧ (efs_iget ext_fs state0 2).map (fun r => r.1) = .error Fault.assertion
    ∧ (efs_inode_load_extents ext_fs (inode_of_od (ext_od 3))).map (fun r => r.1) = .ok 0
    ∧ (efs_iget ext_fs state0 3).map (fun r => r.1) = .error Fault.assertion := by
  decide!

/-- C11 (code at the failing input): inode 4 of `ext_img` has two indirect blocks, the
first with a nonzero magic byte in its descriptors 2..63.  `efs_iget` returns 0, the
inode is not flagged (`i_flags = 0`) and `i_nextents = 66`; entry 2 of the in-core array
is the zero extent that `calloc` left, which no descriptor on disk decodes to, and the
third descriptor with a zero magic byte, `{offset 2, bn 200, len 1}`, is entry 64. -/
theorem efs_iget_indirect_bad_magic :
    (efs_iget ext_fs state0 4).map (fun r => (r.1, r.2.1.map (fun i =>
        (i.i_flags, i.i_nextents))))
      = .ok (0, some (0, 66))
    ∧ (efs_iget ext_fs state0 4).map (fun r => r.2.1.map (fun i =>
        (i.i_extents.get? 1, i.i_extents.get? 2, i.i_extents.get? 64)))
      = .ok (some (some (efs_extent.mk 1 101 1), some (efs_extent.mk 0 0 0),
          some (efs_extent.mk 2 200 1)))
    ∧ EXT_MAGIC (GET_U32 (le32 (fun i => ext_img (6 * 512 + i)) (8 * 2))) = 1 := by
  decide!

/-! ### Range test of efs_iread (C14) -/

/-- C14 (amended): for every inode, every block count `nblks` and every
`blkno ≥ i_nblks`, `efs_iread` zero-fills the first `nblks * BBS` bytes of the buffer,
issues no device read, and returns `ENXIO` when `nblks ≠ 0` but 0 when `nblks = 0`. -/
theorem efs_iread_out_of_range (fs : efs_fs) (inode : efs_inode) (blkno nblks : Nat)
    (buf : Nat → Nat) (h : blkno ≥ inode.i_nblks) :
    efs_iread fs inode blkno nblks buf
      = .ok (if nblks = 0 then 0 else ENXIO,
          fun i => if i < (nblks * BBS) % 2 ^ 32 then 0 else buf i, []) := by
  unfold efs_iread
  by_cases h0 : nblks = 0
  · simp only [h0, if_true]
  · simp only [h0, if_false, h, if_true]

/-- C14 (witness): block 5 of the two-block `two_extent_inode`, one block asked for. -/
theorem efs_iread_out_of_range_witness :
    efs_iread blk_fs two_extent_inode 5 1 (fun _ => 7)
      = .ok (if 1 = 0 then 0 else ENXIO,
          fun i => if i < (1 * BBS) % 2 ^ 32 then 0 else (fun _ => 7) i, []) :=
  efs_iread_out_of_range blk_fs two_extent_inode 5 1 (fun _ => 7) (by decide)

/-- C14 (counterexample): `efs_iread` of 0 blocks at block 5 of the two-block
`two_extent_inode` returns 0, not `ENXIO`; and reading 11 blocks at block 0 of
`sparse_inode` (`i_nblks = 11`) issues device reads of 11 + 21 blocks. -/
theorem efs_iread_zero_blocks :
    two_extent_inode.i_nblks = 2
    ∧ (efs_iread blk_fs two_extent_inode 5 0 (fun _ => 7)).map (fun r => (r.1, r.2.2))
      = .ok (0, [])
    ∧ sparse_inode.i_nblks = 11
    ∧ (efs_iread blk_fs sparse_inode 0 11 (fun _ => 0)).map
        (fun r => (r.2.2.map (fun q => q.nblks)).sum) = .ok 32 := by
  decide!

/-! ### STOP in efs_walk (C16) and errors in efs_dir_lookup (C17) -/

/-- C16 (code at the failing input): with a visitor that always returns `STOP`,
`efs_walk` over the two extents of `stop_inode` calls the visitor twice, once in each
extent, and returns `ENOENT`. -/
theorem efs_walk_stop_continues :
    efs_walk walker_stop stop_inode 0 0 [] = .ok (ENOENT, [(100, 0), (201, 1)]) := by
  decide!

/-- C17 (code at the failing input): looking up `a` in a directory whose block has the
wrong magic (`efs_db_lookup` returns `ENXIO`) and in a directory whose block cannot be
read (`efs_bread_bbs` returns `EIO`) gives `ENOENT` both times, and `*ino` is left as it
was. -/
theorem efs_dir_lookup_hides_errors :
    (efs_db_lookup (fun i => tree_img (12 * 512 + i)) [97] 0).1 = ENXIO
    ∧ efs_dir_lookup tree_fs bad_dir_inode [97] 0 = .ok (ENOENT, 0)
    ∧ (efs_bread_bbs tree_fs_eio 50 tree_fs_eio.junk 0 1).map (fun r => r.1) = .ok EIO
    ∧ efs_dir_lookup tree_fs_eio far_dir_inode [97] 0 = .ok (ENOENT, 0) := by
  decide!

/-! ### Paths that are not absolute (C19) -/

/-- C19 (amended): for a path that does not begin with `'/'`, `efs_dir_namei` returns the
inode the path cache holds for it, with both caches unchanged, and stops at the failed
assertion `path[0] == '/'` when the path cache does not hold it; no error code is
returned. -/
theorem efs_dir_namei_not_absolute (fs : efs_fs) (st : efs_state) (nm : List Nat)
    (h : nm.head? ≠ some SLASH) :
    efs_dir_namei fs st nm
      = match ncache_search st.ncache nm with
        | some inode => .ok (0, some inode, st)
        | none => .error Fault.assertion := by
  unfold efs_dir_namei
  split
  · rfl
  · rw [if_pos h]

/-- C19 (witness): the path `a` on the fresh `tree_fs`. -/
theorem efs_dir_namei_not_absolute_witness :
    efs_dir_namei tree_fs state0 [97]
      = match ncache_search state0.ncache [97] with
        | some inode => .ok (0, some inode, state0)
        | none => .error Fault.assertion :=
  efs_dir_namei_not_absolute tree_fs state0 [97] (by decide)

/-- C19 (counterexample): on the fresh `tree_fs` the paths `a` and the empty path make
`efs_dir_namei` fail its assertion; it does not return `EINVAL`. -/
theorem efs_dir_namei_relative_aborts :
    (efs_dir_namei tree_fs state0 [97]).map (fun r => r.1) = .error Fault.assertion
    ∧ (efs_dir_namei tree_fs state0 []).map (fun r => r.1) = .error Fault.assertion := by
  decide!

/-! ### The inode cache (C20) -/

theorem find_of_nodup : ∀ (l : List efs_inode), (l.map (fun i => i.i_num)).Nodup →
    ∀ i ∈ l, l.find? (fun j => j.i_num == i.i_num) = some i := by
  intro l
  induction l with
  | nil => intro _ i hi; exact absurd hi (List.not_mem_nil i)
  | cons a l ih =>
    intro hn i hi
    rw [List.map_cons, List.nodup_cons] at hn
    rcases List.mem_cons.mp hi with h | h
    · subst h
      simp [List.find?_cons]
    · have hne : a.i_num ≠ i.i_num := by
        intro e
        apply hn.1
        rw [e]
        exact List.mem_map_of_mem (fun i => i.i_num) h
      rw [List.find?_cons]
      have hb : (a.i_num == i.i_num) = false := by simpa using hne
      rw [hb]
      exact ih hn.2 i h

/-- The inode cache after `efs_iget`: unchanged, or one inode with the requested number
more, and then no cached inode had that number. -/
theorem efs_iget_icache (fs : efs_fs) (st st1 : efs_state) (ino err : Nat)
    (oi : Option efs_inode) (h : efs_iget fs st ino = .ok (err, oi, st1)) :
    st1.icache = st.icache
    ∨ ∃ i, i.i_num = ino ∧ st1.icache = i :: st.icache
        ∧ st.icache.find? (fun j => j.i_num == ino) = none := by
  unfold efs_iget efs_iget_locked at h
  split at h
  · simp only [Except.ok.injEq, Prod.mk.injEq] at h
    left; rw [← h.2.2]
  · rename_i hmiss
    split at h
    · exact Except.noConfusion h
    · dsimp only at h
      split at h
      · exact Except.noConfusion h
      · split at h
        · simp only [Except.ok.injEq, Prod.mk.injEq] at h
          left; rw [← h.2.2]
        · split at h
          · exact Except.noConfusion h
          · rename_i err1 i2 hload
            split at h
            · exact Except.noConfusion h
            · rename_i i4 hver
              simp only [Except.ok.injEq, Prod.mk.injEq] at h
              right
              refine ⟨i4, ?_, ?_, hmiss⟩
              · have k1 := (load_extents_keeps fs _ _ _ hload).1
                have k2 := (verify_extents_keeps _ _ hver).1
                rw [k2]
                split
                · exact k1
                · exact k1
              · rw [← h.2.2]

theorem efs_iget_nodup (fs : efs_fs) (st st1 : efs_state) (ino err : Nat)
    (oi : Option efs_inode) (h : efs_iget fs st ino = .ok (err, oi, st1))
    (hn : (st.icache.map (fun i => i.i_num)).Nodup) :
    (st1.icache.map (fun i => i.i_num)).Nodup := by
  rcases efs_iget_icache fs st st1 ino err oi h with h1 | ⟨i, hi, h1, hmiss⟩
  · rw [h1]; exact hn
  · rw [h1, List.map_cons, List.nodup_cons]
    refine ⟨?_, hn⟩
    intro hmem
    obtain ⟨j, hj, hji⟩ := List.mem_map.mp hmem
    have := List.find?_eq_none.mp hmiss j hj
    apply this
    simp only [beq_iff_eq]
    rw [hji, hi]

theorem namei_fold_nodup (fs : efs_fs) :
    ∀ (cs : List (List Nat)) (st : efs_state) (ino err : Nat) (oi : Option efs_inode)
      (st1 : efs_state),
      namei_fold fs st ino cs = .ok (err, oi, st1) →
      (st.icache.map (fun i => i.i_num)).Nodup →
      (st1.icache.map (fun i => i.i_num)).Nodup := by
  intro cs
  induction cs with
  | nil =>
    intro st ino err oi st1 h hn
    rw [namei_fold] at h
    exact efs_iget_nodup fs st st1 ino err oi h hn
  | cons c cs ih =>
    intro st ino err oi st1 h hn
    rw [namei_fold] at h
    split at h
    · exact Except.noConfusion h
    · rename_i e0 inode s0 hget
      have hs0 := efs_iget_nodup fs st s0 ino e0 inode hget hn
      split at h
      · simp only [Except.ok.injEq, Prod.mk.injEq] at h
        rw [← h.2.2]; exact hs0
      · split at h
        · exact Except.noConfusion h
        · split at h
          · exact Except.noConfusion h
          · split at h
            · simp only [Except.ok.injEq, Prod.mk.injEq] at h
              rw [← h.2.2]; exact hs0
            · exact ih _ _ _ _ _ h hs0

theorem efs_dir_namei_nodup (fs : efs_fs) (st st1 : efs_state) (q : List Nat)
    (err : Nat) (oi : Option efs_inode)
    (h : efs_dir_namei fs st q = .ok (err, oi, st1))
    (hn : (st.icache.map (fun i => i.i_num)).Nodup) :
    (st1.icache.map (fun i => i.i_num)).Nodup := by
  cases hq : ncache_search st.ncache q with
  | some j =>
    unfold efs_dir_namei at h
    rw [hq] at h
    simp only [Except.ok.injEq, Prod.mk.injEq] at h
    rw [← h.2.2]; exact hn
  | none =>
    by_cases habs : q.head? = some SLASH
    · rw [efs_dir_namei_eq_fold fs st q habs hq] at h
      unfold namei_finish at h
      split at h
      · exact Except.noConfusion h
      · rename_i e0 inode s0 hfold
        have hs0 := namei_fold_nodup fs _ _ _ _ _ _ hfold hn
        split at h
        · split at h
          · exact Except.noConfusion h
          · simp only [Except.ok.injEq, Prod.mk.injEq] at h
            rw [← h.2.2]
            exact hs0
        · simp only [Except.ok.injEq, Prod.mk.injEq] at h
          rw [← h.2.2]; exact hs0
    · unfold efs_dir_namei at h
      rw [hq] at h
      simp only [ne_eq, habs, not_false_eq_true, if_true] at h
      exact Except.noConfusion h

theorem run_op_nodup (fs : efs_fs) (st st1 : efs_state) (op : cache_op)
    (hn : (st.icache.map (fun i => i.i_num)).Nodup)
    (h : run_op fs st op = .ok st1) : (st1.icache.map (fun i => i.i_num)).Nodup := by
  cases op with
  | namei q =>
    simp only [run_op] at h
    cases hr : efs_dir_namei fs st q with
    | error f => rw [hr] at h; exact Except.noConfusion h
    | ok r =>
      obtain ⟨err, oi, s⟩ := r
      rw [hr] at h
      simp only [Except.map, Except.ok.injEq] at h
      subst h
      exact efs_dir_namei_nodup fs st s q err oi hr hn
  | iget ino =>
    simp only [run_op] at h
    cases hr : efs_iget fs st ino with
    | error f => rw [hr] at h; exact Except.noConfusion h
    | ok r =>
      obtain ⟨err, oi, s⟩ := r
      rw [hr] at h
      simp only [Except.map, Except.ok.injEq] at h
      subst h
      exact efs_iget_nodup fs st s ino err oi hr hn

theorem run_ops_nodup (fs : efs_fs) :
    ∀ (ops : List cache_op) (st st1 : efs_state),
      (st.icache.map (fun i => i.i_num)).Nodup → run_ops fs st ops = .ok st1 →
      (st1.icache.map (fun i => i.i_num)).Nodup := by
  intro ops
  induction ops with
  | nil =>
    intro st st1 hn h
    rw [run_ops] at h
    injection h with h
    rw [← h]; exact hn
  | cons op ops ih =>
    intro st st1 hn h
    rw [run_ops] at h
    split at h
    · exact Except.noConfusion h
    · rename_i s hs
      exact ih s st1 (run_op_nodup fs st s op hn hs) h

/-- Calls that do not overlap: after any sequence of completed calls of `efs_iget`
(returning 0 or an error code) and of `efs_dir_namei`, each run from start to end before
the next begins, on a state whose inode cache was empty, no two inodes of the cache list
have the same inode number, and `efs_iget` of the number of a cached inode returns 0
and that very inode and leaves the state as it is. -/
theorem efs_iget_cache_unique (fs : efs_fs) (st0 st : efs_state) (ops : List cache_op)
    (h0 : st0.icache = []) (h : run_ops fs st0 ops = .ok st) :
    (st.icache.map (fun i => i.i_num)).Nodup
    ∧ ∀ i ∈ st.icache, efs_iget fs st i.i_num = .ok (0, some i, st) := by
  have hn : (st.icache.map (fun i => i.i_num)).Nodup :=
    run_ops_nodup fs ops st0 st (by rw [h0]; exact List.nodup_nil) h
  refine ⟨hn, ?_⟩
  intro i hi
  unfold efs_iget efs_iget_locked
  rw [find_of_nodup st.icache hn i hi]

/-- On `tree_fs_eio` the calls `iget_ops` (inode 2, inode 3, a failing call, inode 2
again), one after the other, leave the inodes 3 and 2 in the cache, once each. -/
theorem efs_iget_cache_unique_witness :
    tree_state3.icache.map (fun i => i.i_num) = [3, 2]
    ∧ (efs_iget tree_fs_eio state0 100000).map (fun r => r.1) = .ok EIO
    ∧ (tree_state3.icache.map (fun i => i.i_num)).Nodup
    ∧ ∀ i ∈ tree_state3.icache, efs_iget tree_fs_eio tree_state3 i.i_num
        = .ok (0, some i, tree_state3) :=
  ⟨by decide!, by decide!,
    efs_iget_cache_unique tree_fs_eio state0 tree_state3 iget_ops rfl rfl⟩

/-- C20 (code at the failing input): two calls of `efs_iget` for inode 3 of `tree_img`
that overlap.  The inode cache holds inode 2 (record 0).  Call A, made by `efs_readdir`
outside `ncache_mtx`, has read that list in the initialiser of `i`; before it takes
`icache_mtx`, `efs_dir_namei` of `/a` runs in another thread and its call of `efs_iget`
links record 1 for inode 3.  Call A then searches the list it has read, misses, and
links record 2 for inode 3: the cache list holds two in-core inodes with the number 3,
and A returns the new record, not the cached one.  A call that starts after the other
has ended returns record 1. -/
theorem efs_iget_overlap_duplicates :
    tree_state_root.icache.map (fun i => (i.i_num, i.i_addr)) = [(2, 0)]
    ∧ tree_state_a.icache.map (fun i => (i.i_num, i.i_addr)) = [(3, 1), (2, 0)]
    ∧ (efs_iget_locked tree_fs tree_state_a tree_state_root.icache 3).map
        (fun r => (r.1, r.2.1.map (fun i => (i.i_num, i.i_addr)),
          r.2.2.icache.map (fun i => (i.i_num, i.i_addr))))
        = .ok (0, some (3, 2), [(3, 2), (3, 1), (2, 0)])
    ∧ (efs_iget tree_fs tree_state_a 3).map
        (fun r => (r.1, r.2.1.map (fun i => (i.i_num, i.i_addr)),
          r.2.2.icache.map (fun i => (i.i_num, i.i_addr))))
        = .ok (0, some (3, 1), [(3, 1), (2, 0)]) := by
  decide!

/-! ### Reading through the first extent (C15) -/

theorem pread_full (fs : efs_fs) (bytes : Nat) (offset : Int) (h0 : 0 ≤ offset)
    (hb : 0 < bytes) (hin : offset.toNat + bytes ≤ fs.img_size) :
    pread fs bytes offset = .got bytes := by
  unfold pread
  rw [if_neg (not_lt.mpr h0), if_neg (by omega), Nat.min_eq_left (by omega)]

/-- A request that lies inside the image is served by one `pread`. -/
theorem efs_bread_common_full (fs : efs_fs) (off : Int) (buf : Nat → Nat) (pos bytes : Nat)
    (h0 : 0 ≤ off + fs.start) (hb : 0 < bytes)
    (hin : (off + fs.start).toNat + bytes ≤ fs.img_size) :
    efs_bread_common fs off buf pos bytes
      = .ok (0, store fs buf pos (off + fs.start).toNat bytes) := by
  unfold efs_bread_common
  obtain ⟨k, rfl⟩ : ∃ k, bytes = k + 1 := ⟨bytes - 1, by omega⟩
  rw [efs_bread_common_loop, pread_full fs (k + 1) _ h0 hb hin]
  simp

theorem efs_bread_bbs_full (fs : efs_fs) (B n : Nat) (buf : Nat → Nat) (pos : Nat)
    (hstart : 0 ≤ fs.start) (hB : B < 2 ^ 23) (hn : 0 < n) (hn2 : n < 2 ^ 23)
    (hin : fs.start.toNat + (B + n) * BBS ≤ fs.img_size) :
    efs_bread_bbs fs B buf pos n
      = .ok (0, store fs buf pos (fs.start.toNat + B * BBS) (n * BBS)) := by
  unfold efs_bread_bbs
  have hb : BBS = 512 := rfl
  rw [hb] at hin ⊢
  rw [Nat.mod_eq_of_lt (by omega), Nat.mod_eq_of_lt (by omega)]
  have ht : (((B * 512 : Nat) : Int) + fs.start).toNat = fs.start.toNat + B * 512 := by omega
  rw [efs_bread_common_full fs _ buf pos (n * 512) (by omega) (by omega) (by omega), ht]

theorem chain_first_le_last :
    ∀ (l : List efs_extent) (a : efs_extent),
      List.Chain' (fun a b => a.e_offset + a.e_len ≤ b.e_offset) (a :: l) →
      (∀ e ∈ a :: l, e.e_offset + e.e_len < 2 ^ 32) →
      a.e_offset + a.e_len ≤ last_end (a :: l) := by
  intro l
  induction l with
  | nil =>
    intro a _ hb
    have := hb a (List.mem_cons_self _ _)
    simp only [last_end, List.getLast?_singleton]
    omega
  | cons b l ih =>
    intro a hc hb
    rw [List.chain'_cons] at hc
    have h1 := ih b hc.2 (fun e he => hb e (List.mem_cons_of_mem _ he))
    have h2 : last_end (a :: b :: l) = last_end (b :: l) := by
      unfold last_end; rw [List.getLast?_cons_cons]
    have h3 := hc.1
    rw [h2]; omega

/-- Reading `n ≤ L` blocks from block 0 of a file whose first extent is `{0, B, L}` is
one call `efs_bread_bbs(fs, B, buf, n)`. -/
theorem efs_iread_first (fs : efs_fs) (inode : efs_inode) (B L n : Nat)
    (rest : List efs_extent) (buf : Nat → Nat)
    (hlen : inode.i_nextents ≤ inode.i_extents.length)
    (hext : extents_of inode = ⟨0, B, L⟩ :: rest)
    (hasc : List.Chain' (fun a b => a.e_offset + a.e_len ≤ b.e_offset) (extents_of inode))
    (hdec : ∀ e ∈ extents_of inode, e.e_offset < 2 ^ 24 ∧ e.e_blk < 2 ^ 24 ∧ e.e_len < 2 ^ 8)
    (hnblks : inode.i_nblks = last_end (extents_of inode))
    (hn1 : 1 ≤ n) (hnL : n ≤ L) :
    efs_iread fs inode 0 n buf
      = (efs_bread_bbs fs B (fun i => if i < n * BBS then 0 else buf i) 0 n).map
          (fun r => (r.1, r.2, [iread_req.mk B 0 n])) := by
  have hmem0 : (⟨0, B, L⟩ : efs_extent) ∈ extents_of inode := by
    rw [hext]; exact List.mem_cons_self _ _
  obtain ⟨_, hB, hL⟩ := hdec _ hmem0
  have hB : B < 2 ^ 24 := hB
  have hL : L < 2 ^ 8 := hL
  have hLle : L ≤ last_end (extents_of inode) := by
    have h := chain_first_le_last rest ⟨0, B, L⟩ (hext ▸ hasc)
      (fun e he => by have := hdec e (hext ▸ he); omega)
    rw [hext]
    simpa using h
  have hlt : last_end (extents_of inode) < 2 ^ 32 := by
    unfold last_end
    split
    · omega
    · exact Nat.mod_lt _ (by omega)
  rw [← hnblks] at hLle hlt
  have hbb : BBS = 512 := rfl
  have hbuf0 : (fun i => if i < (n * BBS) % 2 ^ 32 then 0 else buf i)
      = (fun i => if i < n * BBS then 0 else buf i) := by
    rw [hbb, Nat.mod_eq_of_lt (by omega)]
  have hend : sub32 ((0 + n) % 2 ^ 32) 1 = n - 1 := by unfold sub32; omega
  have hnb : MIN n (sub32 inode.i_nblks 0) = n := by unfold MIN sub32; split <;> omega
  have hst : sub32 0 0 = 0 := by unfold sub32; omega
  have htr : MIN (sub32 n 0) (sub32 ((B + L) % 2 ^ 32) 0) = n := by
    unfold MIN sub32; split <;> omega
  unfold extents_of at hext hasc hdec
  cases hN : inode.i_nextents with
  | zero => rw [hN] at hext; simp at hext
  | succ k =>
    cases hl : inode.i_extents with
    | nil => rw [hl] at hext; simp at hext
    | cons a l =>
      rw [hN, hl, List.take_succ_cons] at hext
      obtain ⟨ha, hrest⟩ := List.cons.inj hext
      subst ha
      have he0 : ext_at inode 0 = .ok ⟨0, B, L⟩ := by unfold ext_at; rw [hl]; rfl
      unfold efs_iread
      simp only [hbuf0, hend, hnb, hN]
      rw [if_neg (by omega), if_neg (by omega), efs_iread_loop, he0]
      simp only [hst, htr]
      rw [if_neg (by omega), if_neg (by omega), if_neg (by omega)]
      have hB0 : (0 + B) % 2 ^ 32 = B := by omega
      have hd0 : 0 * BBS % 2 ^ 32 = 0 := by rw [Nat.zero_mul]; rfl
      rw [hB0, hd0]
      simp only [List.nil_append]
      cases hr : efs_bread_bbs fs B (fun i => if i < n * BBS then 0 else buf i) 0 n with
      | error f => rfl
      | ok r =>
        obtain ⟨err1, buf1⟩ := r
        simp only [Except.map]
        by_cases he : err1 = 0
        · subst he
          simp only [ne_eq, not_true_eq_false, if_false]
          cases k with
          | zero => rw [efs_iread_loop]
          | succ k1 =>
            cases l with
            | nil => rw [hN, hl] at hlen; simp at hlen
            | cons e1 l1 =>
              have he1 : ext_at inode 1 = .ok e1 := by unfold ext_at; rw [hl]; rfl
              rw [hN, hl, List.take_succ_cons, List.take_succ_cons, List.chain'_cons] at hasc
              have h1 := hasc.1
              simp only [Nat.zero_add] at h1
              rw [efs_iread_loop, he1]
              simp only []
              rw [if_neg (Nat.not_lt_zero _), if_pos (by omega)]
        · simp only [ne_eq, he, not_false_eq_true, if_true]

/-- C15 (amended): for every inode with ascending non-overlapping extents whose first
extent is `{e_offset: 0, e_blk: B, e_len: L}` and every `n` with `1 ≤ n ≤ L`,
`efs_iread(inode, 0, n, buf)` zero-fills `buf`, makes exactly one call of
`efs_bread_bbs`, for `n` blocks from device block `B` to the start of `buf`, and returns
what that call returns.  When `B < 2^23` and the blocks `B .. B+n-1` of the partition
lie inside the image, it returns 0 and the first `n * 512` bytes of `buf` are the
image bytes of those blocks. -/
theorem efs_iread_first_extent (fs : efs_fs) (inode : efs_inode) (B L n : Nat)
    (rest : List efs_extent) (buf : Nat → Nat)
    (hlen : inode.i_nextents ≤ inode.i_extents.length)
    (hext : extents_of inode = ⟨0, B, L⟩ :: rest)
    (hasc : List.Chain' (fun a b => a.e_offset + a.e_len ≤ b.e_offset) (extents_of inode))
    (hdec : ∀ e ∈ extents_of inode, e.e_offset < 2 ^ 24 ∧ e.e_blk < 2 ^ 24 ∧ e.e_len < 2 ^ 8)
    (hnblks : inode.i_nblks = last_end (extents_of inode))
    (hn1 : 1 ≤ n) (hnL : n ≤ L) :
    efs_iread fs inode 0 n buf
        = (efs_bread_bbs fs B (fun i => if i < n * BBS then 0 else buf i) 0 n).map
            (fun r => (r.1, r.2, [iread_req.mk B 0 n]))
    ∧ (0 ≤ fs.start → B < 2 ^ 23 → fs.start.toNat + (B + n) * BBS ≤ fs.img_size →
        ∃ mem, efs_iread fs inode 0 n buf = .ok (0, mem, [iread_req.mk B 0 n])
          ∧ (∀ i, i < n * BBS → mem i = fs.img (fs.start.toNat + B * BBS + i))
          ∧ ∀ i, n * BBS ≤ i → mem i = buf i) := by
  have hmain := efs_iread_first fs inode B L n rest buf hlen hext hasc hdec hnblks hn1 hnL
  refine ⟨hmain, ?_⟩
  intro hstart hB himg
  have hL : L < 2 ^ 8 := (hdec ⟨0, B, L⟩ (by rw [hext]; exact List.mem_cons_self _ _)).2.2
  rw [efs_bread_bbs_full fs B n _ 0 hstart hB (by omega) (by omega) himg] at hmain
  refine ⟨_, hmain, ?_, ?_⟩
  · intro i hi
    simp only [store]
    rw [if_pos (by omega)]
    rfl
  · intro i hi
    simp only [store]
    rw [if_neg (by omega), if_neg (by omega)]

/-- C15 (witness): one extent `{0, 500, 1}`, `n = 1`, on the 4096 blocks of `blk_fs`;
and the first two blocks of `sparse_inode`, whose first extent is `{0, 1000, 2}`. -/
theorem efs_iread_first_extent_witness :
    (∃ mem, efs_iread blk_fs hello_inode 0 1 (fun _ => 7)
        = .ok (0, mem, [iread_req.mk 500 0 1])
      ∧ (∀ i, i < 1 * BBS → mem i = blk_fs.img (blk_fs.start.toNat + 500 * BBS + i))
      ∧ ∀ i, 1 * BBS ≤ i → mem i = (fun _ => 7) i)
    ∧ efs_iread blk_fs sparse_inode 0 2 (fun _ => 7)
        = (efs_bread_bbs blk_fs 1000 (fun i => if i < 2 * BBS then 0 else (fun _ => 7) i)
            0 2).map (fun r => (r.1, r.2, [iread_req.mk 1000 0 2])) :=
  ⟨(efs_iread_first_extent blk_fs hello_inode 500 1 1 [] (fun _ => 7) (by decide) rfl
      (List.chain'_singleton _) (by decide) rfl (by decide) (by decide)).2
      (by decide) (by decide) (by decide),
    (efs_iread_first_extent blk_fs sparse_inode 1000 2 2 [⟨10, 2000, 1⟩] (fun _ => 7)
      (by decide) rfl (List.chain'_cons.mpr ⟨by decide, List.chain'_singleton _⟩)
      (by decide) rfl (by decide) (by decide)).1⟩

/-- C15 (counterexample): for the extent `{0, 2^23, 1}` on an image of `2^23 + 8` blocks
`efs_iread` returns 0 after its one read, but the buffer holds the bytes of device
block 0 (1), not those of device block `2^23` (189); for the extent `{0, 5000, 1}` on the
4096 blocks of `blk_fs` it returns the error of the read. -/
theorem efs_iread_first_extent_fails :
    (efs_iread big_fs big_inode 0 1 (fun _ => 0)).map (fun r => (r.1, r.2.2, r.2.1 0))
      = .ok (0, [iread_req.mk 8388608 0 1], 1)
    ∧ big_fs.img (8388608 * 512) = 189
    ∧ (efs_iread blk_fs_eio far_inode 0 1 (fun _ => 0)).map (fun r => (r.1, r.2.2))
      = .ok ( EIO, [iread_req.mk 5000 0 1]) := by
  decide!

/-! ### A file in the middle of a path (C18) -/

/-- Once the fold has reached an inode that is not a directory, a further component ends
it with `ENOTDIR`. -/
theorem namei_fold_notdir (fs : efs_fs) (d : List Nat) (rest : List (List Nat))
    (inode : efs_inode) (st1 : efs_state) (hnd : IS_DIR inode = false) :
    ∀ (pre : List (List Nat)) (st : efs_state) (ino : Nat),
      namei_fold fs st ino pre = .ok (0, some inode, st1) →
      namei_fold fs st ino (pre ++ d :: rest) = .ok (ENOTDIR, some inode, st1) := by
  intro pre
  induction pre with
  | nil =>
    intro st ino h
    rw [namei_fold] at h
    rw [List.nil_append, namei_fold, h]
    simp only [ne_eq, not_true_eq_false, if_false]
    unfold efs_dir_lookup
    simp only [hnd, Bool.not_false, if_true]
    rfl
  | cons c cs ih =>
    intro st ino h
    rw [namei_fold] at h
    rw [List.cons_append, namei_fold]
    split at h
    · exact Except.noConfusion h
    · rename_i e0 oi s0 hget
      split at h
      · rename_i he
        simp only [Except.ok.injEq, Prod.mk.injEq] at h
        exact absurd h.1 he
      · rename_i he
        rw [if_neg he]
        split at h
        · exact Except.noConfusion h
        · rename_i dir
          split at h
          · exact Except.noConfusion h
          · rename_i e2 ino2 hlk
            split at h
            · rename_i he2
              simp only [Except.ok.injEq, Prod.mk.injEq] at h
              exact absurd h.1 he2
            · rename_i he2
              rw [if_neg he2]
              exact ih s0 ino2 h

/-- C18: let the path be absolute and not in the path cache, and let its components be
`pre`, then `d`, then `rest`, where the components `pre` resolve (by the fold of
`efs_dir_lookup` from inode 2) to an inode that is not a directory.  Then
`efs_dir_namei` returns `ENOTDIR` and no inode, and the path cache is as it was. -/
theorem efs_dir_namei_notdir (fs : efs_fs) (st st1 : efs_state) (nm : List Nat)
    (pre : List (List Nat)) (d : List Nat) (rest : List (List Nat)) (inode : efs_inode)
    (habs : nm.head? = some SLASH) (hmiss : ncache_search st.ncache nm = none)
    (hcs : namei_components nm = pre ++ d :: rest)
    (hpre : namei_fold fs st FIRST_INO pre = .ok (0, some inode, st1))
    (hnd : IS_DIR inode = false) :
    efs_dir_namei fs st nm = .ok (ENOTDIR, none, st1) ∧ st1.ncache = st.ncache := by
  refine ⟨?_, namei_fold_ncache fs pre st FIRST_INO 0 (some inode) st1 hpre⟩
  rw [efs_dir_namei_eq_fold fs st nm habs hmiss, hcs,
    namei_fold_notdir fs d rest inode st1 hnd pre st FIRST_INO hpre]
  rfl

/-- C18 (witness): `/f/x` on the fresh `tree_fs`, where `f` is the regular file with
inode number 5. -/
theorem efs_dir_namei_notdir_witness :
    (efs_dir_namei tree_fs state0 path_f_x = .ok (ENOTDIR, none, tree_state_f)
      ∧ tree_state_f.ncache = state0.ncache)
    ∧ tree_inode_f.i_num = 5 :=
  ⟨efs_dir_namei_notdir tree_fs state0 tree_state_f path_f_x [[102]] [120] [] tree_inode_f
    rfl rfl (by decide!) rfl (by decide!), by decide!⟩

/-! ### Opening a file with a bad extent (C21) -/

/-- C21 (code at the failing input): on `badf_img` the file `/f` is inode 5, whose one
direct extent has `ext1 >> 24 = 1`.  In the first `efs_open` of `/f`, `efs_dir_namei`
returns `EINVAL` (not `EIO`) and leaves inode 5 in the inode cache with `BAD_FILE` set;
`efs_open` then formats its `LOG_ERR` message, whose `%n` stores through `err`, and does
not return.  In a second call `efs_dir_namei` returns 0 and the flagged inode, `err`
becomes `EIO`, and `efs_open` meets the same `LOG_ERR`. -/
theorem efs_open_first_call :
    EXT_MAGIC (GET_U32 (di_ext1 (fun i => badf_img (3 * 512 + 128 + i)) 0)) = 1
    ∧ logger_formats 0 0 = true
    ∧ (efs_dir_namei badf_fs state0 path_f).map (fun r => r.1) = .ok EINVAL
    ∧ (efs_open badf_fs state0 path_f).map (fun r => r.1) = .error Fault.undefined
    ∧ badf_state1.icache.map (fun i => (i.i_num, EFS_BAD_FILE i)) = [(5, true), (2, false)]
    ∧ (efs_dir_namei badf_fs badf_state1 path_f).map
        (fun r => (r.1, r.2.1.map (fun i => (i.i_num, EFS_BAD_FILE i))))
        = .ok (0, some (5, true))
    ∧ (efs_open badf_fs badf_state1 path_f).map (fun r => r.1)
        = .error Fault.undefined := by
  decide!

/-! ### Positions and short reads of efs_bread_common (C23, C24, C25) -/

/-- With limits that are not below the request, the loop over short reads is the loop
of `efs_bread_common_loop`. -/
theorem efs_bread_common_loop_short_full (fs : efs_fs) (offset : Int) (L : Nat) :
    ∀ (fuel : Nat) (buf : Nat → Nat) (pos bytes : Nat), bytes ≤ L →
      efs_bread_common_loop_short fs offset (List.replicate fuel L) buf pos bytes
        = efs_bread_common_loop fs offset fuel buf pos bytes := by
  intro fuel
  induction fuel with
  | zero => intro buf pos bytes _; rfl
  | succ fuel ih =>
    intro buf pos bytes h
    rw [List.replicate_succ, efs_bread_common_loop_short, efs_bread_common_loop]
    unfold pread_short
    rw [Nat.min_eq_left h]
    split
    · rw [ih buf pos bytes h]
    · rfl
    · rename_i k _
      dsimp only
      rw [ih _ _ (bytes - (k + 1)) (by omega)]

/-- C23 (code at the failing input): for the block number `2^23` the read of
`efs_bread_bbs` is the read for block number 0, whatever the handle; on `big_fs`, an
image of `2^23 + 8` blocks, `efs_bread_bbs` and `efs_bread` deliver the bytes of block 0
(1) where the image has 189 at block `2^23`.  For a partition that starts at block
`2^22` the `int` product `first * BBS` in `efs_vol_open` overflows. -/
theorem efs_bread_wraps :
    (∀ (fs : efs_fs) (buf : Nat → Nat) (pos n : Nat),
        efs_bread_bbs fs 8388608 buf pos n = efs_bread_bbs fs 0 buf pos n)
    ∧ (efs_bread_bbs big_fs 8388608 (fun _ => 0) 0 1).map (fun r => (r.1, r.2 0))
        = .ok (0, 1)
    ∧ (efs_bread big_fs 8388608 128 (fun _ => 0) 128).map (fun r => (r.1, r.2 0))
        = .ok (0, 1)
    ∧ big_fs.img (8388608 * 512) = 189 ∧ big_fs.img (8388608 * 512 + 128) = 189
    ∧ int32_val (GET_I32 (p_first vol_far_img 0)) = 4194304
    ∧ (efs_vol_open vol_far_fs (-1)).map (fun r => r.1) = .error Fault.undefined :=
  ⟨fun _ _ _ _ => rfl, by decide!, by decide!, by decide!, by decide!, by decide!,
    by decide!⟩

/-- C24 (code at the failing input): a request of 1024 bytes at offset 0 of `blk_fs`
that `pread` serves in two short reads of 512 bytes returns 0, and the second half of
the destination holds the bytes of image offset 0 (1) again, not those of offset 512
(2). -/
theorem efs_bread_common_short_read :
    pread_short blk_fs 512 1024 0 = .got 512
    ∧ (efs_bread_common_short blk_fs [512, 512] 0 (fun _ => 0) 0 1024).map
        (fun r => (r.1, r.2 0, r.2 511, r.2 512, r.2 1023)) = .ok (0, 1, 1, 1, 1)
    ∧ blk_fs.img 0 = 1 ∧ blk_fs.img 512 = 2 ∧ blk_fs.img 1023 = 2 := by
  decide!

/-- C25 (code at the failing input): on the 13 blocks of `tree_fs`, with `errno = 0`,
reading block 50 makes `pread` return 0 bytes and `efs_bread_bbs` return 0, with the
destination untouched. -/
theorem efs_bread_common_eof_errno :
    tree_fs.errno = 0
    ∧ pread tree_fs 512 (50 * 512) = .got 0
    ∧ (efs_bread_bbs tree_fs 50 (fun _ => 7) 0 1).map (fun r => (r.1, r.2 0, r.2 511))
        = .ok (0, 7, 7) := by
  decide!

/-! ### Directories of several blocks (C27) and wide indirect inodes (C28) -/

/-- C27 (code at the failing input): the root of `dir2_img` has two directory blocks,
with the slots `a`, `b` and `c`, `d`, `e`.  `efs_readdir` of `/` from offset 0 with a
filler that never refuses returns 0 after three calls of the filler: `a` (next offset
1), `b` (next offset 2) and `e` (next offset `73 + 3`); the slots 0 and 1 of the second
block, `c -> 5` and `d -> 6`, are not passed. -/
theorem efs_readdir_skips_slots :
    (efs_readdir dir2_fs state0 [47] () filler_accept 0).map (fun v => (v.err, v.entries))
      = .ok (0, [([97], 3, 1), ([98], 4, 2), ([101], 7, 76)])
    ∧ db_slots (fun i => dir2_img (10 * 512 + i)) = 2
    ∧ db_slots (fun i => dir2_img (11 * 512 + i)) = 3
    ∧ efs_dir_get_dirent (fun i => dir2_img (11 * 512 + i)) 0 = (0, some (5, [99]))
    ∧ efs_dir_get_dirent (fun i => dir2_img (11 * 512 + i)) 1 = (0, some (6, [100])) := by
  decide!

/-- C28 (code at the failing input): for the on-disk inode `od_wide`, in indirect layout
with 13 in the offset field of slot 0 and 12 direct slots whose indirect blocks all load
(on the all-zero image `zero_fs`), the loop of `efs_inode_load_extents` completes the
slots 0..11 with `err = 0` and 768 extents and then goes on to `di_extents[12]`, outside
the 12 slots of the on-disk inode. -/
theorem load_extents_slot_out_of_range :
    GET_I16 (di_nextents od_wide) = 13
    ∧ EXT_OFFSET (GET_U32 (di_ext2 od_wide 0)) = 13
    ∧ (efs_inode_load_extents_loop zero_fs od_wide 12 0 EINVAL
        (List.replicate (13 * EFS_EXTENTS_PER_BB) ⟨0, 0, 0⟩) 0).map
          (fun r => (r.1, r.2.1, r.2.2.2)) = .ok (false, 0, 768)
    ∧ (efs_inode_load_extents zero_fs (inode_of_od od_wide)).map (fun r => r.1)
        = .error Fault.undefined := by
  decide!

/-! ### Byte swaps (C26) and the assertion of inode2loc (C29) -/

theorem byte_split16 (v : Nat) (hv : v < 2 ^ 16) :
    ∃ b0 b1, b0 < 256 ∧ b1 < 256 ∧ v = b0 + 256 * b1 :=
  ⟨v % 256, v / 256, by omega, by omega, by omega⟩

theorem byte_split32 (w : Nat) (hw : w < 2 ^ 32) :
    ∃ b0 b1 b2 b3, b0 < 256 ∧ b1 < 256 ∧ b2 < 256 ∧ b3 < 256
      ∧ w = b0 + 256 * b1 + 65536 * b2 + 16777216 * b3 :=
  ⟨w % 256, w / 256 % 256, w / 65536 % 256, w / 16777216, by omega, by omega, by omega,
    by omega, by omega⟩

/-- C26: on a little-endian host, for every 16-bit `v` and 32-bit `w`: the host integer
loaded from the big-endian bytes of `v` (of `w`) is turned into `v` (`w`) by `GET_U16`
(`GET_U32`); `swap_uint16` and `swap_uint32` are involutions; and `swap_int16`,
`swap_int32` return the bit pattern that `swap_uint16`, `swap_uint32` return. -/
theorem swap_roundtrip (v w : Nat) (hv : v < 2 ^ 16) (hw : w < 2 ^ 32) :
    GET_U16 (le16 (fun i => [v / 256, v % 256].getD i 0) 0) = v
    ∧ GET_U32 (le32 (fun i =>
        [w / 16777216, w / 65536 % 256, w / 256 % 256, w % 256].getD i 0) 0) = w
    ∧ swap_uint16 (swap_uint16 v) = v
    ∧ swap_uint32 (swap_uint32 w) = w
    ∧ swap_int16 v = swap_uint16 v
    ∧ swap_int32 w = swap_uint32 w := by
  obtain ⟨a0, a1, ha0, ha1, rfl⟩ := byte_split16 v hv
  obtain ⟨b0, b1, b2, b3, hb0, hb1, hb2, hb3, rfl⟩ := byte_split32 w hw
  refine ⟨?_, ?_, ?_, ?_, ?_, ?_⟩
  · have e1 : (a0 + 256 * a1) / 256 = a1 := by omega
    have e2 : (a0 + 256 * a1) % 256 = a0 := by omega
    have e3 : (2 : Nat) ^ 8 = 256 := by norm_num
    simp only [GET_U16, le16, List.getD_cons_zero, List.getD_cons_succ, Nat.zero_add]
    rw [e1, e2, e3, swap_uint16_bytes a1 a0 ha1 ha0]
    omega
  · have e0 : (b0 + 256 * b1 + 65536 * b2 + 16777216 * b3) % 256 = b0 := by omega
    have e1 : (b0 + 256 * b1 + 65536 * b2 + 16777216 * b3) / 256 % 256 = b1 := by omega
    have e2 : (b0 + 256 * b1 + 65536 * b2 + 16777216 * b3) / 65536 % 256 = b2 := by omega
    have e3 : (b0 + 256 * b1 + 65536 * b2 + 16777216 * b3) / 16777216 = b3 := by omega
    have p8 : (2 : Nat) ^ 8 = 256 := by norm_num
    have p16 : (2 : Nat) ^ 16 = 65536 := by norm_num
    have p24 : (2 : Nat) ^ 24 = 16777216 := by norm_num
    simp only [GET_U32, le32, List.getD_cons_zero, List.getD_cons_succ, Nat.zero_add]
    rw [e0, e1, e2, e3, p8, p16, p24, swap_uint32_bytes b3 b2 b1 b0 hb3 hb2 hb1 hb0]
    omega
  · rw [swap_uint16_bytes a0 a1 ha0 ha1]
    have e : 256 * a0 + a1 = a1 + 256 * a0 := by omega
    rw [e, swap_uint16_bytes a1 a0 ha1 ha0]
    omega
  · rw [swap_uint32_bytes b0 b1 b2 b3 hb0 hb1 hb2 hb3]
    have e : 16777216 * b0 + 65536 * b1 + 256 * b2 + b3
        = b3 + 256 * b2 + 65536 * b1 + 16777216 * b0 := by omega
    rw [e, swap_uint32_bytes b3 b2 b1 b0 hb3 hb2 hb1 hb0]
    omega
  · rw [swap_int16_bytes a0 a1 ha0 ha1, swap_uint16_bytes a0 a1 ha0 ha1]
  · rw [swap_int32_bytes b0 b1 b2 b3 hb0 hb1 hb2 hb3,
      swap_uint32_bytes b0 b1 b2 b3 hb0 hb1 hb2 hb3]

/-- C26 (witness): the values `0x8001` and `0x80000001`, whose sign bits are set and
whose swapped values `0x0180` and `0x01000080` have them clear. -/
theorem swap_roundtrip_witness :
    GET_U16 (le16 (fun i => [0x8001 / 256, 0x8001 % 256].getD i 0) 0) = 0x8001
    ∧ GET_U32 (le32 (fun i => [0x80000001 / 16777216, 0x80000001 / 65536 % 256,
        0x80000001 / 256 % 256, 0x80000001 % 256].getD i 0) 0) = 0x80000001
    ∧ swap_uint16 (swap_uint16 0x8001) = 0x8001
    ∧ swap_uint32 (swap_uint32 0x80000001) = 0x80000001
    ∧ swap_int16 0x8001 = swap_uint16 0x8001
    ∧ swap_int32 0x80000001 = swap_uint32 0x80000001 :=
  swap_roundtrip 0x8001 0x80000001 (by decide) (by decide)

/-- C29: for a super block with `0 < cg_ino_bbs` and every 32-bit inode number the value
asserted inside `inode2loc`, computed in `uint32_t` arithmetic, equals `ino`; the
assertion does not fail and `inode2loc` returns. -/
theorem inode2loc_assertion_holds (fs : efs_fs) (ino : Nat) (hino : ino < 2 ^ 32)
    (hpos : 0 < GET_I16 fs.sb.s_cg_ino_bbs) (hsgn : GET_I16 fs.sb.s_cg_ino_bbs < 2 ^ 15) :
    (let ino_bbs_per_cg := sx16 (GET_I16 fs.sb.s_cg_ino_bbs)
     let inos_per_cg := (ino_bbs_per_cg * INOS_PER_BB) % 2 ^ 32
     let cg := ino / inos_per_cg
     let cgofs := (ino % inos_per_cg) / INOS_PER_BB
     let idx := ino &&& (INOS_PER_BB - 1)
     (cg * ino_bbs_per_cg * INOS_PER_BB + idx + cgofs * INOS_PER_BB) % 2 ^ 32 = ino)
    ∧ ∃ r, inode2loc fs ino = .ok r := by
  refine ⟨?_, _, inode2loc_value fs ino hino hpos hsgn⟩
  have hI : INOS_PER_BB = 4 := by decide
  dsimp only
  rw [sx16_of_pos hsgn, and_three_eq_mod, hI,
    Nat.mod_eq_of_lt (show GET_I16 fs.sb.s_cg_ino_bbs * 4 < 2 ^ 32 by omega),
    inode2loc_assert_value, Nat.mod_eq_of_lt hino]

/-- C29 (witness): inode number 4294967295 with `cg_ino_bbs = 2`. -/
theorem inode2loc_assertion_holds_witness :
    (let ino_bbs_per_cg := sx16 (GET_I16 sb1_fs.sb.s_cg_ino_bbs)
     let inos_per_cg := (ino_bbs_per_cg * INOS_PER_BB) % 2 ^ 32
     let cg := 4294967295 / inos_per_cg
     let cgofs := (4294967295 % inos_per_cg) / INOS_PER_BB
     let idx := 4294967295 &&& (INOS_PER_BB - 1)
     (cg * ino_bbs_per_cg * INOS_PER_BB + idx + cgofs * INOS_PER_BB) % 2 ^ 32 = 4294967295)
    ∧ ∃ r, inode2loc sb1_fs 4294967295 = .ok r :=
  inode2loc_assertion_holds sb1_fs 4294967295 (by decide) (by decide) (by decide)

/-! ### Choice of the partition (C22) -/

theorem efs_vol_open_loop_eq (hdr : Nat → Nat) :
    ∀ (n i : Nat) (p : Int),
      efs_vol_open_loop hdr n i p
        = match (List.range' i n).reverse.find?
            (fun i => GET_I32 (p_blocks hdr i) != 0 && GET_I32 (p_type hdr i) == PART_EFS) with
          | some j => (j : Int)
          | none => p := by
  intro n
  induction n with
  | zero => intro i p; rfl
  | succ n ih =>
    intro i p
    rw [efs_vol_open_loop, List.range'_succ, List.reverse_cons, List.find?_append]
    by_cases hc : GET_I32 (p_blocks hdr i) = 0
    · rw [if_pos hc, ih]
      cases (List.range' (i + 1) n).reverse.find?
          (fun i => GET_I32 (p_blocks hdr i) != 0 && GET_I32 (p_type hdr i) == PART_EFS) with
      | some j => rfl
      | none => simp [hc]
    · rw [if_neg hc]
      by_cases ht : GET_I32 (p_type hdr i) = PART_EFS
      · rw [if_pos ht, ih]
        cases (List.range' (i + 1) n).reverse.find?
            (fun i => GET_I32 (p_blocks hdr i) != 0 && GET_I32 (p_type hdr i) == PART_EFS) with
        | some j => rfl
        | none => simp [hc, ht]
      · rw [if_neg ht, ih]
        cases (List.range' (i + 1) n).reverse.find?
            (fun i => GET_I32 (p_blocks hdr i) != 0 && GET_I32 (p_type hdr i) == PART_EFS) with
        | some j => rfl
        | none => simp [hc, ht]

theorem last_efs_part_lt (hdr : Nat → Nat) (j : Nat) (h : last_efs_part hdr = some j) :
    j < VH_PART_NUM := by
  unfold last_efs_part at h
  have hm := List.mem_of_find?_eq_some h
  rw [List.mem_reverse, List.mem_range'_1] at hm
  omega

/-- C22 (amended): when the volume header is read and has the right magic, auto-selection
in `efs_vol_open` settles on the highest index whose partition has `p_blocks != 0` and
`p_type == 5`.  It returns `ENXIO` exactly when there is no such index; it returns
`EINVAL` when that partition has fewer than 10 blocks; otherwise it sets `fs->start` to
`p_first * 512` of that partition (an `int` product) and returns 0. -/
theorem efs_vol_open_auto (fs : efs_fs) (hdr : Nat → Nat)
    (hhdr : efs_get_vol_hdr fs = (0, hdr)) :
    efs_vol_open fs (-1)
      = match last_efs_part hdr with
        | none => .ok ( ENXIO, fs)
        | some i =>
          if int32_val (GET_I32 (p_blocks hdr i)) < 10 then .ok (EINVAL, fs)
          else if int32_val (GET_I32 (p_first hdr i)) * 512 < -2 ^ 31
              ∨ 2 ^ 31 ≤ int32_val (GET_I32 (p_first hdr i)) * 512 then
            .error Fault.undefined
          else .ok (0, { fs with start := int32_val (GET_I32 (p_first hdr i)) * 512 }) := by
  unfold efs_vol_open
  rw [hhdr]
  simp only [ne_eq, not_true_eq_false, if_false, if_true, true_and]
  rw [efs_vol_open_loop_eq]
  cases hl : last_efs_part hdr with
  | none =>
    unfold last_efs_part at hl
    rw [hl]
    simp
  | some j =>
    have hj := last_efs_part_lt hdr j hl
    unfold last_efs_part at hl
    rw [hl]
    have hV : VH_PART_NUM = 16 := rfl
    have h1 : ¬ ((j : Int) = -1) := by omega
    have h2 : ¬ ((j : Int) < 0 ∨ ((VH_PART_NUM : Nat) : Int) ≤ (j : Int)) := by omega
    simp only [h1, h2, if_false, Int.toNat_ofNat]
    rfl

/-- C22 (witness): on `vol_img` the choice is partition 7, which starts at block 200. -/
theorem efs_vol_open_auto_witness :
    last_efs_part vol_hdr = some 7
    ∧ efs_vol_open vol_fs (-1)
      = match last_efs_part vol_hdr with
        | none => .ok ( ENXIO, vol_fs)
        | some i =>
          if int32_val (GET_I32 (p_blocks vol_hdr i)) < 10 then .ok (EINVAL, vol_fs)
          else if int32_val (GET_I32 (p_first vol_hdr i)) * 512 < -2 ^ 31
              ∨ 2 ^ 31 ≤ int32_val (GET_I32 (p_first vol_hdr i)) * 512 then
            .error Fault.undefined
          else .ok (0, { vol_fs with start := int32_val (GET_I32 (p_first vol_hdr i)) * 512 }) :=
  ⟨by decide!, efs_vol_open_auto vol_fs vol_hdr rfl⟩

/-- C22 (counterexample): on `vol_img` the lowest index with type 5 and at least 10 blocks
is 0 (start at block 10), but `efs_vol_open` returns 0 with `start = 200 * 512`, the
start of partition 7; on `vol_small_img` the indices 0 and 7 qualify, but
`efs_vol_open` looks at partition 12 (type 5, 5 blocks) and returns `EINVAL`. -/
theorem efs_vol_open_not_first :
    first_fit_part vol_img = some 0
    ∧ int32_val (GET_I32 (p_first vol_img 0)) = 10
    ∧ (efs_vol_open vol_fs (-1)).map (fun r => (r.1, r.2.start)) = .ok (0, 200 * 512)
    ∧ first_fit_part vol_small_img = some 0
    ∧ (efs_vol_open vol_small_fs (-1)).map (fun r => (r.1, r.2.start)) = .ok (EINVAL, 0) := by
  decide!

/-! ### Ascending extents (C30) -/

theorem chain_sum_le_last :
    ∀ (l : List efs_extent) (a : efs_extent),
      List.Chain' (fun a b => a.e_offset + a.e_len ≤ b.e_offset) (a :: l) →
      (∀ e ∈ a :: l, e.e_offset + e.e_len < 2 ^ 32) →
      a.e_offset + sum_len (a :: l) ≤ last_end (a :: l) := by
  intro l
  induction l with
  | nil =>
    intro a _ hb
    have := hb a (List.mem_cons_self _ _)
    simp only [last_end, List.getLast?_singleton, sum_len, List.map_cons, List.map_nil,
      List.sum_cons, List.sum_nil]
    omega
  | cons b l ih =>
    intro a hc hb
    rw [List.chain'_cons] at hc
    have h1 := ih b hc.2 (fun e he => hb e (List.mem_cons_of_mem _ he))
    have h2 : last_end (a :: b :: l) = last_end (b :: l) := by
      unfold last_end; rw [List.getLast?_cons_cons]
    have h3 := hc.1
    have h4 : sum_len (a :: b :: l) = a.e_len + sum_len (b :: l) := by
      simp only [sum_len, List.map_cons, List.sum_cons]
    rw [h2, h4]; omega

theorem chain_foldl_max :
    ∀ (l : List efs_extent) (a : efs_extent) (acc : Nat),
      List.Chain' (fun a b => a.e_offset + a.e_len ≤ b.e_offset) (a :: l) →
      (∀ e ∈ a :: l, e.e_offset + e.e_len < 2 ^ 32) →
      acc ≤ a.e_offset + a.e_len →
      ((a :: l).map (fun e => e.e_offset + e.e_len)).foldl max acc = last_end (a :: l) := by
  intro l
  induction l with
  | nil =>
    intro a acc _ hb hacc
    have := hb a (List.mem_cons_self _ _)
    simp only [last_end, List.getLast?_singleton, List.map_cons, List.map_nil,
      List.foldl_cons, List.foldl_nil]
    omega
  | cons b l ih =>
    intro a acc hc hb hacc
    rw [List.chain'_cons] at hc
    have h2 : last_end (a :: b :: l) = last_end (b :: l) := by
      unfold last_end; rw [List.getLast?_cons_cons]
    have h3 := hc.1
    rw [h2, List.map_cons, List.foldl_cons,
      ih b (max acc (a.e_offset + a.e_len)) hc.2
        (fun e he => hb e (List.mem_cons_of_mem _ he)) (by omega)]

/-- C30: for every extent list that is ascending by `e_offset` and pairwise
non-overlapping (each `e_offset` is at least the previous `e_offset + e_len`), with ends
`e_offset + e_len` below `2^32`, `efs_inode_verify_extents` returns (its assertion
holds), with `i_nalloc_blks ≤ i_nblks`, `i_nblks` the maximum of `e_offset + e_len` and
`i_nalloc_blks` the sum of `e_len`. -/
theorem verify_extents_ascending (inode : efs_inode)
    (hlen : inode.i_nextents ≤ inode.i_extents.length)
    (hasc : List.Chain' (fun a b => a.e_offset + a.e_len ≤ b.e_offset) (extents_of inode))
    (hrange : ∀ e ∈ extents_of inode, e.e_offset + e.e_len < 2 ^ 32) :
    ∃ j, efs_inode_verify_extents inode = .ok j
      ∧ j.i_nalloc_blks ≤ j.i_nblks
      ∧ j.i_nblks = max_end (extents_of inode)
      ∧ j.i_nalloc_blks = sum_len (extents_of inode) := by
  rw [verify_extents_eq inode hlen]
  cases hl : extents_of inode with
  | nil =>
    refine ⟨_, if_pos (by decide), ?_, ?_, ?_⟩ <;> rfl
  | cons a l =>
    rw [hl] at hasc hrange
    have h1 := chain_sum_le_last l a hasc hrange
    have h2 := chain_foldl_max l a 0 hasc hrange (Nat.zero_le _)
    have h3 : last_end (a :: l) < 2 ^ 32 := by
      unfold last_end
      split
      · omega
      · exact Nat.mod_lt _ (by omega)
    have h4 : sum_len (a :: l) % 2 ^ 32 = sum_len (a :: l) := Nat.mod_eq_of_lt (by omega)
    rw [h4]
    refine ⟨_, if_pos (by omega), ?_, ?_, rfl⟩
    · show sum_len (a :: l) ≤ last_end (a :: l)
      omega
    · show last_end (a :: l) = max_end (a :: l)
      unfold max_end
      rw [h2]

/-- C30 (witness): the two extents `{0, 1000, 2}`, `{10, 2000, 1}` of `sparse_inode`
give 11 blocks, 3 of them allocated. -/
theorem verify_extents_ascending_witness :
    (max_end (extents_of sparse_inode) = 11 ∧ sum_len (extents_of sparse_inode) = 3)
    ∧ ∃ j, efs_inode_verify_extents sparse_inode = .ok j
      ∧ j.i_nalloc_blks ≤ j.i_nblks
      ∧ j.i_nblks = max_end (extents_of sparse_inode)
      ∧ j.i_nalloc_blks = sum_len (extents_of sparse_inode) :=
  ⟨by decide, verify_extents_ascending sparse_inode (by decide)
    (List.chain'_cons.mpr ⟨by decide, List.chain'_singleton _⟩) (by decide)⟩

/-! ### Destinations of the reads of efs_iread (C31) -/

/-- C31 (code at the failing input): reading the 2 blocks of `two_extent_inode` (extents
`{0, 100, 1}`, `{1, 200, 1}`) from block 0 into a buffer of 1024 bytes issues a read of
2 blocks from device block 100 to the start of the buffer and a read of 3 blocks from
device block 199 to byte offset `(2^32 - 1) * 512 mod 2^32 = 4294966784`; the memory from
there on, 1536 bytes outside the buffer, is overwritten with the bytes of the device
blocks 199..201 (200, 202 at its ends), and `efs_iread` returns 0. -/
theorem efs_iread_writes_outside :
    two_extent_inode.i_nblks = 2
    ∧ (efs_iread blk_fs two_extent_inode 0 2 (fun _ => 0)).map (fun r => (r.1, r.2.2))
        = .ok (0, [iread_req.mk 100 0 2, iread_req.mk 199 4294966784 3])
    ∧ (efs_iread blk_fs two_extent_inode 0 2 (fun _ => 0)).map
        (fun r => (r.2.1 4294966784, r.2.1 4294968319, r.2.1 4294968320))
        = .ok (200, 202, 0)
    ∧ sub32 (sub32 0 1) 0 = 4294967295
    ∧ ¬ (4294966784 + 3 * 512 ≤ 2 * 512) := by
  decide!

/-! ### A name found and an error after it (C33) -/

/-- C33 (code at the failing input): in the directory `stop_dir_inode` on `tree_img` the
name `a` is found in the first block (inode 3, the visitor returns `STOP`); the walk
goes on to the second extent, where the visitor reads block 12, finds the wrong magic
and records `ENXIO` in `dl_error`; `efs_walk` returns 1 with `dl_ino = 3` and
`dl_error = ENXIO`, and the assertion `arg.dl_error == 0` in `efs_dir_lookup` fails. -/
theorem efs_dir_lookup_assertion_fails :
    efs_walk walker_stop_first stop_dir_inode 0 0 [] = .ok (ENOENT, [(10, 0), (12, 1)])
    ∧ efs_walk (dir_lookup_cb tree_fs) stop_dir_inode 0 0
        { dl_name := [97], dl_ino := 0, dl_error := 0 }
        = .ok (1, { dl_name := [97], dl_ino := 3, dl_error := ENXIO })
    ∧ efs_dir_lookup tree_fs stop_dir_inode [97] 0 = .error Fault.assertion := by
  decide!

/-! ### A failed read in efs_iget (C34) -/

/-- C34: when the inode number is not in the inode cache and the read of its 128 on-disk
bytes returns the error `err ≠ 0`, `efs_iget` returns `err` and no inode, the inode
cache and the path cache are as they were, and a further `efs_iget` of the same number
on the state it left does the same again (the number is still not cached, so the read is
made again). -/
theorem efs_iget_read_fails (fs : efs_fs) (st : efs_state) (ino blk ofs err : Nat)
    (od : Nat → Nat)
    (hmiss : st.icache.find? (fun i => i.i_num == ino) = none)
    (hloc : inode2loc fs ino = .ok (blk, ofs))
    (hread : efs_bread fs blk (ofs : Int) fs.junk INO_SIZE = .ok (err, od))
    (herr : err ≠ 0) :
    efs_iget fs st ino = .ok (err, none, { st with nalloc := st.nalloc + 1 })
    ∧ ({ st with nalloc := st.nalloc + 1 } : efs_state).icache = st.icache
    ∧ ({ st with nalloc := st.nalloc + 1 } : efs_state).icache.find?
        (fun i => i.i_num == ino) = none
    ∧ efs_iget fs { st with nalloc := st.nalloc + 1 } ino
        = .ok (err, none, { st with nalloc := st.nalloc + 2 }) := by
  have h : ∀ s : efs_state, s.icache.find? (fun i => i.i_num == ino) = none →
      efs_iget fs s ino = .ok (err, none, { s with nalloc := s.nalloc + 1 }) := by
    intro s hs
    unfold efs_iget efs_iget_locked
    rw [hs]
    dsimp only
    rw [hloc]
    dsimp only
    rw [hread]
    dsimp only
    rw [if_pos herr]
  exact ⟨h st hmiss, rfl, hmiss, h { st with nalloc := st.nalloc + 1 } hmiss⟩

/-- C34 (witness): inode number 100000 on `tree_fs_eio`, whose block lies behind the end
of the image, so that the read returns `EIO`. -/
theorem efs_iget_read_fails_witness :
    efs_iget tree_fs_eio state0 100000
      = .ok ( EIO, none, { state0 with nalloc := state0.nalloc + 1 })
    ∧ ({ state0 with nalloc := state0.nalloc + 1 } : efs_state).icache = state0.icache
    ∧ ({ state0 with nalloc := state0.nalloc + 1 } : efs_state).icache.find?
        (fun i => i.i_num == 100000) = none
    ∧ efs_iget tree_fs_eio { state0 with nalloc := state0.nalloc + 1 } 100000
        = .ok ( EIO, none, { state0 with nalloc := state0.nalloc + 2 }) :=
  efs_iget_read_fails tree_fs_eio state0 100000 1250002 0 EIO tree_fs_eio.junk rfl
    (by decide!) rfl (by decide)

/-! ### Looking up the name of a slot (C32) -/

/-- On a block with the right magic, `efs_db_lookup` returns the inode number of the
lowest slot that matches the name. -/
theorem efs_db_lookup_first (db : Nat → Nat) (name : List Nat) (ino0 : Nat)
    (hb : is_bytes db) (hname : ∀ c ∈ name, c ≠ 0) (hgood : be16 db 0 = 0xBEEF)
    (i : Nat) (hi : i < db_slots db) (hmatch : slot_matches db name i)
    (hbefore : ∀ j, j < i → ¬ slot_matches db name j) :
    efs_db_lookup db name ino0 = (0, be32 db (2 * db_space db i)) := by
  have hm : GET_U16 (db_magic db) = be16 db 0 := GET_U16_le16 hb 0
  have hl := db_lookup_loop_some db name (db_slots db) 0 i (Nat.zero_le i) (by omega)
    ((slot_matches_iff db name hname i).2 hmatch)
    (fun j _ h2 hc => hbefore j h2 ((slot_matches_iff db name hname j).1 hc))
  simp only [efs_db_lookup, hm, EFS_DIRBLK_MAGIC, hl]
  rw [if_neg (fun h => h hgood)]
  simp only [de_ino, GET_U32_le32 hb]

theorem dirent_name_length (db : Nat → Nat) (j : Nat) :
    (dirent_name db j).length = de_namelen db (2 * db_space db j) := by
  simp [dirent_name]

theorem dirent_name_getD (db : Nat → Nat) (j k : Nat)
    (hk : k < de_namelen db (2 * db_space db j)) :
    (dirent_name db j).getD k 0 = de_name db (2 * db_space db j) k := by
  unfold dirent_name
  rw [List.getD_eq_getElem _ _ (by simpa using hk)]
  simp

/-- A slot in use matches the name of slot `i` exactly when it carries the same name. -/
theorem slot_matches_dirent_name (db : Nat → Nat) (i j : Nat) :
    slot_matches db (dirent_name db i) j
      ↔ db_space db j ≠ 0 ∧ dirent_name db j = dirent_name db i := by
  unfold slot_matches
  rw [dirent_name_length]
  constructor
  · rintro ⟨h1, h2, h3⟩
    refine ⟨h1, ?_⟩
    apply List.ext_getElem
    · rw [dirent_name_length, dirent_name_length, h2]
    · intro k hk1 hk2
      rw [dirent_name_length] at hk1 hk2
      have a := dirent_name_getD db j k hk1
      have b := h3 k hk2
      rw [List.getD_eq_getElem _ _ (by rw [dirent_name_length]; exact hk1)] at a
      rw [List.getD_eq_getElem _ _ (by rw [dirent_name_length]; exact hk2)] at b
      rw [a, b]
  · rintro ⟨h1, h2⟩
    have hlen : de_namelen db (2 * db_space db j) = de_namelen db (2 * db_space db i) := by
      rw [← dirent_name_length, ← dirent_name_length, h2]
    refine ⟨h1, hlen, ?_⟩
    intro k hk
    rw [← h2, dirent_name_getD db j k (by omega)]

/-- C32: on a 512-byte directory block with magic `0xBEEF` whose entries lie inside the
block, for a slot `i < db_slots` in use (`space[i] != 0`) whose name has no NUL byte:
`efs_dir_get_dirent` returns the big-endian inode number and the name bytes of the slot;
`efs_db_lookup` of that name returns 0 and the inode number of the lowest slot in use
that carries the same name; and when no other slot in use carries that name, it returns
the inode number that `efs_dir_get_dirent` returned. -/
theorem efs_db_lookup_of_dirent (db : Nat → Nat) (i ino0 : Nat)
    (hb : is_bytes db) (hgood : be16 db 0 = 0xBEEF)
    (_hin : ∀ j, j < db_slots db → db_space db j ≠ 0 →
      2 * db_space db j + 5 + de_namelen db (2 * db_space db j) ≤ 512)
    (hi : i < db_slots db) (hsp : db_space db i ≠ 0)
    (hnul : ∀ c ∈ dirent_name db i, c ≠ 0) :
    efs_dir_get_dirent db i = (0, some (be32 db (2 * db_space db i), dirent_name db i))
    ∧ (∃ j, j ≤ i ∧ db_space db j ≠ 0 ∧ dirent_name db j = dirent_name db i
        ∧ (∀ k, k < j → ¬ (db_space db k ≠ 0 ∧ dirent_name db k = dirent_name db i))
        ∧ efs_db_lookup db (dirent_name db i) ino0 = (0, be32 db (2 * db_space db j)))
    ∧ ((∀ j, j < db_slots db → j ≠ i → db_space db j ≠ 0 →
          dirent_name db j ≠ dirent_name db i) →
        efs_db_lookup db (dirent_name db i) ino0 = (0, be32 db (2 * db_space db i))) := by
  have hm : GET_U16 (db_magic db) = be16 db 0 := GET_U16_le16 hb 0
  have hself : slot_matches db (dirent_name db i) i :=
    (slot_matches_dirent_name db i i).2 ⟨hsp, rfl⟩
  refine ⟨?_, ?_, ?_⟩
  · unfold efs_dir_get_dirent
    rw [hm, hgood, if_neg (by decide), if_neg (by omega)]
    have hs : db_space db i <<< 1 = 2 * db_space db i := by
      rw [Nat.shiftLeft_eq]; omega
    simp only [hs, de_ino, GET_U32_le32 hb]
    have ht : List.takeWhile (fun x => decide (x ≠ 0))
        ((List.range (de_namelen db (2 * db_space db i))).map
          (de_name db (2 * db_space db i))) = dirent_name db i := by
      show List.takeWhile (fun x => decide (x ≠ 0)) (dirent_name db i) = dirent_name db i
      exact List.takeWhile_eq_self_iff.mpr (fun c hc => by simpa using hnul c hc)
    rw [ht]
  · classical
    have hex : ∃ j, j < db_slots db ∧ slot_matches db (dirent_name db i) j := ⟨i, hi, hself⟩
    have hj := Nat.find_spec hex
    have hmin : ∀ k, k < Nat.find hex → ¬ slot_matches db (dirent_name db i) k := by
      intro k hlt hc
      have hle : Nat.find hex ≤ i := Nat.find_min' hex ⟨hi, hself⟩
      exact Nat.find_min hex hlt ⟨by omega, hc⟩
    refine ⟨Nat.find hex, Nat.find_min' hex ⟨hi, hself⟩,
      ((slot_matches_dirent_name db i _).1 hj.2).1,
      ((slot_matches_dirent_name db i _).1 hj.2).2, ?_, ?_⟩
    · intro k hk hc
      exact hmin k hk ((slot_matches_dirent_name db i k).2 hc)
    · exact efs_db_lookup_first db _ ino0 hb hnul hgood _ hj.1 hj.2 hmin
  · intro hdist
    apply efs_db_lookup_first db _ ino0 hb hnul hgood i hi hself
    intro j hj hc
    have h := (slot_matches_dirent_name db i j).1 hc
    exact hdist j (by omega) (by omega) h.1 h.2

/-- C32 (witness): slot 2 of the root directory block of `tree_img` carries the name `f`
and the inode number 5, and no other slot carries that name. -/
theorem efs_db_lookup_of_dirent_witness :
    efs_dir_get_dirent tree_db10 2 = (0, some (5, [102]))
    ∧ efs_db_lookup tree_db10 [102] 0 = (0, 5) :=
  ⟨(efs_db_lookup_of_dirent tree_db10 2 0 tree_db10_is_bytes (by decide) (by decide)
      (by decide) (by decide) (by decide)).1,
    (efs_db_lookup_of_dirent tree_db10 2 0 tree_db10_is_bytes (by decide) (by decide)
      (by decide) (by decide) (by decide)).2.2 (by decide)⟩

end EFS
